import Mathlib

/-!
# Lua debug interface (`ldebug.c`): line resolution, register provenance, hooks

A shallow embedding of the debug interface of the vendored Lua interpreter
(`src/Client/Client/lua/src/ldebug.c`), of the traceback and substitution
functions of its auxiliary library (`src/Server/Common/lua/src/lauxlib.c`) and
of the function `average` of the demonstration program.

Conventions of the embedding

* C `int` values are `Int`; array indices are `Int` as well and every array
  read goes through `rd`, which reports `Fault.outOfBounds` for an index
  outside the array (undefined behaviour in C).
* A `lua_assert` that does not hold is reported as `Fault.assertion`.
* Loops are unrolled with an iteration budget; a budget that runs out is
  reported as `Fault.outOfFuel`.  The budgets passed by the top-level
  functions are proved to be sufficient.
* C strings are lists of characters without the terminating zero; a buffer
  (`luaL_Buffer`) is the list of what was added to it.
* Macros, constants and tables of headers that are not among the sources
  (`ldebug.h`, `lopcodes.h`, `lopcodes.c`) are collected in `Macros` and
  passed as a parameter.
-/

set_option autoImplicit false

namespace LuaDebug

/-! ## Faults -/

/-- Ways in which the checked model stops without a result. -/
inductive Fault
  | outOfBounds
  | assertion
  | outOfFuel
  deriving DecidableEq, Repr

deriving instance DecidableEq for Except

/-- Checked array read `xs[i]` with a C `int` index. -/
def rd {α : Type} (xs : List α) (i : Int) : Except Fault α :=
  if 0 ≤ i then
    match xs[i.toNat]? with
    | some x => .ok x
    | none => .error .outOfBounds
  else .error .outOfBounds

/-! ## Instructions -/

/-- Modelled from the spec: the opcode enumeration of `lopcodes.h` (not among
the sources).  The constructors are the opcodes of the instruction set whose
names `ldebug.c` switches on, completed with the remaining opcodes of the same
instruction set. -/
inductive OpCode
  | OP_MOVE | OP_LOADI | OP_LOADF | OP_LOADK | OP_LOADKX | OP_LOADFALSE
  | OP_LFALSESKIP | OP_LOADTRUE | OP_LOADNIL | OP_GETUPVAL | OP_SETUPVAL
  | OP_GETTABUP | OP_GETTABLE | OP_GETI | OP_GETFIELD
  | OP_SETTABUP | OP_SETTABLE | OP_SETI | OP_SETFIELD
  | OP_NEWTABLE | OP_SELF
  | OP_ADDI | OP_ADDK | OP_SUBK | OP_MULK | OP_MODK | OP_POWK | OP_DIVK
  | OP_IDIVK | OP_BANDK | OP_BORK | OP_BXORK | OP_SHRI | OP_SHLI
  | OP_ADD | OP_SUB | OP_MUL | OP_MOD | OP_POW | OP_DIV | OP_IDIV
  | OP_BAND | OP_BOR | OP_BXOR | OP_SHL | OP_SHR
  | OP_MMBIN | OP_MMBINI | OP_MMBINK
  | OP_UNM | OP_BNOT | OP_NOT | OP_LEN | OP_CONCAT
  | OP_CLOSE | OP_TBC | OP_JMP
  | OP_EQ | OP_LT | OP_LE | OP_EQK | OP_EQI | OP_LTI | OP_LEI | OP_GTI | OP_GEI
  | OP_TEST | OP_TESTSET
  | OP_CALL | OP_TAILCALL | OP_RETURN | OP_RETURN0 | OP_RETURN1
  | OP_FORLOOP | OP_FORPREP | OP_TFORPREP | OP_TFORCALL | OP_TFORLOOP
  | OP_SETLIST | OP_CLOSURE | OP_VARARG | OP_VARARGPREP | OP_EXTRAARG
  deriving DecidableEq, Repr

/-- Modelled from the spec: a fixed-width instruction, "decomposable into an
opcode plus up to three operand fields (A, B, C or a signed combined field)
and a flag marking whether the C operand is a register index or a
constant-pool index".  The decoding macros of `lopcodes.h` are not among the
sources, so an instruction is kept in decoded form, one field per macro. -/
structure Instruction where
  opcode : OpCode
  A : Nat := 0
  B : Nat := 0
  C : Nat := 0
  k : Bool := false
  Bx : Nat := 0
  Ax : Nat := 0
  sJ : Int := 0
  deriving DecidableEq, Repr

@[reducible] def GET_OPCODE (i : Instruction) : OpCode := i.opcode
@[reducible] def GETARG_A (i : Instruction) : Int := i.A
@[reducible] def GETARG_B (i : Instruction) : Int := i.B
@[reducible] def GETARG_C (i : Instruction) : Int := i.C
@[reducible] def GETARG_k (i : Instruction) : Bool := i.k
@[reducible] def GETARG_Bx (i : Instruction) : Int := i.Bx
@[reducible] def GETARG_Ax (i : Instruction) : Int := i.Ax
@[reducible] def GETARG_sJ (i : Instruction) : Int := i.sJ

/-- Macros, constants and tables that `ldebug.c` takes from headers that are
not among the sources. -/
structure Macros where
  /-- Value of `MAXIWTHABS` of `ldebug.h`: the stride of the absolute line checkpoints. -/
  MAXIWTHABS : Nat
  /-- Value of `ABSLINEINFO` of `ldebug.h`: the sentinel entry of `lineinfo`. -/
  ABSLINEINFO : Int
  /-- Macro `testAMode` of `lopcodes.h`: does the opcode write register A? -/
  testAMode : OpCode → Bool
  /-- Macro `isIT` of `lopcodes.h`: does the instruction use the stack top as input? -/
  isIT : Instruction → Bool

/-- Modelled from the spec: `testMMMode` of `lopcodes.h` (not among the
sources), true for the "metamethod binary op" family of instructions. -/
def testMMMode (op : OpCode) : Bool :=
  match op with
  | .OP_MMBIN | .OP_MMBINI | .OP_MMBINK => true
  | _ => false

/-! ## Prototypes -/

/-- Values (`TValue`), by type tag; collectable objects other than strings are
identified by a number. -/
inductive TValue
  | nil
  | boolean (b : Bool)
  | lightuserdata (p : Nat)
  | integer (n : Int)
  | float (bits : Nat)
  | string (s : String)
  | table (id : Nat)
  | function (id : Nat)
  | userdata (id : Nat)
  | thread (id : Nat)
  deriving DecidableEq, Repr

/-- Address of a `TValue`: a slot of the Lua stack, by index, or a value that
lives elsewhere (a closed upvalue, a constant, a temporary). -/
inductive Addr
  | stack (idx : Int)
  | heap (id : Nat)
  deriving DecidableEq, Repr

/-- A pointer `const TValue *`: the address and the value stored there. -/
structure TValuePtr where
  addr : Addr
  val : TValue
  deriving DecidableEq, Repr

/-- Entry of `abslineinfo`: an absolute line checkpoint. -/
structure AbsLineInfo where
  pc : Int
  line : Int
  deriving DecidableEq, Repr

/-- Entry of `locvars`: a local variable and its range of activity. -/
structure LocVar where
  varname : String
  startpc : Int
  endpc : Int
  deriving DecidableEq, Repr

/-- Function prototype (`Proto`).  A `lineinfo` that is `none` is the NULL
pointer of a prototype without debug information; the `size...` fields of the
C structure are the lengths of the lists. -/
structure Proto where
  code : List Instruction := []
  k : List TValue := []
  lineinfo : Option (List Int) := none
  abslineinfo : List AbsLineInfo := []
  locvars : List LocVar := []
  upvalues : List (Option String) := []
  linedefined : Int := 0
  lastlinedefined : Int := 0
  is_vararg : Bool := false
  numparams : Nat := 0
  source : Option String := none

@[reducible] def Proto.sizecode (f : Proto) : Int := f.code.length
@[reducible] def Proto.sizeabslineinfo (f : Proto) : Int := f.abslineinfo.length
@[reducible] def Proto.sizeupvalues (f : Proto) : Int := f.upvalues.length
@[reducible] def Proto.sizelocvars (f : Proto) : Int := f.locvars.length

/-! ## Line resolver -/

/-- Macro `cast_uint`: conversion of an `int` to `unsigned int`. -/
def cast_uint (x : Int) : Int := x % 4294967296

/-- Conversion of the value of an `unsigned int` expression to `int`. -/
def cast_int (x : Int) : Int :=
  if x % 4294967296 < 2147483648 then x % 4294967296 else x % 4294967296 - 4294967296

/-- The `while` loop of `getbaseline`: `while (i + 1 < size && pc >= abs[i+1].pc) i++`. -/
def getbaseline_adjust (f : Proto) (pc : Int) : Nat → Int → Except Fault Int
  | 0, _ => .error .outOfFuel
  | fuel + 1, i =>
    if i + 1 < f.sizeabslineinfo then
      match rd f.abslineinfo (i + 1) with
      | .error e => .error e
      | .ok next =>
        if pc ≥ next.pc then getbaseline_adjust f pc fuel (i + 1)
        else .ok i
    else .ok i

/-- The assertion of `getbaseline`:
`lua_assert(i < 0 || (i < f->sizeabslineinfo && f->abslineinfo[i].pc <= pc))`. -/
def getbaseline_assert (f : Proto) (pc i : Int) : Except Fault Unit :=
  if i < 0 then .ok ()
  else if i < f.sizeabslineinfo then
    match rd f.abslineinfo i with
    | .error e => .error e
    | .ok est => if est.pc ≤ pc then .ok () else .error .assertion
  else .error .assertion

/-- Function `getbaseline`: the result is `(baseline, basepc)`, the value returned and
the value stored through `basepc`. -/
def getbaseline (m : Macros) (f : Proto) (pc : Int) : Except Fault (Int × Int) :=
  if f.sizeabslineinfo = 0 then .ok (f.linedefined, -1)
  else
    match rd f.abslineinfo 0 with
    | .error e => .error e
    | .ok first =>
      if pc < first.pc then .ok (f.linedefined, -1)
      else
        let i := cast_int (cast_uint pc / m.MAXIWTHABS - 1)
        match getbaseline_assert f pc i with
        | .error e => .error e
        | .ok _ =>
          match getbaseline_adjust f pc (f.abslineinfo.length + 1) i with
          | .error e => .error e
          | .ok i =>
            match rd f.abslineinfo i with
            | .error e => .error e
            | .ok base => .ok (base.line, base.pc)

/-- The `while` loop of `luaG_getfuncline`:
`while (basepc++ < pc) { lua_assert(lineinfo[basepc] != ABSLINEINFO); baseline += lineinfo[basepc]; }`. -/
def getfuncline_walk (m : Macros) (lineinfo : List Int) (pc : Int) :
    Nat → Int → Int → Except Fault Int
  | 0, _, _ => .error .outOfFuel
  | fuel + 1, basepc, baseline =>
    if basepc < pc then
      match rd lineinfo (basepc + 1) with
      | .error e => .error e
      | .ok d =>
        if d = m.ABSLINEINFO then .error .assertion
        else getfuncline_walk m lineinfo pc fuel (basepc + 1) (baseline + d)
    else .ok baseline

/-- Function `luaG_getfuncline`: the line of instruction `pc` of function `f`. -/
def luaG_getfuncline (m : Macros) (f : Proto) (pc : Int) : Except Fault Int :=
  match f.lineinfo with
  | none => .ok (-1)
  | some lineinfo =>
    match getbaseline m f pc with
    | .error e => .error e
    | .ok (baseline, basepc) =>
      getfuncline_walk m lineinfo pc ((pc - basepc).toNat + 1) basepc baseline

/-- Outcome of one pass of the `for (;;)` loop of `changedline`. -/
inductive DeltaWalk
  | broke
  | returned (changed : Bool)
  deriving DecidableEq, Repr

/-- The `for (;;)` loop of `changedline`, from the state `(pc, delta)`. -/
def changedline_loop (m : Macros) (lineinfo : List Int) (newpc : Int) :
    Nat → Int → Int → Except Fault DeltaWalk
  | 0, _, _ => .error .outOfFuel
  | fuel + 1, pc, delta =>
    match rd lineinfo (pc + 1) with
    | .error e => .error e
    | .ok lineinfo_pc =>
      if lineinfo_pc = m.ABSLINEINFO then .ok .broke
      else if pc + 1 = newpc then .ok (.returned (decide (delta + lineinfo_pc ≠ 0)))
      else changedline_loop m lineinfo newpc fuel (pc + 1) (delta + lineinfo_pc)

/-- The last statement of `changedline`:
`return (luaG_getfuncline(p, oldpc) != luaG_getfuncline(p, newpc))`. -/
def changedline_full (m : Macros) (p : Proto) (oldpc newpc : Int) : Except Fault Bool :=
  match luaG_getfuncline m p oldpc with
  | .error e => .error e
  | .ok l0 =>
    match luaG_getfuncline m p newpc with
    | .error e => .error e
    | .ok l1 => .ok (decide (l0 ≠ l1))

/-- Function `changedline`: is `newpc` in a different line from `oldpc`? -/
def changedline (m : Macros) (p : Proto) (oldpc newpc : Int) : Except Fault Bool :=
  match p.lineinfo with
  | none => .ok false
  | some lineinfo =>
    if newpc - oldpc < (m.MAXIWTHABS : Int) / 2 then
      match changedline_loop m lineinfo newpc (lineinfo.length + 1) oldpc 0 with
      | .error e => .error e
      | .ok (.returned changed) => .ok changed
      | .ok .broke => changedline_full m p oldpc newpc
    else changedline_full m p oldpc newpc

/-! ## Well-formed line information -/

/-- Sum of `lineinfo[i+1..j]`. -/
def sumLineinfo (lineinfo : List Int) (i j : Nat) : Int :=
  ((lineinfo.take (j + 1)).drop (i + 1)).sum

/-- Well-formed line information: `lineinfo` is as long as `code`, every
`ABSLINEINFO` entry of `lineinfo` has a checkpoint in `abslineinfo`, the
checkpoint offsets are code offsets in strictly increasing order, the first
one is at most `MAXIWTHABS`, consecutive ones are at most `MAXIWTHABS` apart
and the code ends at most `MAXIWTHABS` after the last one. -/
def WellFormed (m : Macros) (f : Proto) : Prop :=
  0 < m.MAXIWTHABS ∧
  f.code.length < 2147483648 ∧
  (∀ li ∈ f.lineinfo, li.length = f.code.length) ∧
  (∀ li ∈ f.lineinfo, ∀ pc, pc < li.length → li[pc]? = some m.ABSLINEINFO →
    ∃ e ∈ f.abslineinfo, e.pc = (pc : Int)) ∧
  (∀ e ∈ f.abslineinfo, 0 ≤ e.pc) ∧
  f.abslineinfo.Pairwise (fun a b => a.pc < b.pc) ∧
  (∀ e ∈ f.abslineinfo.head?, e.pc ≤ (m.MAXIWTHABS : Int)) ∧
  (∀ k, k < f.abslineinfo.length - 1 → ∀ a ∈ f.abslineinfo[k]?, ∀ b ∈ f.abslineinfo[k + 1]?,
    b.pc ≤ a.pc + (m.MAXIWTHABS : Int)) ∧
  (∀ e ∈ f.abslineinfo.getLast?, (f.code.length : Int) ≤ e.pc + (m.MAXIWTHABS : Int))

/-- Every checkpoint of `abslineinfo` sits at an `ABSLINEINFO` entry of `lineinfo`. -/
def CheckpointsAtSentinels (m : Macros) (f : Proto) : Prop :=
  ∀ li ∈ f.lineinfo, ∀ e ∈ f.abslineinfo, rd li e.pc = .ok m.ABSLINEINFO

/-- A prototype of three instructions whose table of checkpoints has an entry
at offset 1 although `lineinfo[1]` is an ordinary delta. -/
def protoStray : Proto :=
  { code := [{ opcode := .OP_LOADI, A := 0 }, { opcode := .OP_LOADI, A := 1 },
             { opcode := .OP_RETURN0 }],
    lineinfo := some [0, 1, 1],
    abslineinfo := [{ pc := 1, line := 100 }],
    linedefined := 1 }

/-- The prototype `protoStray` with the line of its checkpoint set to 1. -/
def protoStraySameLine : Proto :=
  { protoStray with abslineinfo := [{ pc := 1, line := 1 }] }

/-- A prototype of four instructions with one checkpoint, at the sentinel entry
of offset 2. -/
def protoLines : Proto :=
  { code := [{ opcode := .OP_LOADI, A := 0 }, { opcode := .OP_LOADI, A := 1 },
             { opcode := .OP_LOADI, A := 2 }, { opcode := .OP_RETURN0 }],
    lineinfo := some [1, 0, -128, 1],
    abslineinfo := [{ pc := 2, line := 7 }],
    linedefined := 0 }

/-! ## Symbolic execution -/

/-- Modelled from the spec: `luaF_getlocalname` of `lfunc.c` (only its
declaration, in `lfunc.h`, is among the sources).  The table holds "per-local
records of (name, firstActivePC, lastActivePC) — a local is only named within
this half-open instruction range"; the result is the name of the
`local_number`-th variable active at `pc`, in the order of the table, which is
sorted by `startpc`. -/
def luaF_getlocalname_scan : List LocVar → Int → Int → Option String
  | [], _, _ => none
  | v :: rest, local_number, pc =>
    if v.startpc ≤ pc then
      if pc < v.endpc then
        if local_number - 1 = 0 then some v.varname
        else luaF_getlocalname_scan rest (local_number - 1) pc
      else luaF_getlocalname_scan rest local_number pc
    else none

/-- Modelled from the spec: `luaF_getlocalname` of `lfunc.c`, see
`luaF_getlocalname_scan`. -/
def luaF_getlocalname (f : Proto) (local_number pc : Int) : Option String :=
  luaF_getlocalname_scan f.locvars local_number pc

/-- Function `upvalname`: `check_exp(uv < p->sizeupvalues, p->upvalues[uv].name)`, with
"?" for a NULL name. -/
def upvalname (p : Proto) (uv : Int) : Except Fault String :=
  if uv < p.sizeupvalues then
    match rd p.upvalues uv with
    | .error e => .error e
    | .ok none => .ok "?"
    | .ok (some s) => .ok s
  else .error .assertion

/-- Function `filterpc`. -/
def filterpc (pc jmptarget : Int) : Int :=
  if pc < jmptarget then -1 else pc

/-- The `switch` of `findsetreg` for the instruction `i` at offset `pc`: the
value of `change` and the value of `jmptarget` after it. -/
def findsetreg_switch (m : Macros) (i : Instruction) (pc lastpc reg jmptarget : Int) :
    Bool × Int :=
  let a := GETARG_A i
  match GET_OPCODE i with
  | .OP_LOADNIL =>
    let b := GETARG_B i
    (decide (a ≤ reg ∧ reg ≤ a + b), jmptarget)
  | .OP_TFORCALL => (decide (reg ≥ a + 2), jmptarget)
  | .OP_CALL | .OP_TAILCALL => (decide (reg ≥ a), jmptarget)
  | .OP_JMP =>
    let b := GETARG_sJ i
    let dest := pc + 1 + b
    (false, if dest ≤ lastpc ∧ dest > jmptarget then dest else jmptarget)
  | op => (m.testAMode op && decide (reg = a), jmptarget)

/-- Does instruction `i` change register `reg`?  The value of `change` in the
`switch` of `findsetreg`. -/
def writesReg (m : Macros) (i : Instruction) (reg : Int) : Bool :=
  (findsetreg_switch m i 0 0 reg 0).1

/-- The `for` loop of `findsetreg`, from the state `(pc, setreg, jmptarget)`. -/
def findsetreg_loop (m : Macros) (p : Proto) (lastpc reg : Int) :
    Nat → Int → Int → Int → Except Fault Int
  | 0, _, _, _ => .error .outOfFuel
  | fuel + 1, pc, setreg, jmptarget =>
    if pc < lastpc then
      match rd p.code pc with
      | .error e => .error e
      | .ok i =>
        let (change, jmptarget) := findsetreg_switch m i pc lastpc reg jmptarget
        findsetreg_loop m p lastpc reg fuel (pc + 1)
          (if change then filterpc pc jmptarget else setreg) jmptarget
    else .ok setreg

/-- Function `findsetreg`: the last instruction before `lastpc` that modified register
`reg`, or -1. -/
def findsetreg (m : Macros) (p : Proto) (lastpc reg : Int) : Except Fault Int :=
  match rd p.code lastpc with
  | .error e => .error e
  | .ok last =>
    let lastpc := if testMMMode (GET_OPCODE last) then lastpc - 1 else lastpc
    findsetreg_loop m p lastpc reg (lastpc.toNat + 1) 0 (-1) 0

/-- Result of the name functions: the kind returned (`none` for NULL), the
string stored through `name` (`none` for NULL) and the offset stored through
`ppc`. -/
structure ObjName where
  kind : Option String
  name : Option String
  pc : Int
  deriving DecidableEq, Repr

/-- Function `kname`: the kind and name for constant `index`. -/
def kname (p : Proto) (index : Int) : Except Fault (Option String × Option String) :=
  match rd p.k index with
  | .error e => .error e
  | .ok (.string s) => .ok (some "constant", some s)
  | .ok _ => .ok (none, some "?")

/-- Function `basicgetobjname`, with a budget for the recursion through `OP_MOVE`. -/
def basicgetobjname_aux (m : Macros) (p : Proto) : Nat → Int → Int → Except Fault ObjName
  | 0, _, _ => .error .outOfFuel
  | fuel + 1, pc, reg =>
    match luaF_getlocalname p (reg + 1) pc with
    | some n => .ok { kind := some "local", name := some n, pc := pc }
    | none =>
      match findsetreg m p pc reg with
      | .error e => .error e
      | .ok pc =>
        if pc ≠ -1 then
          match rd p.code pc with
          | .error e => .error e
          | .ok i =>
            match GET_OPCODE i with
            | .OP_MOVE =>
              let b := GETARG_B i
              if b < GETARG_A i then basicgetobjname_aux m p fuel pc b
              else .ok { kind := none, name := none, pc := pc }
            | .OP_GETUPVAL =>
              match upvalname p (GETARG_B i) with
              | .error e => .error e
              | .ok s => .ok { kind := some "upvalue", name := some s, pc := pc }
            | .OP_LOADK =>
              match kname p (GETARG_Bx i) with
              | .error e => .error e
              | .ok (kind, name) => .ok { kind := kind, name := name, pc := pc }
            | .OP_LOADKX =>
              match rd p.code (pc + 1) with
              | .error e => .error e
              | .ok extra =>
                match kname p (GETARG_Ax extra) with
                | .error e => .error e
                | .ok (kind, name) => .ok { kind := kind, name := name, pc := pc }
            | _ => .ok { kind := none, name := none, pc := pc }
        else .ok { kind := none, name := none, pc := pc }

/-- The call `basicgetobjname(p, &pc, reg, &name)`; the budget is `reg + 1`. -/
def basicgetobjname (m : Macros) (p : Proto) (pc reg : Int) : Except Fault ObjName :=
  basicgetobjname_aux m p (reg.toNat + 1) pc reg

/-- Function `rname`: the name for register `c`, "?" unless it holds a constant. -/
def rname (m : Macros) (p : Proto) (pc c : Int) : Except Fault (Option String) :=
  match basicgetobjname m p pc c with
  | .error e => .error e
  | .ok r =>
    match r.kind with
    | some what => if what.front = 'c' then .ok r.name else .ok (some "?")
    | none => .ok (some "?")

/-- Function `rkname`: the name for the C operand of an RK instruction. -/
def rkname (m : Macros) (p : Proto) (pc : Int) (i : Instruction) :
    Except Fault (Option String) :=
  let c := GETARG_C i
  if GETARG_k i then
    match kname p c with
    | .error e => .error e
    | .ok (_, name) => .ok name
  else rname m p pc c

/-- Modelled from the spec: `LUA_ENV`, the name of "the environment table". -/
def LUA_ENV : String := "_ENV"

/-- Function `isEnv`: is the table indexed by instruction `i` the environment? -/
def isEnv (m : Macros) (p : Proto) (pc : Int) (i : Instruction) (isup : Bool) :
    Except Fault String :=
  let t := GETARG_B i
  let name : Except Fault (Option String) :=
    if isup then
      match upvalname p t with
      | .error e => .error e
      | .ok s => .ok (some s)
    else
      match basicgetobjname m p pc t with
      | .error e => .error e
      | .ok r => .ok r.name
  match name with
  | .error e => .error e
  | .ok name => .ok (if name = some LUA_ENV then "global" else "field")

/-- Function `getobjname`: the kind returned and the string stored through `name`. -/
def getobjname (m : Macros) (p : Proto) (lastpc reg : Int) :
    Except Fault (Option String × Option String) :=
  match basicgetobjname m p lastpc reg with
  | .error e => .error e
  | .ok r =>
    match r.kind with
    | some kind => .ok (some kind, r.name)
    | none =>
      let lastpc := r.pc
      if lastpc ≠ -1 then
        match rd p.code lastpc with
        | .error e => .error e
        | .ok i =>
          match GET_OPCODE i with
          | .OP_GETTABUP =>
            let k := GETARG_C i
            match kname p k with
            | .error e => .error e
            | .ok (_, name) =>
              match isEnv m p lastpc i true with
              | .error e => .error e
              | .ok kind => .ok (some kind, name)
          | .OP_GETTABLE =>
            let k := GETARG_C i
            match rname m p lastpc k with
            | .error e => .error e
            | .ok name =>
              match isEnv m p lastpc i false with
              | .error e => .error e
              | .ok kind => .ok (some kind, name)
          | .OP_GETI => .ok (some "field", some "integer index")
          | .OP_GETFIELD =>
            let k := GETARG_C i
            match kname p k with
            | .error e => .error e
            | .ok (_, name) =>
              match isEnv m p lastpc i false with
              | .error e => .error e
              | .ok kind => .ok (some kind, name)
          | .OP_SELF =>
            match rkname m p lastpc i with
            | .error e => .error e
            | .ok name => .ok (some "method", name)
          | _ => .ok (none, r.name)
      else .ok (none, r.name)

/-- The tag-method event numbers of `ltm.h` (not among the sources) that
`funcnamefromcode` names, as indices into the table of event names; passed as
a parameter. -/
structure TMS where
  TM_INDEX : Nat
  TM_NEWINDEX : Nat
  TM_LEN : Nat
  TM_EQ : Nat
  TM_UNM : Nat
  TM_BNOT : Nat
  TM_LT : Nat
  TM_LE : Nat
  TM_CONCAT : Nat
  TM_CLOSE : Nat

/-- The part of `global_State` the debug interface reads: the names of the
tag-method events, `G(L)->tmname`. -/
structure global_State where
  tmname : List String

/-- Function `funcnamefromcode`: a name for a function from the instruction that called it. -/
def funcnamefromcode (m : Macros) (tms : TMS) (g : global_State) (p : Proto) (pc : Int) :
    Except Fault (Option String × Option String) :=
  match rd p.code pc with
  | .error e => .error e
  | .ok i =>
    let metamethod (tm : Int) : Except Fault (Option String × Option String) :=
      match rd g.tmname tm with
      | .error e => .error e
      | .ok s => .ok (some "metamethod", some (s.drop 2))
    match GET_OPCODE i with
    | .OP_CALL | .OP_TAILCALL => getobjname m p pc (GETARG_A i)
    | .OP_TFORCALL => .ok (some "for iterator", some "for iterator")
    | .OP_SELF | .OP_GETTABUP | .OP_GETTABLE | .OP_GETI | .OP_GETFIELD =>
      metamethod tms.TM_INDEX
    | .OP_SETTABUP | .OP_SETTABLE | .OP_SETI | .OP_SETFIELD => metamethod tms.TM_NEWINDEX
    | .OP_MMBIN | .OP_MMBINI | .OP_MMBINK => metamethod (GETARG_C i)
    | .OP_UNM => metamethod tms.TM_UNM
    | .OP_BNOT => metamethod tms.TM_BNOT
    | .OP_LEN => metamethod tms.TM_LEN
    | .OP_CONCAT => metamethod tms.TM_CONCAT
    | .OP_EQ => metamethod tms.TM_EQ
    | .OP_LT | .OP_LTI | .OP_GTI => metamethod tms.TM_LT
    | .OP_LE | .OP_LEI | .OP_GEI => metamethod tms.TM_LE
    | .OP_CLOSE | .OP_RETURN => metamethod tms.TM_CLOSE
    | _ => .ok (none, none)

/-- Function `formatvarinfo`: the text `luaO_pushfstring(L, " (%s '%s')", kind, name)`
builds, a NULL string being printed as "(null)", or "" without a kind. -/
def formatvarinfo (kind name : Option String) : String :=
  match kind with
  | none => ""
  | some kind => " (" ++ kind ++ " '" ++ name.getD "(null)" ++ "')"


/-! ## Hook dispatcher -/

/-- Modelled from the spec: the call-status flags of an activation record,
"tail-call, called-from-hook, called-as-finalizer, hook-yielded,
has-transfer-info" (the `CIST_...` bits of `lstate.h`, not among the sources),
one boolean per flag. -/
structure CallStatus where
  tail : Bool := false
  hooked : Bool := false
  fin : Bool := false
  hookyield : Bool := false
  tran : Bool := false
  deriving DecidableEq, Repr

/-- Activation record (`CallInfo`).  `isLua` is the tag that tells a script
frame from a foreign one, `p` the prototype of the function of a script frame,
`savedpc` the saved program counter as an index into `p.code`, `top` the top of
the frame and `func` the slot of the function as stack indices, `upvals` the
addresses `upvals[i]->v.p` of the upvalues of the closure of a script frame
(`nupvalues` is the length of the list), `ftransfer` and `ntransfer` the
fields of `u2.transferinfo`. -/
structure CallInfo where
  isLua : Bool := true
  p : Proto := {}
  savedpc : Int := 0
  trap : Bool := false
  top : Int := 0
  callstatus : CallStatus := {}
  func : Int := 0
  upvals : List Addr := []
  ftransfer : Int := 0
  ntransfer : Int := 0

/-- Modelled from the spec: one invocation of `luaD_hook` (`ldo.c`, not among
the sources) with its arguments `event`, `line`, `ftransfer`, `ntransfer`. -/
structure HookCall where
  event : Int
  line : Int
  ftransfer : Int := 0
  ntransfer : Int := 0
  deriving DecidableEq, Repr

/-- The part of `lua_State` the debug interface uses.  `ci` is the current
activation record and `callers` the records reached from it through
`previous`, the last record of the chain being `L->base_ci`; `hook` is the
callback (`none` for NULL); `hookcalls` records the invocations of
`luaD_hook`, oldest first. -/
structure lua_State where
  status : Int := 0
  ci : CallInfo := {}
  callers : List CallInfo := []
  top : Int := 0
  oldpc : Int := 0
  hook : Option Nat := none
  hookmask : Nat := 0
  basehookcount : Int := 0
  hookcount : Int := 0
  hookcalls : List HookCall := []

/-- Modelled from the spec: the event codes and mask bits of `lua.h` (not
among the sources), an "event mask (bitset of {line, call, return, count})". -/
def LUA_HOOKLINE : Int := 2
/-- Modelled from the spec: event code of the count event, see `LUA_HOOKLINE`. -/
def LUA_HOOKCOUNT : Int := 3
/-- Modelled from the spec: mask bit of the call event, see `LUA_HOOKLINE`. -/
def LUA_MASKCALL : Nat := 1
/-- Modelled from the spec: mask bit of the return event, see `LUA_HOOKLINE`. -/
def LUA_MASKRET : Nat := 2
/-- Modelled from the spec: mask bit of the line event, see `LUA_HOOKLINE`. -/
def LUA_MASKLINE : Nat := 4
/-- Modelled from the spec: mask bit of the count event, see `LUA_HOOKLINE`. -/
def LUA_MASKCOUNT : Nat := 8
/-- Modelled from the spec: thread status of a suspended thread (`lua.h`). -/
def LUA_YIELD : Int := 1

/-- Modelled from the spec: `resethookcount` of `lstate.h` (not among the
sources), "reset it from the base count". -/
def resethookcount (L : lua_State) : lua_State :=
  { L with hookcount := L.basehookcount }

/-- What a hook callback does when it is invoked: `true` when it suspends the
thread. -/
abbrev HookBehaviour := lua_State → HookCall → Bool

/-- Modelled from the spec: `luaD_hook` of `ldo.c` (not among the sources).
The invocation is recorded in `hookcalls`; of the effects of the callback only
a suspension is kept ("if a hook invocation itself suspends"), as thread
status `LUA_YIELD`. -/
def luaD_hook (yields : HookBehaviour) (L : lua_State) (event line ftransfer ntransfer : Int) :
    lua_State :=
  let call : HookCall :=
    { event := event, line := line, ftransfer := ftransfer, ntransfer := ntransfer }
  let L1 := { L with hookcalls := L.hookcalls ++ [call] }
  if yields L call then { L1 with status := LUA_YIELD } else L1

/-- Macro `cast_byte`: conversion to `lu_byte`. -/
def cast_byte (x : Int) : Nat := (x % 256).toNat

/-- One step of `settraps`: `if (isLua(ci)) ci->u.l.trap = 1`. -/
def settrap (ci : CallInfo) : CallInfo :=
  if ci.isLua then { ci with trap := true } else ci

/-- The call `settraps(L->ci)`: set `trap` in all active script frames. -/
def settraps (L : lua_State) : lua_State :=
  { L with ci := settrap L.ci, callers := L.callers.map settrap }

/-- Function `lua_sethook`. -/
def lua_sethook (L : lua_State) (func : Option Nat) (mask : Int) (count : Int) : lua_State :=
  let off : Bool := decide (func = none ∨ mask = 0)
  let mask := if off then 0 else mask
  let func := if off then none else func
  let L := { L with hook := func }
  let L := { L with basehookcount := count }
  let L := resethookcount L
  let L := { L with hookmask := cast_byte mask }
  if mask ≠ 0 then settraps L else L

/-- Function `lua_gethook`. -/
def lua_gethook (L : lua_State) : Option Nat := L.hook

/-- Function `lua_gethookmask`. -/
def lua_gethookmask (L : lua_State) : Int := L.hookmask

/-- Function `lua_gethookcount`. -/
def lua_gethookcount (L : lua_State) : Int := L.basehookcount

/-- How a call of `luaG_traceexec` ends: a `return` or `luaD_throw`. -/
inductive Outcome
  | returned (value : Int)
  | thrown (status : Int)
  deriving DecidableEq, Repr

/-- The line part of `luaG_traceexec`, the body of `if (mask & LUA_MASKLINE)`;
`pc` is the incremented program counter. -/
def traceexec_line (m : Macros) (yields : HookBehaviour) (L : lua_State) (p : Proto) (pc : Int) :
    Except Fault lua_State :=
  let oldpc := if L.oldpc < p.sizecode then L.oldpc else 0
  let npci := pc - 1
  let changed : Except Fault Bool :=
    if npci ≤ oldpc then .ok true else changedline m p oldpc npci
  match changed with
  | .error e => .error e
  | .ok true =>
    match luaG_getfuncline m p npci with
    | .error e => .error e
    | .ok newline =>
      let L := luaD_hook yields L LUA_HOOKLINE newline 0 0
      .ok { L with oldpc := npci }
  | .ok false => .ok { L with oldpc := npci }

/-- The call `luaG_traceexec(L, pc)`, with `pc` the index in `p->code` of the
instruction about to be executed. -/
def luaG_traceexec (m : Macros) (yields : HookBehaviour) (L : lua_State) (pc : Int) :
    Except Fault (lua_State × Outcome) :=
  let mask := L.hookmask
  let p := L.ci.p
  if mask &&& (LUA_MASKLINE ||| LUA_MASKCOUNT) = 0 then
    .ok ({ L with ci := { L.ci with trap := false } }, .returned 0)
  else
    let pc := pc + 1
    let L := { L with ci := { L.ci with savedpc := pc } }
    let L := if mask &&& LUA_MASKCOUNT ≠ 0 then { L with hookcount := L.hookcount - 1 } else L
    let counthook : Bool := decide (mask &&& LUA_MASKCOUNT ≠ 0) && decide (L.hookcount = 0)
    let L := if counthook then resethookcount L else L
    if !counthook && decide (mask &&& LUA_MASKLINE = 0) then .ok (L, .returned 1)
    else if L.ci.callstatus.hookyield then
      .ok ({ L with ci := { L.ci with callstatus := { L.ci.callstatus with hookyield := false } } },
        .returned 1)
    else
      match rd p.code (L.ci.savedpc - 1) with
      | .error e => .error e
      | .ok i =>
        let L := if !m.isIT i then { L with top := L.ci.top } else L
        let L := if counthook then luaD_hook yields L LUA_HOOKCOUNT (-1) 0 0 else L
        let afterLine : Except Fault lua_State :=
          if mask &&& LUA_MASKLINE ≠ 0 then traceexec_line m yields L p pc else .ok L
        match afterLine with
        | .error e => .error e
        | .ok L =>
          if L.status = LUA_YIELD then
            let L := if counthook then { L with hookcount := 1 } else L
            let L := { L with ci :=
              { L.ci with callstatus := { L.ci.callstatus with hookyield := true } } }
            .ok (L, .thrown LUA_YIELD)
          else .ok (L, .returned 1)

/-- Consecutive calls of `luaG_traceexec`, one per offset of the list; the
sequence ends at a call that unwinds. -/
def traceexec_calls (m : Macros) (yields : HookBehaviour) :
    lua_State → List Int → Except Fault lua_State
  | L, [] => .ok L
  | L, pc :: rest =>
    match luaG_traceexec m yields L pc with
    | .error e => .error e
    | .ok (L1, .returned _) => traceexec_calls m yields L1 rest
    | .ok (L1, .thrown _) => .ok L1

/-! ## Resumption after a hook yields -/

/-- Modelled from the spec: thread status of a running thread (`lua.h`). -/
def LUA_OK : Int := 0

/-- Modelled from the spec: the part of `lua_resume` (`ldo.c`, not among the
sources) that resumes a thread suspended inside a hook: the thread runs again
(status `LUA_OK`) and the increment `luaG_traceexec` made to the saved program
counter is undone, so that the same instruction is traced again ("on resume, a
flagged hook-yielded frame skips firing the event again for the same
boundary"). -/
def resume_hookyield (L : lua_State) : lua_State :=
  { L with status := LUA_OK, ci := { L.ci with savedpc := L.ci.savedpc - 1 } }

/-- A call of `luaG_traceexec` followed, when it unwinds, by the resumption of
the thread and the call that traces the same instruction again. -/
def traceexec_resumed (m : Macros) (yields yields2 : HookBehaviour) (L : lua_State) (pc : Int) :
    Except Fault (lua_State × Outcome) :=
  match luaG_traceexec m yields L pc with
  | .error e => .error e
  | .ok (L1, .thrown _) => luaG_traceexec m yields2 (resume_hookyield L1) pc
  | .ok (L1, .returned v) => .ok (L1, .returned v)

/-! ## Names of called functions and of values -/

/-- Macro `pcRel` of `ldebug.h`: the offset of the instruction before `pc`. -/
def pcRel (pc : Int) : Int := pc - 1

/-- Function `currentpc`: `lua_assert(isLua(ci))`, then the offset of the
current instruction. -/
def currentpc (ci : CallInfo) : Except Fault Int :=
  if ci.isLua then .ok (pcRel ci.savedpc) else .error .assertion

/-- Function `getcurrentline`. -/
def getcurrentline (m : Macros) (ci : CallInfo) : Except Fault Int :=
  match currentpc ci with
  | .error e => .error e
  | .ok pc => luaG_getfuncline m ci.p pc

/-- Function `funcnamefromcall`: a name for a function from how it was called. -/
def funcnamefromcall (m : Macros) (tms : TMS) (g : global_State) (ci : CallInfo) :
    Except Fault (Option String × Option String) :=
  if ci.callstatus.hooked then .ok (some "hook", some "?")
  else if ci.callstatus.fin then .ok (some "metamethod", some "__gc")
  else if ci.isLua then
    match currentpc ci with
    | .error e => .error e
    | .ok pc => funcnamefromcode m tms g ci.p pc
  else .ok (none, none)

/-- The `for` loop of `instack`, from position `pos`. -/
def instack_loop (ci : CallInfo) (o : Addr) : Nat → Int → Except Fault Int
  | 0, _ => .error .outOfFuel
  | fuel + 1, pos =>
    let base := ci.func + 1
    if base + pos < ci.top then
      if o = .stack (base + pos) then .ok pos
      else instack_loop ci o fuel (pos + 1)
    else .ok (-1)

/-- Function `instack`: the index in the frame of the stack slot `o`, or -1. -/
def instack (ci : CallInfo) (o : Addr) : Except Fault Int :=
  instack_loop ci o ((ci.top - (ci.func + 1)).toNat + 1) 0

/-- The `for` loop of `getupvalname`, from index `i`; the result is the kind
and the name. -/
def getupvalname_loop (ci : CallInfo) (o : Addr) :
    Nat → Int → Except Fault (Option String × Option String)
  | 0, _ => .error .outOfFuel
  | fuel + 1, i =>
    if i < (ci.upvals.length : Int) then
      match rd ci.upvals i with
      | .error e => .error e
      | .ok v =>
        if v = o then
          match upvalname ci.p i with
          | .error e => .error e
          | .ok s => .ok (some "upvalue", some s)
        else getupvalname_loop ci o fuel (i + 1)
    else .ok (none, none)

/-- Function `getupvalname`: is `o` the value of an upvalue of the closure? -/
def getupvalname (ci : CallInfo) (o : Addr) : Except Fault (Option String × Option String) :=
  getupvalname_loop ci o (ci.upvals.length + 1) 0

/-- Function `varinfo`: the description `formatvarinfo` builds for the value
at address `o`. -/
def varinfo (m : Macros) (L : lua_State) (o : Addr) : Except Fault String :=
  let ci := L.ci
  if ci.isLua then
    match getupvalname ci o with
    | .error e => .error e
    | .ok (some kind, name) => .ok (formatvarinfo (some kind) name)
    | .ok (none, name) =>
      match instack ci o with
      | .error e => .error e
      | .ok reg =>
        if reg ≥ 0 then
          match currentpc ci with
          | .error e => .error e
          | .ok pc =>
            match getobjname m ci.p pc reg with
            | .error e => .error e
            | .ok (kind, name) => .ok (formatvarinfo kind name)
        else .ok (formatvarinfo none name)
  else .ok (formatvarinfo none none)

/-! ## Error messages -/

/-- Macro `ttisnumber` of `lobject.h`. -/
def ttisnumber (o : TValue) : Bool :=
  match o with
  | .integer _ | .float _ => true
  | _ => false

/-- Macro `ttisstring` of `lobject.h`. -/
def ttisstring (o : TValue) : Bool :=
  match o with
  | .string _ => true
  | _ => false

/-- Modelled from the spec: `cvt2str` of `lvm.h` (not among the sources), the
values that are "string-convertible": the numbers. -/
def cvt2str (o : TValue) : Bool := ttisnumber o

/-- Function `luaG_addinfo`: the text
`luaO_pushfstring(L, "%s:%d: %s", buff, line, msg)` builds, where `buff` is the
chunk identifier `luaO_chunkid` (`lobject.c`, not among the sources, a
parameter) makes of the source, or "?" without a source. -/
def luaG_addinfo (luaO_chunkid : String → String) (msg : String) (src : Option String)
    (line : Int) : String :=
  let buff := match src with
    | some s => luaO_chunkid s
    | none => "?"
  buff ++ ":" ++ toString line ++ ": " ++ msg

/-- Function `luaG_runerror`, for the message `msg` its format produces: the
result is the error message with which `luaG_errormsg` is entered. -/
def luaG_runerror (luaO_chunkid : String → String) (m : Macros) (L : lua_State)
    (msg : String) : Except Fault String :=
  let ci := L.ci
  if ci.isLua then
    match getcurrentline m ci with
    | .error e => .error e
    | .ok line => .ok (luaG_addinfo luaO_chunkid msg ci.p.source line)
  else .ok msg

/-- Function `typeerror`: `luaG_runerror(L, "attempt to %s a %s value%s", op, t, extra)`;
`typename` stands for `luaT_objtypename` (`ltm.c`, not among the sources). -/
def typeerror (luaO_chunkid : String → String) (typename : TValue → String) (m : Macros)
    (L : lua_State) (o : TValuePtr) (op extra : String) : Except Fault String :=
  let t := typename o.val
  luaG_runerror luaO_chunkid m L ("attempt to " ++ op ++ " a " ++ t ++ " value" ++ extra)

/-- Function `luaG_typeerror`: a type error with the description of `o` that
`varinfo` gives. -/
def luaG_typeerror (luaO_chunkid : String → String) (typename : TValue → String) (m : Macros)
    (L : lua_State) (o : TValuePtr) (op : String) : Except Fault String :=
  match varinfo m L o.addr with
  | .error e => .error e
  | .ok extra => typeerror luaO_chunkid typename m L o op extra

/-- The operand `luaG_concaterror` passes to `luaG_typeerror`:
`if (ttisstring(p1) || cvt2str(p1)) p1 = p2;`. -/
def concaterror_blamed (p1 p2 : TValuePtr) : TValuePtr :=
  if ttisstring p1.val || cvt2str p1.val then p2 else p1

/-- Function `luaG_concaterror`. -/
def luaG_concaterror (luaO_chunkid : String → String) (typename : TValue → String)
    (m : Macros) (L : lua_State) (p1 p2 : TValuePtr) : Except Fault String :=
  luaG_typeerror luaO_chunkid typename m L (concaterror_blamed p1 p2) "concatenate"

/-- The operand `luaG_opinterror` passes to `luaG_typeerror`:
`if (!ttisnumber(p1)) p2 = p1;`. -/
def opinterror_blamed (p1 p2 : TValuePtr) : TValuePtr :=
  if !ttisnumber p1.val then p1 else p2

/-- Function `luaG_opinterror`. -/
def luaG_opinterror (luaO_chunkid : String → String) (typename : TValue → String)
    (m : Macros) (L : lua_State) (p1 p2 : TValuePtr) (msg : String) : Except Fault String :=
  luaG_typeerror luaO_chunkid typename m L (opinterror_blamed p1 p2) msg

/-! ## Activation records and their description -/

/-- The activation records of the thread: `L->ci` and the records reached from
it through `previous`; position 0 is `L->ci` and the last position is
`L->base_ci`.  A pointer to an activation record is a position in this list. -/
def lua_State.frames (L : lua_State) : List CallInfo := L.ci :: L.callers

/-- Modelled from the spec: `lua_Debug` of `lua.h` (not among the sources), the
"record" of `getActivationInfo` with its "source/name info, current line,
upvalue/vararg counts, tail-call flag, name-from-code, transfer-info"; the
fields are those `ldebug.c` assigns, `i_ci` is the activation record as a
position in `lua_State.frames` (`none` for a pointer that was never set). -/
structure lua_Debug where
  event : Int := 0
  name : Option String := none
  namewhat : String := ""
  what : String := ""
  source : String := ""
  srclen : Nat := 0
  currentline : Int := 0
  linedefined : Int := 0
  lastlinedefined : Int := 0
  nups : Nat := 0
  nparams : Nat := 0
  isvararg : Bool := false
  istailcall : Bool := false
  ftransfer : Int := 0
  ntransfer : Int := 0
  short_src : String := ""
  i_ci : Option Nat := none
  deriving DecidableEq, Repr

/-- The `for` loop of `lua_getstack`, at the record at position `pos` whose
`previous` chain is `after` (empty for `L->base_ci`): the value of `level`, the
position of `ci` and whether `ci == &L->base_ci` when the loop ends. -/
def lua_getstack_loop : List CallInfo → Int → Nat → Int × Nat × Bool
  | [], level, pos => (level, pos, true)
  | _ :: after, level, pos =>
    if level > 0 then lua_getstack_loop after (level - 1) (pos + 1)
    else (level, pos, false)

/-- Function `lua_getstack`: the status returned and `ar` afterwards. -/
def lua_getstack (L : lua_State) (level : Int) (ar : lua_Debug) : Int × lua_Debug :=
  if level < 0 then (0, ar)
  else
    let r := lua_getstack_loop L.callers level 0
    if r.1 = 0 ∧ r.2.2 = false then (1, { ar with i_ci := some r.2.1 })
    else (0, ar)

/-- A closure (`Closure` of `lobject.h`): a C closure or a script closure with
its prototype; `nupvalues` is the number of its upvalues. -/
inductive Closure
  | C (nupvalues : Nat)
  | L (p : Proto) (nupvalues : Nat)

/-- Macro `LuaClosure`: `(f) != NULL && (f)->c.tt == LUA_VLCL`. -/
def LuaClosure (f : Option Closure) : Bool :=
  match f with
  | some (.L _ _) => true
  | _ => false

/-- Macro `ttisfunction` of `lobject.h`. -/
def ttisfunction (o : TValue) : Bool :=
  match o with
  | .function _ => true
  | _ => false

/-- Function `funcinfo`; `luaO_chunkid` (`lobject.c`, not among the sources) is
a parameter. -/
def funcinfo (luaO_chunkid : String → String) (ar : lua_Debug) (cl : Option Closure) :
    lua_Debug :=
  let ar : lua_Debug :=
    match cl with
    | some (.L p _) =>
      let ar : lua_Debug :=
        match p.source with
        | some s => { ar with source := s, srclen := s.utf8ByteSize }
        | none => { ar with source := "=?", srclen := 2 }
      let ar := { ar with linedefined := p.linedefined, lastlinedefined := p.lastlinedefined }
      { ar with what := if ar.linedefined = 0 then "main" else "Lua" }
    | _ =>
      { ar with source := "=[C]", srclen := 4, linedefined := -1, lastlinedefined := -1,
                what := "C" }
  { ar with short_src := luaO_chunkid ar.source }

/-- Function `getfuncname`: the kind and the name, `(none, none)` for NULL. -/
def getfuncname (m : Macros) (tms : TMS) (g : global_State) (L : lua_State)
    (ci : Option Nat) : Except Fault (Option String × Option String) :=
  match ci with
  | none => .ok (none, none)
  | some pos =>
    match rd L.frames pos with
    | .error e => .error e
    | .ok frame =>
      if !frame.callstatus.tail then
        match rd L.frames (pos + 1) with
        | .error e => .error e
        | .ok previous => funcnamefromcall m tms g previous
      else .ok (none, none)

/-- The characters `auxgetinfo` and `lua_getinfo` handle. -/
def validOption (c : Char) : Bool :=
  c = 'S' || c = 'l' || c = 'u' || c = 't' || c = 'n' || c = 'r' || c = 'L' || c = 'f'

/-- One iteration of the loop of `auxgetinfo`, the `switch` for the character
`c`: `ar` afterwards, and `false` if the `default` case set `status = 0`. -/
def auxgetinfo_case (luaO_chunkid : String → String) (m : Macros) (tms : TMS)
    (g : global_State) (L : lua_State) (c : Char) (ar : lua_Debug) (f : Option Closure)
    (ci : Option Nat) : Except Fault (lua_Debug × Bool) :=
  if c = 'S' then .ok (funcinfo luaO_chunkid ar f, true)
  else if c = 'l' then
    match ci with
    | none => .ok ({ ar with currentline := -1 }, true)
    | some pos =>
      match rd L.frames pos with
      | .error e => .error e
      | .ok frame =>
        if frame.isLua then
          match getcurrentline m frame with
          | .error e => .error e
          | .ok line => .ok ({ ar with currentline := line }, true)
        else .ok ({ ar with currentline := -1 }, true)
  else if c = 'u' then
    let ar : lua_Debug :=
      { ar with nups := match f with
                        | none => 0
                        | some (.C n) => n
                        | some (.L _ n) => n }
    match f with
    | some (.L p _) => .ok ({ ar with isvararg := p.is_vararg, nparams := p.numparams }, true)
    | _ => .ok ({ ar with isvararg := true, nparams := 0 }, true)
  else if c = 't' then
    match ci with
    | none => .ok ({ ar with istailcall := false }, true)
    | some pos =>
      match rd L.frames pos with
      | .error e => .error e
      | .ok frame => .ok ({ ar with istailcall := frame.callstatus.tail }, true)
  else if c = 'n' then
    match getfuncname m tms g L ci with
    | .error e => .error e
    | .ok (some kind, name) => .ok ({ ar with namewhat := kind, name := name }, true)
    | .ok (none, _) => .ok ({ ar with namewhat := "", name := none }, true)
  else if c = 'r' then
    match ci with
    | none => .ok ({ ar with ftransfer := 0, ntransfer := 0 }, true)
    | some pos =>
      match rd L.frames pos with
      | .error e => .error e
      | .ok frame =>
        if !frame.callstatus.tran then .ok ({ ar with ftransfer := 0, ntransfer := 0 }, true)
        else .ok ({ ar with ftransfer := frame.ftransfer, ntransfer := frame.ntransfer }, true)
  else if c = 'L' || c = 'f' then .ok (ar, true)
  else .ok (ar, false)

/-- The loop of `auxgetinfo` over the characters of `what`, from the value
`status` of the variable `status`. -/
def auxgetinfo_loop (luaO_chunkid : String → String) (m : Macros) (tms : TMS)
    (g : global_State) (L : lua_State) (f : Option Closure) (ci : Option Nat) :
    List Char → Int → lua_Debug → Except Fault (Int × lua_Debug)
  | [], status, ar => .ok (status, ar)
  | c :: what, status, ar =>
    match auxgetinfo_case luaO_chunkid m tms g L c ar f ci with
    | .error e => .error e
    | .ok (ar, ok) =>
      auxgetinfo_loop luaO_chunkid m tms g L f ci what (if ok then status else 0) ar

/-- Function `auxgetinfo`: the status returned and `ar` afterwards. -/
def auxgetinfo (luaO_chunkid : String → String) (m : Macros) (tms : TMS) (g : global_State)
    (L : lua_State) (what : List Char) (ar : lua_Debug) (f : Option Closure)
    (ci : Option Nat) : Except Fault (Int × lua_Debug) :=
  auxgetinfo_loop luaO_chunkid m tms g L f ci what 1 ar

/-- Function `nextline`, for a prototype whose `lineinfo` is `li`. -/
def nextline (m : Macros) (p : Proto) (li : List Int) (currentline pc : Int) :
    Except Fault Int :=
  match rd li pc with
  | .error e => .error e
  | .ok delta =>
    if delta ≠ m.ABSLINEINFO then .ok (currentline + delta)
    else luaG_getfuncline m p pc

/-- The `for` loop of `collectvalidlines`, from offset `i`: the lines given to
`luaH_setint`, in order, after those of `lines`. -/
def collectvalidlines_loop (m : Macros) (p : Proto) (li : List Int) :
    Nat → Int → Int → List Int → Except Fault (List Int)
  | 0, _, _, _ => .error .outOfFuel
  | fuel + 1, i, currentline, lines =>
    if i < (li.length : Int) then
      match nextline m p li currentline i with
      | .error e => .error e
      | .ok line => collectvalidlines_loop m p li fuel (i + 1) line (lines ++ [line])
    else .ok lines

/-- What `lua_getinfo` pushes on the stack: a value, or the table that
`collectvalidlines` creates, given by the lines it sets to true, in order. -/
inductive Pushed
  | value (v : TValue)
  | activelines (lines : List Int)
  deriving DecidableEq, Repr

/-- Function `collectvalidlines`: the value it pushes. -/
def collectvalidlines (m : Macros) (f : Option Closure) : Except Fault Pushed :=
  match f with
  | some (.L p _) =>
    let currentline := p.linedefined
    match p.lineinfo with
    | some li =>
      if !p.is_vararg then
        match collectvalidlines_loop m p li (li.length + 1) 0 currentline [] with
        | .error e => .error e
        | .ok lines => .ok (.activelines lines)
      else
        match rd p.code 0 with
        | .error e => .error e
        | .ok i0 =>
          if GET_OPCODE i0 = .OP_VARARGPREP then
            match nextline m p li currentline 0 with
            | .error e => .error e
            | .ok currentline =>
              match collectvalidlines_loop m p li (li.length + 1) 1 currentline [] with
              | .error e => .error e
              | .ok lines => .ok (.activelines lines)
          else .error .assertion
    | none => .ok (.activelines [])
  | _ => .ok (.value .nil)

/-- Result of `lua_getinfo`: the status returned, `ar` and the thread
afterwards, and the values pushed on the stack, in order. -/
structure GetInfo where
  status : Int
  ar : lua_Debug
  L : lua_State
  pushed : List Pushed

/-- The part of `lua_getinfo` after `ci`, `func` and `what` are set, from
`cl = ttisclosure(func) ? clvalue(func) : NULL` on; `clvalue` is that read of
the heap. -/
def lua_getinfo_rest (luaO_chunkid : String → String) (m : Macros) (tms : TMS)
    (g : global_State) (clvalue : TValue → Option Closure) (L : lua_State) (what : List Char)
    (ar : lua_Debug) (ci : Option Nat) (func : TValue) : Except Fault GetInfo :=
  let cl := clvalue func
  match auxgetinfo luaO_chunkid m tms g L what ar cl ci with
  | .error e => .error e
  | .ok (status, ar) =>
    let r : GetInfo :=
      if 'f' ∈ what then
        { status := status, ar := ar, L := { L with top := L.top + 1 },
          pushed := [.value func] }
      else { status := status, ar := ar, L := L, pushed := [] }
    if 'L' ∈ what then
      match collectvalidlines m cl with
      | .error e => .error e
      | .ok v => .ok { r with L := { r.L with top := r.L.top + 1 }, pushed := r.pushed ++ [v] }
    else .ok r

/-- Function `lua_getinfo`.  `stack` gives the values of the stack slots and
`clvalue` the closure of a function value; a failed `api_check` is a fault
like a failed `lua_assert`. -/
def lua_getinfo (luaO_chunkid : String → String) (m : Macros) (tms : TMS) (g : global_State)
    (stack : Int → TValue) (clvalue : TValue → Option Closure) (L : lua_State)
    (what : List Char) (ar : lua_Debug) : Except Fault GetInfo :=
  let start : Except Fault (Option Nat × TValue × List Char × lua_State) :=
    if what.head? = some '>' then
      let func := stack (L.top - 1)
      if ttisfunction func then .ok (none, func, what.tail, { L with top := L.top - 1 })
      else .error .assertion
    else
      match ar.i_ci with
      | none => .error .outOfBounds
      | some pos =>
        match rd L.frames pos with
        | .error e => .error e
        | .ok frame =>
          let func := stack frame.func
          if ttisfunction func then .ok (some pos, func, what, L)
          else .error .assertion
  match start with
  | .error e => .error e
  | .ok (ci, func, what, L) => lua_getinfo_rest luaO_chunkid m tms g clvalue L what ar ci func

/-! ## Call tracing -/

/-- Function `luaG_tracecall`: the thread afterwards and the value returned.
`luaD_hookcall` (`ldo.c`, not among the sources) is a parameter, the effect of
the call `luaD_hookcall(L, ci)` on the thread. -/
def luaG_tracecall (luaD_hookcall : lua_State → lua_State) (L : lua_State) :
    lua_State × Int :=
  let p := L.ci.p
  let L := { L with ci := { L.ci with trap := true } }
  if L.ci.savedpc = 0 then
    if p.is_vararg then (L, 0)
    else if !L.ci.callstatus.hookyield then (luaD_hookcall L, 1)
    else (L, 1)
  else (L, 1)

/-! ## The demonstration program -/

def LEVELS1 : Int := 10

def LEVELS2 : Int := 11

/-- The first loop of `lastlevel`:
`while (lua_getstack(L, le, &ar)) { li = le; le *= 2; }`; the result is
`(li, le, ar)`. The product is an `int`, kept in 32 bits by `cast_int`. -/
def lastlevel_bound (L : lua_State) :
    Nat → Int → Int → lua_Debug → Except Fault (Int × Int × lua_Debug)
  | 0, _, _, _ => .error .outOfFuel
  | fuel + 1, li, le, ar =>
    let r := lua_getstack L le ar
    if r.1 ≠ 0 then lastlevel_bound L fuel le (cast_int (le * 2)) r.2
    else .ok (li, le, r.2)

/-- The second loop of `lastlevel`, the binary search:
`while (li < le) { int m = (li + le)/2; if (lua_getstack(L, m, &ar)) li = m + 1; else le = m; }`;
the result is `(li, le, ar)`. The sum is an `int`, kept in 32 bits by `cast_int`. -/
def lastlevel_search (L : lua_State) :
    Nat → Int → Int → lua_Debug → Except Fault (Int × Int × lua_Debug)
  | 0, _, _, _ => .error .outOfFuel
  | fuel + 1, li, le, ar =>
    if li < le then
      let m := (cast_int (li + le)).tdiv 2
      let r := lua_getstack L m ar
      if r.1 ≠ 0 then lastlevel_search L fuel (m + 1) le r.2
      else lastlevel_search L fuel li m r.2
    else .ok (li, le, ar)

/-- Function `lastlevel` of `lauxlib.c`. -/
def lastlevel (L : lua_State) : Except Fault Int :=
  match lastlevel_bound L (L.callers.length + 1) 1 1 {} with
  | .error e => .error e
  | .ok (li, le, ar) =>
    match lastlevel_search L ((le - li).toNat + 1) li le ar with
    | .error e => .error e
    | .ok (_, le, _) => .ok (le - 1)

/-- A piece that `luaL_traceback` adds to its buffer: a literal text, the
description of the activation record `ar->i_ci` (the text of the `else` branch:
source, current line and function name, from `lua_getinfo` and
`pushfuncname`), or the warning "\n\t...\t(skipping n levels)". -/
inductive TraceItem
  | text (s : String)
  | frame (i_ci : Option Nat)
  | skipping (n : Int)
  deriving DecidableEq, Repr

/-- The `while` loop of `luaL_traceback`:
`while (lua_getstack(L1, level++, &ar)) { if (limit2show-- == 0) ... else ... }`. -/
def luaL_traceback_loop (L1 : lua_State) (last : Int) :
    Nat → Int → Int → lua_Debug → List TraceItem → Except Fault (List TraceItem)
  | 0, _, _, _, _ => .error .outOfFuel
  | fuel + 1, level, limit2show, ar, b =>
    let r := lua_getstack L1 level ar
    let level := level + 1
    if r.1 ≠ 0 then
      if limit2show = 0 then
        let n := last - level - LEVELS2 + 1
        luaL_traceback_loop L1 last fuel (level + n) (limit2show - 1) r.2 (b ++ [.skipping n])
      else
        luaL_traceback_loop L1 last fuel level (limit2show - 1) r.2 (b ++ [.frame r.2.i_ci])
    else .ok b

/-- Function `luaL_traceback` of `lauxlib.c`: the pieces added to the buffer,
in order. -/
def luaL_traceback (L1 : lua_State) (msg : Option String) (level : Int) :
    Except Fault (List TraceItem) :=
  match lastlevel L1 with
  | .error e => .error e
  | .ok last =>
    let limit2show : Int := if last - level > LEVELS1 + LEVELS2 then LEVELS1 else -1
    let b : List TraceItem :=
      match msg with
      | some s => [.text s, .text "\n"]
      | none => []
    luaL_traceback_loop L1 last (L1.callers.length + 2) level limit2show {}
      (b ++ [.text "stack traceback:"])

/-- The C library function `strstr(s, p)` on strings without the terminating
zero: the offset of the first occurrence of `p` in `s`, `none` for `NULL`. -/
def strstr : List Char → List Char → Option Nat
  | [], p => if p.isEmpty then some 0 else none
  | c :: t, p =>
    if p.isPrefixOf (c :: t) then some 0
    else (strstr t p).map (fun k => k + 1)

/-- Function `luaL_addlstring`: the buffer after adding the first `l`
characters of `s`. -/
def luaL_addlstring (b s : List Char) (l : Nat) : List Char := b ++ s.take l

/-- Function `luaL_addstring`: the buffer after adding `s`. -/
def luaL_addstring (b s : List Char) : List Char := b ++ s

/-- The `while` loop of `luaL_addgsub` and the call that follows it:
`while ((wild = strstr(s, p)) != NULL) { ...; s = wild + l; } luaL_addstring(b, s);`. -/
def luaL_addgsub_loop (p r : List Char) : Nat → List Char → List Char → Except Fault (List Char)
  | 0, _, _ => .error .outOfFuel
  | fuel + 1, b, s =>
    match strstr s p with
    | some wild =>
      let b := luaL_addlstring b s wild
      let b := luaL_addstring b r
      luaL_addgsub_loop p r fuel b (s.drop (wild + p.length))
    | none => .ok (luaL_addstring b s)

/-- Function `luaL_addgsub`: the contents of the buffer afterwards. -/
def luaL_addgsub (b s p r : List Char) : Except Fault (List Char) :=
  luaL_addgsub_loop p r (s.length + 1) b s

/-- Function `luaL_gsub`: the string it pushes. -/
def luaL_gsub (s p r : List Char) : Except Fault (List Char) :=
  luaL_addgsub [] s p r

/-! ## Concrete scenarios -/

/-- Modelled from the spec: the A-mode bit of `luaP_opmodes` (`lopcodes.c`, not
among the sources), true for an "instruction that nominally writes to an A
operand field"; used to instantiate `Macros` in concrete scenarios. -/
def luaP_testAMode (op : OpCode) : Bool :=
  match op with
  | .OP_SETUPVAL | .OP_SETTABUP | .OP_SETTABLE | .OP_SETI | .OP_SETFIELD
  | .OP_MMBIN | .OP_MMBINI | .OP_MMBINK | .OP_CLOSE | .OP_TBC | .OP_JMP
  | .OP_EQ | .OP_LT | .OP_LE | .OP_EQK | .OP_EQI | .OP_LTI | .OP_LEI | .OP_GTI | .OP_GEI
  | .OP_TEST | .OP_RETURN | .OP_RETURN0 | .OP_RETURN1 | .OP_TFORPREP | .OP_TFORCALL
  | .OP_SETLIST | .OP_EXTRAARG => false
  | _ => true

/-- Modelled from the spec: `isIT` of `lopcodes.h` (not among the sources):
the instruction takes its operands up to the stack top (operand B is 0). -/
def luaP_isIT (i : Instruction) : Bool :=
  match i.opcode with
  | .OP_CALL | .OP_TAILCALL | .OP_RETURN | .OP_SETLIST | .OP_VARARGPREP => decide (i.B = 0)
  | _ => false

/-- The macros of the distributed interpreter: the values of `ldebug.h` and the
mode tables above. -/
def luaMacros : Macros :=
  { MAXIWTHABS := 128, ABSLINEINFO := -128, testAMode := luaP_testAMode, isIT := luaP_isIT }

/-- The function body `local a=1; if a>0 then a=2 end; return a`: register 0
is the local `a`, active from offset 2; the `OP_JMP` at offset 3 jumps over
the assignment at offset 4 to the `OP_RETURN` at offset 5. -/
def protoLocalA : Proto :=
  { code := [{ opcode := .OP_VARARGPREP, A := 0 }, { opcode := .OP_LOADI, A := 0 },
             { opcode := .OP_GTI, A := 0 }, { opcode := .OP_JMP, sJ := 1 },
             { opcode := .OP_LOADI, A := 0 }, { opcode := .OP_RETURN, A := 0, B := 2, C := 1 },
             { opcode := .OP_RETURN, A := 0, B := 1, C := 1 }],
    locvars := [{ varname := "a", startpc := 2, endpc := 7 }],
    upvalues := [some "_ENV"],
    is_vararg := true }

/-- The call `foo()` of an undeclared global: `OP_GETTABUP 0 0 0` followed by
`OP_CALL 0 1 1`, constant 0 the string "foo", upvalue 0 named "_ENV". -/
def protoCallFoo : Proto :=
  { code := [{ opcode := .OP_GETTABUP, A := 0, B := 0, C := 0 },
             { opcode := .OP_CALL, A := 0, B := 1, C := 1 }],
    k := [.string "foo"],
    upvalues := [some "_ENV"] }

/-- A jump over a load and an addition to an `OP_MMBIN`: `OP_JMP` to offset 3,
`OP_LOADK 0 0`, `OP_ADD 1 1 1`, `OP_MMBIN 1 1 6`; constant 0 is the string "x". -/
def protoJumpToMMBIN : Proto :=
  { code := [{ opcode := .OP_JMP, sJ := 2 }, { opcode := .OP_LOADK, A := 0, Bx := 0 },
             { opcode := .OP_ADD, A := 1, B := 1, C := 1 },
             { opcode := .OP_MMBIN, A := 1, B := 1, C := 6 }],
    k := [.string "x"] }

/-- A conditional assignment to register 0 read after the join point:
`OP_TEST 1`, `OP_JMP` to offset 3, `OP_LOADK 0 0`, `OP_RETURN1 0`. -/
def protoConditionalWrite : Proto :=
  { code := [{ opcode := .OP_TEST, A := 1 }, { opcode := .OP_JMP, sJ := 1 },
             { opcode := .OP_LOADK, A := 0, Bx := 0 }, { opcode := .OP_RETURN1, A := 0 }],
    k := [.string "x"] }

/-- Modelled from the spec: the event numbers of `ltm.h` behind the "fixed
per-opcode table (`__index`, `__newindex`, `__unm`, `__bnot`, `__len`,
`__concat`, `__eq`, `__lt`, `__le`, `__close`, and the table of overloadable
binary-operator metamethods)", as positions in `luaT_tmname`. -/
def luaT_tms : TMS :=
  { TM_INDEX := 0, TM_NEWINDEX := 1, TM_LEN := 4, TM_EQ := 5, TM_UNM := 18, TM_BNOT := 19,
    TM_LT := 20, TM_LE := 21, TM_CONCAT := 22, TM_CLOSE := 24 }

/-- Modelled from the spec: the event names `luaT_init` (`ltm.c`, not among the
sources) stores in `G(L)->tmname`. -/
def luaT_tmname : global_State :=
  { tmname := ["__index", "__newindex", "__gc", "__mode", "__len", "__eq", "__add", "__sub",
      "__mul", "__mod", "__pow", "__div", "__idiv", "__band", "__bor", "__bxor", "__shl",
      "__shr", "__unm", "__bnot", "__lt", "__le", "__concat", "__call", "__close"] }

/-- The count event: the invocation `luaD_hook(L, LUA_HOOKCOUNT, -1, 0, 0)`. -/
def countEvent : HookCall := { event := LUA_HOOKCOUNT, line := -1 }

/-- The line event for line `line`: `luaD_hook(L, LUA_HOOKLINE, line, 0, 0)`. -/
def lineEvent (line : Int) : HookCall := { event := LUA_HOOKLINE, line := line }

/-- Hooks that never suspend the thread. -/
def neverYields : HookBehaviour := fun _ _ => false

/-- State of a thread running `protoLines` in its current frame. -/
def stateLines : lua_State := { ci := { p := protoLines, top := 4 } }

/-- The hook state of a thread that counts instructions only. -/
def CountOnly (L : lua_State) (C : Int) : Prop :=
  L.hookmask = LUA_MASKCOUNT ∧ L.basehookcount = C ∧ L.ci.callstatus.hookyield = false ∧
  L.status ≠ LUA_YIELD

/-- State of a thread that traces lines in `protoLines` and traced offset 1 last. -/
def stateLoop : lua_State :=
  { ci := { p := protoLines, top := 4 }, hook := some 1, hookmask := LUA_MASKLINE, oldpc := 1 }

/-- Modelled from the spec: `luaT_objtypename` of `ltm.c` (not among the
sources), the `<type>` of "attempt to <op> a <type> value": the name of the
type of the value; used to instantiate `typename` in concrete scenarios. -/
def luaT_objtypename (o : TValue) : String :=
  match o with
  | .nil => "nil"
  | .boolean _ => "boolean"
  | .lightuserdata _ => "userdata"
  | .integer _ | .float _ => "number"
  | .string _ => "string"
  | .table _ => "table"
  | .function _ => "function"
  | .userdata _ => "userdata"
  | .thread _ => "thread"

/-- Hooks that always suspend the thread. -/
def alwaysYields : HookBehaviour := fun _ _ => true

/-- State of a thread that traces lines and counts instructions in
`protoLines`: base count 5, two instructions left before the count event,
offset 1 traced last. -/
def stateCountLine : lua_State :=
  { ci := { p := protoLines, top := 4 }, hook := some 1,
    hookmask := LUA_MASKLINE ||| LUA_MASKCOUNT, basehookcount := 5, hookcount := 2, oldpc := 1 }

/-- State of a thread that counts instructions in `protoLines`: base count 5,
the count event due at the next instruction. -/
def stateCountDue : lua_State :=
  { ci := { p := protoLines, top := 4 }, hook := some 1,
    hookmask := LUA_MASKCOUNT, basehookcount := 5, hookcount := 1 }

/-- The state `stateCountLine` with the current frame flagged hook-yielded. -/
def stateFlagged : lua_State :=
  { stateCountLine with
    ci := { stateCountLine.ci with callstatus := { hookyield := true } } }

/-- The field access `t.x` of a local `t`: `OP_GETFIELD 1 0 0`, constant 0 the
string "x". -/
def protoGetField : Proto :=
  { code := [{ opcode := .OP_GETFIELD, A := 1, B := 0, C := 0 }],
    k := [.string "x"],
    locvars := [{ varname := "t", startpc := 0, endpc := 1 }] }

/-- The chunk `("_ENV").x()`: `OP_LOADK 0 0` loads the string constant "_ENV"
into register 0, `OP_GETFIELD 0 0 1` indexes it with the constant "x" and
`OP_CALL 0 1 1` calls the result. -/
def protoEnvString : Proto :=
  { code := [{ opcode := .OP_VARARGPREP, A := 0 }, { opcode := .OP_LOADK, A := 0, Bx := 0 },
             { opcode := .OP_GETFIELD, A := 0, B := 0, C := 1 },
             { opcode := .OP_CALL, A := 0, B := 1, C := 1 },
             { opcode := .OP_RETURN, A := 0, B := 1, C := 1 }],
    k := [.string "_ENV", .string "x"],
    upvalues := [some "_ENV"],
    is_vararg := true }

/-- The chunk `local t, k = {}, "a"; t[k]()`: registers 0 and 1 are the locals
`t` and `k`, active from offset 4, where `OP_GETTABLE 2 0 1` indexes `t` with
`k`; `OP_CALL 2 1 1` calls the result. -/
def protoKeyLocal : Proto :=
  { code := [{ opcode := .OP_VARARGPREP, A := 0 }, { opcode := .OP_NEWTABLE, A := 0 },
             { opcode := .OP_EXTRAARG, Ax := 0 }, { opcode := .OP_LOADK, A := 1, Bx := 0 },
             { opcode := .OP_GETTABLE, A := 2, B := 0, C := 1 },
             { opcode := .OP_CALL, A := 2, B := 1, C := 1 },
             { opcode := .OP_RETURN, A := 2, B := 1, C := 1 }],
    k := [.string "a"],
    locvars := [{ varname := "t", startpc := 4, endpc := 7 },
                { varname := "k", startpc := 4, endpc := 7 }],
    upvalues := [some "_ENV"],
    is_vararg := true }

/-- The chunk `local t = {}; t["a"]()` compiled without the constant-key
shortcut: `OP_LOADK 1 0` loads the key "a" into the temporary register 1 and
`OP_GETTABLE 2 0 1` indexes the local `t` with it. -/
def protoKeyConstant : Proto :=
  { code := [{ opcode := .OP_VARARGPREP, A := 0 }, { opcode := .OP_NEWTABLE, A := 0 },
             { opcode := .OP_EXTRAARG, Ax := 0 }, { opcode := .OP_LOADK, A := 1, Bx := 0 },
             { opcode := .OP_GETTABLE, A := 2, B := 0, C := 1 },
             { opcode := .OP_CALL, A := 2, B := 1, C := 1 },
             { opcode := .OP_RETURN, A := 2, B := 1, C := 1 }],
    k := [.string "a"],
    locvars := [{ varname := "t", startpc := 3, endpc := 7 }],
    upvalues := [some "_ENV"],
    is_vararg := true }

/-- The chunk `local x, y = 1, {}; return x + y` on line 1 of a source named
"=chunk": registers 0 and 1 are the locals `x` and `y`, active from offset 4;
`OP_ADD 2 0 1` is followed by `OP_MMBIN 0 1 6`. -/
def protoAddTable : Proto :=
  { code := [{ opcode := .OP_VARARGPREP, A := 0 }, { opcode := .OP_LOADI, A := 0 },
             { opcode := .OP_NEWTABLE, A := 1 }, { opcode := .OP_EXTRAARG, Ax := 0 },
             { opcode := .OP_ADD, A := 2, B := 0, C := 1 },
             { opcode := .OP_MMBIN, A := 0, B := 1, C := 6 },
             { opcode := .OP_RETURN1, A := 2 },
             { opcode := .OP_RETURN, A := 3, B := 1, C := 1 }],
    lineinfo := some [1, 0, 0, 0, 0, 0, 0, 0],
    locvars := [{ varname := "x", startpc := 4, endpc := 8 },
                { varname := "y", startpc := 4, endpc := 8 }],
    upvalues := [some "_ENV"],
    is_vararg := true,
    source := some "=chunk" }

/-- State of a thread executing the `OP_MMBIN` of `protoAddTable`: the function
is at stack slot 0, its registers at slots 1 to 3. -/
def stateAddTable : lua_State :=
  { ci := { p := protoAddTable, savedpc := 6, func := 0, top := 4 } }

/-- Frame of a C function that is running a hook and was called as a
finalizer. -/
def frameHookedFin : CallInfo :=
  { isLua := false, callstatus := { hooked := true, fin := true } }

/-- State of a thread executing the `OP_MMBIN` of `protoAddTable` whose
closure has one upvalue, stored at heap address 7. -/
def stateUpvalue : lua_State :=
  { ci := { p := protoAddTable, savedpc := 6, func := 0, top := 4, upvals := [.heap 7] } }

/-- State of a thread with three activation records above `L->base_ci`. -/
def stateThreeFrames : lua_State :=
  { ci := { p := protoAddTable, savedpc := 6, func := 5, top := 9 },
    callers := [{ p := protoCallFoo, savedpc := 2, func := 3, top := 5 },
                { isLua := false, func := 1, top := 3 },
                { isLua := false, func := 0, top := 1 }] }

/-- State of a thread entering the function `protoGetField`, which is not
vararg: the saved program counter is at the first instruction. -/
def stateCallEntry : lua_State :=
  { ci := { p := protoGetField, savedpc := 0, func := 0, top := 3 } }

/-- Stack of the thread `stateThreeFrames`: slot 5 holds the function of the
current frame. -/
def stackThreeFrames (i : Int) : TValue :=
  if i = 5 then .function 0 else .nil

/-- Heap of the thread `stateThreeFrames`: function 0 is a closure of
`protoAddTable` with one upvalue. -/
def clvalueThreeFrames (v : TValue) : Option Closure :=
  match v with
  | .function 0 => some (.L protoAddTable 1)
  | _ => none

/-- The chunk `local t = {}; local a = t.x; local b = a; b()` before the
locals `a` and `b` are active: `OP_GETFIELD 1 0 0` is followed by the moves
`OP_MOVE 2 1` and `OP_MOVE 3 2`, and `OP_CALL 3 1 1` calls register 3. -/
def protoMoveChain : Proto :=
  { code := [{ opcode := .OP_VARARGPREP, A := 0 }, { opcode := .OP_NEWTABLE, A := 0 },
             { opcode := .OP_EXTRAARG, Ax := 0 },
             { opcode := .OP_GETFIELD, A := 1, B := 0, C := 0 },
             { opcode := .OP_MOVE, A := 2, B := 1 }, { opcode := .OP_MOVE, A := 3, B := 2 },
             { opcode := .OP_CALL, A := 3, B := 1, C := 1 },
             { opcode := .OP_RETURN, A := 1, B := 1, C := 1 }],
    k := [.string "x"],
    locvars := [{ varname := "t", startpc := 3, endpc := 8 }],
    upvalues := [some "_ENV"],
    is_vararg := true }

/-- State of a thread that traces lines in `protoStraySameLine` and traced
offset 0 last. -/
def stateStray : lua_State :=
  { ci := { p := protoStraySameLine, top := 3 }, hook := some 1, hookmask := LUA_MASKLINE,
    oldpc := 0 }

/-- A vararg prototype of four instructions, `OP_VARARGPREP` first, with one
checkpoint, at the sentinel entry of offset 2: the lines of its instructions
are 1, 1, 7 and 8. -/
def protoVarargLines : Proto :=
  { code := [{ opcode := .OP_VARARGPREP, A := 0 }, { opcode := .OP_LOADI, A := 0 },
             { opcode := .OP_LOADI, A := 1 }, { opcode := .OP_RETURN0 }],
    lineinfo := some [1, 0, -128, 1],
    abslineinfo := [{ pc := 2, line := 7 }],
    linedefined := 0,
    is_vararg := true }

/-- A thread with 23 activation records above the base record. -/
def stateDeep : lua_State :=
  { ci := { p := protoLines, top := 4 }, callers := List.replicate 23 { isLua := false } }

/-! ## Definitions for the statements -/

/-- One step of the scan the specification describes for `findsetreg` ("for each
instruction, determine whether it writes registerIndex ... if a match is
found, record it as the current candidate"): the state is the offset of the
instruction, the candidate and the `jumpTarget` watermark; the rules per
instruction are those of `findsetreg_switch`. -/
def scan_step (m : Macros) (bound reg : Int) (st : Int × Int × Int) (i : Instruction) :
    Int × Int × Int :=
  let r := findsetreg_switch m i st.1 bound reg st.2.2
  (st.1 + 1, if r.1 then filterpc st.1 r.2 else st.2.1, r.2)

/-- The scan of the specification, "from the function start up to (but
excluding)" the offset `bound`, over a list of instructions: the candidate at
the end, -1 for none.  Only the instructions at offsets below `bound` enter
the scan; jump destinations are compared against `bound`. -/
def scan_upto (m : Macros) (code : List Instruction) (bound reg : Int) : Int :=
  ((code.take bound.toNat).foldl (scan_step m bound reg) (0, -1, 0)).2.1

/-- The entries of `G(L)->tmname` that `funcnamefromcode` reads hold the names
of their events, each with its "__" prefix. -/
def TmnamesStored (tms : TMS) (g : global_State) : Prop :=
  rd g.tmname tms.TM_INDEX = .ok "__index" ∧ rd g.tmname tms.TM_NEWINDEX = .ok "__newindex" ∧
  rd g.tmname tms.TM_UNM = .ok "__unm" ∧ rd g.tmname tms.TM_BNOT = .ok "__bnot" ∧
  rd g.tmname tms.TM_LEN = .ok "__len" ∧ rd g.tmname tms.TM_CONCAT = .ok "__concat" ∧
  rd g.tmname tms.TM_EQ = .ok "__eq" ∧ rd g.tmname tms.TM_LT = .ok "__lt" ∧
  rd g.tmname tms.TM_LE = .ok "__le" ∧ rd g.tmname tms.TM_CLOSE = .ok "__close"

/-- The characters of an option string of `lua_getinfo` that select something,
the optional leading '>' kept. -/
def validOptions (what : List Char) : List Char :=
  if what.head? = some '>' then '>' :: what.tail.filter validOption
  else what.filter validOption

/-- The bound of the scan of `findsetreg` after its pre-adjustment:
`if (testMMMode(GET_OPCODE(p->code[lastpc]))) lastpc--;`, for the instruction
`last` at `lastpc`. -/
def findsetreg_bound (last : Instruction) (lastpc : Int) : Int :=
  if testMMMode (GET_OPCODE last) then lastpc - 1 else lastpc

/-- The invariant of the remaining hook count: with the count bit in the mask,
`1 <= hookcount <= basehookcount`. -/
def HookCountInv (L : lua_State) : Prop :=
  L.hookmask &&& LUA_MASKCOUNT ≠ 0 → 1 ≤ L.hookcount ∧ L.hookcount ≤ L.basehookcount

/-- The event of the metamethod an instruction can call, after the table of
the specification ("a fixed per-opcode table"): the index event for the
table-index family, the newindex event for the table-store family, the event
stored in operand C for the metamethod-binary-op family, and the events of
`OP_UNM`, `OP_BNOT`, `OP_LEN`, `OP_CONCAT`, `OP_EQ`, of the order comparisons
and of `OP_CLOSE` and `OP_RETURN`; `none` for every other instruction. -/
def metaEvent (tms : TMS) (i : Instruction) : Option Int :=
  if i.opcode ∈ [OpCode.OP_SELF, .OP_GETTABUP, .OP_GETTABLE, .OP_GETI, .OP_GETFIELD] then
    some tms.TM_INDEX
  else if i.opcode ∈ [OpCode.OP_SETTABUP, .OP_SETTABLE, .OP_SETI, .OP_SETFIELD] then
    some tms.TM_NEWINDEX
  else if i.opcode ∈ [OpCode.OP_MMBIN, .OP_MMBINI, .OP_MMBINK] then some i.C
  else if i.opcode = .OP_UNM then some tms.TM_UNM
  else if i.opcode = .OP_BNOT then some tms.TM_BNOT
  else if i.opcode = .OP_LEN then some tms.TM_LEN
  else if i.opcode = .OP_CONCAT then some tms.TM_CONCAT
  else if i.opcode = .OP_EQ then some tms.TM_EQ
  else if i.opcode ∈ [OpCode.OP_LT, .OP_LTI, .OP_GTI] then some tms.TM_LT
  else if i.opcode ∈ [OpCode.OP_LE, .OP_LEI, .OP_GEI] then some tms.TM_LE
  else if i.opcode ∈ [OpCode.OP_CLOSE, .OP_RETURN] then some tms.TM_CLOSE
  else none

/-- The incremental decoding of `collectvalidlines` at offset `i`: start from
`linedefined` and apply `nextline` at the offsets 0, 1, ..., `i` in order. -/
def nextline_iter (m : Macros) (p : Proto) (li : List Int) : Nat → Except Fault Int
  | 0 => nextline m p li p.linedefined 0
  | i + 1 =>
    match nextline_iter m p li i with
    | .error e => .error e
    | .ok currentline => nextline m p li currentline ((i : Int) + 1)

/-- The first offset `collectvalidlines` marks: 1 for a vararg function (the
line of `OP_VARARGPREP` is not marked), 0 otherwise. -/
def firstMarked (p : Proto) : Nat := if p.is_vararg then 1 else 0

/-- The replacement of the text: scanning `s` left to right, an occurrence of
`p` at the current position is replaced by `r` and the scan continues after
it; otherwise the current character is copied. -/
def replaceAll_scan (p r : List Char) : Nat → List Char → List Char
  | 0, _ => []
  | _ + 1, [] => []
  | fuel + 1, c :: t =>
    if p.isPrefixOf (c :: t) then r ++ replaceAll_scan p r fuel ((c :: t).drop p.length)
    else c :: replaceAll_scan p r fuel t

/-- The string obtained from `s` by replacing, left to right, each
non-overlapping occurrence of the non-empty `p` with `r`. -/
def replaceAll (s p r : List Char) : List Char := replaceAll_scan p r (s.length + 1) s

/-! # Theorems -/

/-! ## Facts about checked reads -/

theorem rd_natCast {α : Type} (xs : List α) (k : Nat) :
    rd xs (k : Int) = match xs[k]? with
      | some x => .ok x
      | none => .error .outOfBounds := by
  simp [rd]

theorem rd_of_getElem? {α : Type} {xs : List α} {k : Nat} {x : α} (h : xs[k]? = some x) :
    rd xs (k : Int) = .ok x := by
  rw [rd_natCast, h]

theorem rd_eq_ok {α : Type} {xs : List α} {i : Int} {x : α} (h : rd xs i = .ok x) :
    0 ≤ i ∧ xs[i.toNat]? = some x := by
  unfold rd at h
  split at h
  · rename_i h0
    refine ⟨h0, ?_⟩
    split at h
    · rename_i y hy; cases h; exact hy
    · cases h
  · cases h

theorem getElem?_of_lt {α : Type} {xs : List α} {k : Nat} (h : k < xs.length) :
    ∃ a, xs[k]? = some a :=
  ⟨_, List.getElem?_eq_getElem h⟩

/-! ## The adjusting loop of `getbaseline` -/

theorem getbaseline_adjust_spec (f : Proto) (pc : Int) :
    ∀ (fuel k : Nat), k ≤ f.abslineinfo.length → f.abslineinfo.length - k < fuel →
      ∃ r : Nat, k ≤ r ∧ r ≤ f.abslineinfo.length ∧
        getbaseline_adjust f pc fuel ((k : Int) - 1) = .ok ((r : Int) - 1) ∧
        (∀ j a, k ≤ j → j < r → f.abslineinfo[j]? = some a → a.pc ≤ pc) ∧
        (∀ a, f.abslineinfo[r]? = some a → pc < a.pc) := by
  intro fuel
  induction fuel with
  | zero => intro k _ h; omega
  | succ fuel ih =>
    intro k hk hfuel
    unfold getbaseline_adjust
    have hidx : ((k : Int) - 1 + 1) = (k : Int) := by omega
    rw [hidx]
    by_cases hlt : k < f.abslineinfo.length
    · have h1 : (k : Int) < f.sizeabslineinfo := by
        show (k : Int) < (f.abslineinfo.length : Int)
        exact_mod_cast hlt
      rw [if_pos h1]
      obtain ⟨a, ha⟩ := getElem?_of_lt hlt
      rw [rd_of_getElem? ha]
      simp only
      by_cases hp : pc ≥ a.pc
      · rw [if_pos hp]
        obtain ⟨r, hr1, hr2, hr3, hr4, hr5⟩ := ih (k + 1) (by omega) (by omega)
        refine ⟨r, by omega, hr2, ?_, ?_, hr5⟩
        · have h2 : (k : Int) = ((k + 1 : Nat) : Int) - 1 := by push_cast; omega
          rw [h2]; exact hr3
        · intro j b hj1 hj2 hb
          by_cases hjk : j = k
          · subst hjk; rw [ha] at hb; cases hb; exact hp
          · exact hr4 j b (by omega) hj2 hb
      · rw [if_neg hp]
        refine ⟨k, le_refl _, hk, rfl, ?_, ?_⟩
        · intro j b h1 h2; omega
        · intro b hb; rw [ha] at hb; cases hb; omega
    · have h1 : ¬ ((k : Int) < f.sizeabslineinfo) := by
        show ¬ ((k : Int) < (f.abslineinfo.length : Int))
        omega
      rw [if_neg h1]
      refine ⟨k, le_refl _, hk, rfl, ?_, ?_⟩
      · intro j b h1 h2; omega
      · intro a ha
        have h2 : f.abslineinfo[k]? = none := List.getElem?_eq_none (by omega)
        rw [h2] at ha; cases ha
/-! ## Checkpoints of a well-formed prototype -/

theorem cast_estimate (M : Nat) (hM : 0 < M) (pc : Int) (h0 : 0 ≤ pc) (h1 : pc < 2147483648) :
    cast_int (cast_uint pc / (M : Int) - 1) = pc / (M : Int) - 1 := by
  have hq0 : 0 ≤ pc / (M : Int) := Int.ediv_nonneg h0 (by omega)
  have hq1 : pc / (M : Int) ≤ pc := Int.ediv_le_self _ h0
  unfold cast_int cast_uint
  have h2 : pc % 4294967296 = pc := Int.emod_eq_of_lt h0 (by omega)
  rw [h2]
  generalize pc / (M : Int) = q at *
  split <;> omega

theorem WellFormed.mono {m : Macros} {f : Proto} (hwf : WellFormed m f) {i j : Nat}
    {a b : AbsLineInfo} (hij : i < j) (ha : f.abslineinfo[i]? = some a)
    (hb : f.abslineinfo[j]? = some b) : a.pc < b.pc := by
  obtain ⟨_, _, _, _, _, hpw, _⟩ := hwf
  rw [List.pairwise_iff_getElem] at hpw
  obtain ⟨hi, rfl⟩ := List.getElem?_eq_some.mp ha
  obtain ⟨hj, rfl⟩ := List.getElem?_eq_some.mp hb
  exact hpw i j hi hj hij

theorem WellFormed.mono_le {m : Macros} {f : Proto} (hwf : WellFormed m f) {i j : Nat}
    {a b : AbsLineInfo} (hij : i ≤ j) (ha : f.abslineinfo[i]? = some a)
    (hb : f.abslineinfo[j]? = some b) : a.pc ≤ b.pc := by
  rcases Nat.eq_or_lt_of_le hij with h | h
  · subst h; rw [ha] at hb; cases hb; exact le_refl _
  · exact le_of_lt (hwf.mono h ha hb)

theorem WellFormed.stride {m : Macros} {f : Proto} (hwf : WellFormed m f) :
    ∀ (k : Nat) (a : AbsLineInfo), f.abslineinfo[k]? = some a →
      a.pc ≤ ((k : Int) + 1) * (m.MAXIWTHABS : Int) := by
  obtain ⟨_, _, _, _, _, _, hfirst, hgap, _⟩ := hwf
  intro k
  induction k with
  | zero =>
    intro a ha
    have := hfirst a (by rw [List.head?_eq_getElem?]; exact ha)
    simpa using this
  | succ k ih =>
    intro b hb
    obtain ⟨hk, _⟩ := List.getElem?_eq_some.mp hb
    obtain ⟨a, ha⟩ := getElem?_of_lt (by omega : k < f.abslineinfo.length)
    have h1 := ih _ ha
    have h2 := hgap k (by omega) _ ha b hb
    push_cast
    nlinarith

theorem WellFormed.estimate_le {m : Macros} {f : Proto} (hwf : WellFormed m f) (t : Nat)
    (ht : t < f.code.length) (hne : f.abslineinfo ≠ []) :
    t / m.MAXIWTHABS ≤ f.abslineinfo.length := by
  have hM : 0 < m.MAXIWTHABS := hwf.1
  obtain ⟨_, _, _, _, _, _, _, _, hlast⟩ := id hwf
  have hn : 0 < f.abslineinfo.length := List.length_pos.mpr hne
  obtain ⟨l, hl⟩ := getElem?_of_lt (by omega : f.abslineinfo.length - 1 < f.abslineinfo.length)
  have h1 := hlast _ (by rw [List.getLast?_eq_getElem?]; exact hl)
  have h2 := hwf.stride _ _ hl
  have h3 : ((f.abslineinfo.length - 1 : Nat) : Int) + 1 = (f.abslineinfo.length : Int) := by
    omega
  rw [h3] at h2
  have h4 : (t : Int) < ((f.abslineinfo.length : Int) + 1) * (m.MAXIWTHABS : Int) := by
    have : (t : Int) < (f.code.length : Int) := by exact_mod_cast ht
    nlinarith
  have h5 : t < (f.abslineinfo.length + 1) * m.MAXIWTHABS := by exact_mod_cast h4
  have h6 : t / m.MAXIWTHABS < f.abslineinfo.length + 1 := (Nat.div_lt_iff_lt_mul hM).mpr h5
  omega

/-- What `getbaseline` returns on a well-formed prototype. -/
theorem getbaseline_char (m : Macros) (f : Proto) (hwf : WellFormed m f) (t : Nat)
    (ht : t < f.code.length) :
    ((f.abslineinfo = [] ∨ ∃ e0, f.abslineinfo[0]? = some e0 ∧ (t : Int) < e0.pc) ∧
        getbaseline m f t = .ok (f.linedefined, -1)) ∨
    (∃ r e, f.abslineinfo[r]? = some e ∧ e.pc ≤ (t : Int) ∧
        (∀ a, f.abslineinfo[r + 1]? = some a → (t : Int) < a.pc) ∧
        getbaseline m f t = .ok (e.line, e.pc)) := by
  have hM : 0 < m.MAXIWTHABS := hwf.1
  have hsz : f.code.length < 2147483648 := hwf.2.1
  unfold getbaseline
  by_cases hne : f.abslineinfo = []
  · left
    refine ⟨Or.inl hne, ?_⟩
    simp [Proto.sizeabslineinfo, hne]
  · have hn : 0 < f.abslineinfo.length := List.length_pos.mpr hne
    have hsize : ¬ (f.sizeabslineinfo = 0) := by
      show ¬ ((f.abslineinfo.length : Int) = 0)
      omega
    rw [if_neg hsize]
    obtain ⟨e0, h0⟩ := getElem?_of_lt hn
    have hrd0 : rd f.abslineinfo 0 = .ok e0 := by
      have := rd_of_getElem? h0
      simpa using this
    rw [hrd0]
    simp only
    by_cases hfirst : (t : Int) < e0.pc
    · left
      exact ⟨Or.inr ⟨_, h0, hfirst⟩, by rw [if_pos hfirst]⟩
    · right
      rw [if_neg hfirst]
      have hcast : cast_int (cast_uint (t : Int) / (m.MAXIWTHABS : Int) - 1) =
          ((t / m.MAXIWTHABS : Nat) : Int) - 1 := by
        rw [cast_estimate _ hM _ (by omega) (by omega)]
        push_cast
        rfl
      rw [hcast]
      have hk : t / m.MAXIWTHABS ≤ f.abslineinfo.length := hwf.estimate_le t ht hne
      -- the estimate is a lower bound of the correct base
      have hlow : ∀ e, 0 < t / m.MAXIWTHABS → f.abslineinfo[t / m.MAXIWTHABS - 1]? = some e →
          e.pc ≤ (t : Int) := by
        intro e hpos he
        have h1 := hwf.stride _ _ he
        have h2 : ((t / m.MAXIWTHABS - 1 : Nat) : Int) + 1 = ((t / m.MAXIWTHABS : Nat) : Int) := by
          omega
        rw [h2] at h1
        have h3 : t / m.MAXIWTHABS * m.MAXIWTHABS ≤ t := Nat.div_mul_le_self _ _
        have h4 : ((t / m.MAXIWTHABS : Nat) : Int) * (m.MAXIWTHABS : Int) ≤ (t : Int) := by
          exact_mod_cast h3
        omega
      generalize t / m.MAXIWTHABS = q at hk hlow
      have hassert : getbaseline_assert f (t : Int) ((q : Int) - 1) = .ok () := by
        unfold getbaseline_assert
        by_cases hpos : 0 < q
        · have h1 : ¬ ((q : Int) - 1 < 0) := by omega
          have h2 : (q : Int) - 1 < f.sizeabslineinfo := by
            show (q : Int) - 1 < (f.abslineinfo.length : Int)
            omega
          rw [if_neg h1, if_pos h2]
          have h3 : (q : Int) - 1 = ((q - 1 : Nat) : Int) := by omega
          obtain ⟨est, h4⟩ := getElem?_of_lt (by omega : q - 1 < f.abslineinfo.length)
          rw [h3, rd_of_getElem? h4]
          simp only
          rw [if_pos (hlow _ hpos h4)]
        · have h1 : (q : Int) - 1 < 0 := by omega
          rw [if_pos h1]
      rw [hassert]
      simp only
      obtain ⟨r, hr1, hr2, hr3, hr4, hr5⟩ :=
        getbaseline_adjust_spec f (t : Int) (f.abslineinfo.length + 1) q hk (by omega)
      rw [hr3]
      simp only
      have hrpos : 0 < r := by
        rcases Nat.eq_zero_or_pos r with h | h
        · subst h
          exact absurd (hr5 _ h0) hfirst
        · exact h
      obtain ⟨base, hre⟩ := getElem?_of_lt (by omega : r - 1 < f.abslineinfo.length)
      have h3 : (r : Int) - 1 = ((r - 1 : Nat) : Int) := by omega
      rw [h3, rd_of_getElem? hre]
      refine ⟨r - 1, _, hre, ?_, ?_, rfl⟩
      · by_cases hkr : q ≤ r - 1
        · exact hr4 _ _ hkr (by omega) hre
        · have hrk : r = q := by omega
          apply hlow _ (by omega)
          rw [← hrk]; exact hre
      · intro a ha
        have h4 : r - 1 + 1 = r := by omega
        rw [h4] at ha
        exact hr5 a ha
/-! ## The walk of `luaG_getfuncline` -/

theorem getfuncline_walk_spec (m : Macros) (li : List Int) (t : Nat) (ht : t < li.length) :
    ∀ (fuel s : Nat) (baseline : Int), s ≤ t + 1 → t + 1 - s < fuel →
      (∀ q, s ≤ q → q ≤ t → li[q]? ≠ some m.ABSLINEINFO) →
      getfuncline_walk m li (t : Int) fuel ((s : Int) - 1) baseline =
        .ok (baseline + ((li.take (t + 1)).drop s).sum) := by
  intro fuel
  induction fuel with
  | zero => intro s _ _ h; omega
  | succ fuel ih =>
    intro s baseline hs hfuel hno
    unfold getfuncline_walk
    have hidx : ((s : Int) - 1 + 1) = (s : Int) := by omega
    rw [hidx]
    by_cases hlt : s ≤ t
    · have h1 : (s : Int) - 1 < (t : Int) := by omega
      rw [if_pos h1]
      have hsl : s < li.length := by omega
      have hd : li[s]? = some li[s] := List.getElem?_eq_getElem hsl
      rw [rd_of_getElem? hd]
      simp only
      have h2 : ¬ (li[s] = m.ABSLINEINFO) := by
        intro h
        exact hno s (le_refl _) hlt (by rw [hd, h])
      rw [if_neg h2]
      have h3 : (s : Int) = ((s + 1 : Nat) : Int) - 1 := by push_cast; omega
      rw [h3, ih (s + 1) (baseline + li[s]) (by omega) (by omega)
        (fun q hq1 hq2 => hno q (by omega) hq2)]
      have h4 : s < (li.take (t + 1)).length := by
        rw [List.length_take]; omega
      rw [List.drop_eq_getElem_cons h4, List.sum_cons, List.getElem_take]
      rw [add_assoc]
    · have h1 : ¬ ((s : Int) - 1 < (t : Int)) := by omega
      rw [if_neg h1]
      have h2 : (li.take (t + 1)).drop s = [] := by
        apply List.drop_eq_nil_of_le
        rw [List.length_take]; omega
      rw [h2]; simp

theorem sum_drop_take_split (l : List Int) (s i j : Nat) (hs : s ≤ i + 1) (hij : i ≤ j)
    (hi : i < l.length) :
    ((l.take (j + 1)).drop s).sum =
      ((l.take (i + 1)).drop s).sum + ((l.take (j + 1)).drop (i + 1)).sum := by
  have h1 : l.take (j + 1) = l.take (i + 1) ++ (l.take (j + 1)).drop (i + 1) := by
    have := (List.take_append_drop (i + 1) (l.take (j + 1))).symm
    rw [List.take_take] at this
    have hmin : min (i + 1) (j + 1) = i + 1 := by omega
    rw [hmin] at this
    exact this
  have h2 : s ≤ (l.take (i + 1)).length := by
    rw [List.length_take]; omega
  conv_lhs => rw [h1]
  rw [List.drop_append_of_le_length h2, List.sum_append]

/-- On a well-formed prototype with debug information `luaG_getfuncline`
returns the base line plus the deltas after the base offset, and the walk
meets no `ABSLINEINFO` entry. -/
theorem getfuncline_char (m : Macros) (f : Proto) (hwf : WellFormed m f) (li : List Int)
    (hli : f.lineinfo = some li) (t : Nat) (ht : t < f.code.length) :
    ∃ (baseline : Int) (s : Nat),
      getbaseline m f t = .ok (baseline, (s : Int) - 1) ∧ s ≤ t + 1 ∧
      (∀ q, s ≤ q → q ≤ t → li[q]? ≠ some m.ABSLINEINFO) ∧
      luaG_getfuncline m f t = .ok (baseline + ((li.take (t + 1)).drop s).sum) := by
  have hlen : li.length = f.code.length := hwf.2.2.1 li hli
  have hsent := hwf.2.2.2.1 li hli
  have hnn := hwf.2.2.2.2.1
  have key : ∀ (baseline : Int) (s : Nat), getbaseline m f t = .ok (baseline, (s : Int) - 1) →
      s ≤ t + 1 → (∀ q, s ≤ q → q ≤ t → li[q]? ≠ some m.ABSLINEINFO) →
      luaG_getfuncline m f t = .ok (baseline + ((li.take (t + 1)).drop s).sum) := by
    intro baseline s hb hs hno
    unfold luaG_getfuncline
    rw [hli]
    simp only
    rw [hb]
    simp only
    exact getfuncline_walk_spec m li t (by omega) _ s baseline hs (by omega) hno
  rcases getbaseline_char m f hwf t ht with ⟨hcase, hres⟩ | ⟨r, e, hre, hle, hnext, hres⟩
  · have hno : ∀ q, 0 ≤ q → q ≤ t → li[q]? ≠ some m.ABSLINEINFO := by
      intro q _ hq hq'
      obtain ⟨e, hemem, hepc⟩ := hsent q (by omega) hq'
      obtain ⟨j, hje'⟩ := List.mem_iff_getElem?.mp hemem
      rcases hcase with hnil | ⟨e0, he0, hlt⟩
      · rw [hnil] at hemem; cases hemem
      · have := hwf.mono_le (Nat.zero_le j) he0 hje'
        omega
    have hres' : getbaseline m f t = .ok (f.linedefined, ((0 : Nat) : Int) - 1) := by
      rw [hres]; rfl
    exact ⟨f.linedefined, 0, hres', by omega, hno, key _ _ hres' (by omega) hno⟩
  · have he0 : 0 ≤ e.pc := hnn e (List.getElem?_mem hre)
    have hs : ((e.pc.toNat + 1 : Nat) : Int) - 1 = e.pc := by
      push_cast
      rw [Int.toNat_of_nonneg he0]; omega
    have hno : ∀ q, e.pc.toNat + 1 ≤ q → q ≤ t → li[q]? ≠ some m.ABSLINEINFO := by
      intro q hq1 hq2 hq'
      obtain ⟨e', hemem, hepc⟩ := hsent q (by omega) hq'
      obtain ⟨j, hje'⟩ := List.mem_iff_getElem?.mp hemem
      obtain ⟨hj, _⟩ := List.getElem?_eq_some.mp hje'
      have hjr : r < j := by
        by_contra hcon
        have := hwf.mono_le (Nat.le_of_not_lt hcon) hje' hre
        omega
      obtain ⟨nxt, hr1⟩ := getElem?_of_lt (by omega : r + 1 < f.abslineinfo.length)
      have h1 := hnext _ hr1
      have h2 := hwf.mono_le (by omega : r + 1 ≤ j) hr1 hje'
      omega
    have hres' : getbaseline m f t = .ok (e.line, ((e.pc.toNat + 1 : Nat) : Int) - 1) := by
      rw [hres, hs]
    exact ⟨e.line, e.pc.toNat + 1, hres', by omega, hno, key _ _ hres' (by omega) hno⟩

/-- Offsets with no checkpoint in between have the same base. -/
theorem getbaseline_same (m : Macros) (f : Proto) (hwf : WellFormed m f) (i j : Nat)
    (hij : i ≤ j) (hj : j < f.code.length)
    (hno : ∀ e ∈ f.abslineinfo, ¬ ((i : Int) < e.pc ∧ e.pc ≤ (j : Int))) :
    getbaseline m f i = getbaseline m f j := by
  rcases getbaseline_char m f hwf i (by omega) with ⟨hc1, hr1⟩ | ⟨r1, e1, he1, hle1, hn1, hr1⟩ <;>
  rcases getbaseline_char m f hwf j hj with ⟨hc2, hr2⟩ | ⟨r2, e2, he2, hle2, hn2, hr2⟩
  · rw [hr1, hr2]
  · exfalso
    rcases hc1 with hnil | ⟨e0, he0, hlt⟩
    · rw [hnil] at he2; simp at he2
    · have := hwf.mono_le (Nat.zero_le r2) he0 he2
      exact hno e2 (List.getElem?_mem he2) ⟨by omega, hle2⟩
  · exfalso
    rcases hc2 with hnil | ⟨e0, he0, hlt⟩
    · rw [hnil] at he1; simp at he1
    · have := hwf.mono_le (Nat.zero_le r1) he0 he1
      omega
  · have hr : r1 = r2 := by
      rcases Nat.lt_trichotomy r1 r2 with h | h | h
      · exfalso
        obtain ⟨hlen2, _⟩ := List.getElem?_eq_some.mp he2
        obtain ⟨a, ha⟩ := getElem?_of_lt (by omega : r1 + 1 < f.abslineinfo.length)
        have h1 := hn1 _ ha
        have h2 := hwf.mono_le (by omega : r1 + 1 ≤ r2) ha he2
        exact hno _ (List.getElem?_mem ha) ⟨h1, by omega⟩
      · exact h
      · exfalso
        obtain ⟨hlen1, _⟩ := List.getElem?_eq_some.mp he1
        obtain ⟨a, ha⟩ := getElem?_of_lt (by omega : r2 + 1 < f.abslineinfo.length)
        have h1 := hn2 _ ha
        have h2 := hwf.mono_le (by omega : r2 + 1 ≤ r1) ha he1
        omega
    subst hr
    rw [he1] at he2
    cases he2
    rw [hr1, hr2]
/-- Difference of the lines of two offsets with no checkpoint in between. -/
theorem funcline_diff (m : Macros) (f : Proto) (hwf : WellFormed m f)
    (hcs : CheckpointsAtSentinels m f) (li : List Int) (hli : f.lineinfo = some li)
    (i j : Nat) (hij : i ≤ j) (hj : j < f.code.length)
    (hno : ∀ q, i < q → q ≤ j → li[q]? ≠ some m.ABSLINEINFO) :
    ∃ a b, luaG_getfuncline m f i = .ok a ∧ luaG_getfuncline m f j = .ok b ∧
      b - a = sumLineinfo li i j := by
  have hlen : li.length = f.code.length := hwf.2.2.1 li hli
  have hnn := hwf.2.2.2.2.1
  have hsame : getbaseline m f i = getbaseline m f j := by
    apply getbaseline_same m f hwf i j hij hj
    intro e he ⟨h1, h2⟩
    have h3 := rd_eq_ok (hcs li hli e he)
    have h4 : 0 ≤ e.pc := hnn e he
    exact hno e.pc.toNat (by omega) (by omega) h3.2
  obtain ⟨b1, s1, hb1, hs1, _, hl1⟩ := getfuncline_char m f hwf li hli i (by omega)
  obtain ⟨b2, s2, hb2, hs2, _, hl2⟩ := getfuncline_char m f hwf li hli j hj
  rw [hsame, hb2] at hb1
  have h5 : b2 = b1 ∧ (s2 : Int) - 1 = (s1 : Int) - 1 := by
    injection hb1 with h
    exact ⟨congrArg Prod.fst h, congrArg Prod.snd h⟩
  have h6 : s2 = s1 := by omega
  refine ⟨_, _, hl1, hl2, ?_⟩
  rw [h5.1, h6, sum_drop_take_split li s1 i j hs1 hij (by omega)]
  unfold sumLineinfo
  ring

/-! ## The delta walk of `changedline` -/

theorem changedline_loop_returned (m : Macros) (li : List Int) (t : Nat) (ht : t < li.length) :
    ∀ (fuel c : Nat) (delta : Int), c < t → t - c ≤ fuel →
      (∀ q, c < q → q ≤ t → li[q]? ≠ some m.ABSLINEINFO) →
      changedline_loop m li (t : Int) fuel (c : Int) delta =
        .ok (.returned (decide (delta + ((li.take (t + 1)).drop (c + 1)).sum ≠ 0))) := by
  intro fuel
  induction fuel with
  | zero => intro c _ h1 h2; omega
  | succ fuel ih =>
    intro c delta hc hfuel hno
    unfold changedline_loop
    have hidx : (c : Int) + 1 = ((c + 1 : Nat) : Int) := by push_cast; rfl
    rw [hidx]
    have hcl : c + 1 < li.length := by omega
    have hd : li[c + 1]? = some li[c + 1] := List.getElem?_eq_getElem hcl
    rw [rd_of_getElem? hd]
    simp only
    have h2 : ¬ (li[c + 1] = m.ABSLINEINFO) := by
      intro h
      exact hno (c + 1) (by omega) (by omega) (by rw [hd, h])
    rw [if_neg h2]
    have h4 : c + 1 < (li.take (t + 1)).length := by
      rw [List.length_take]; omega
    rw [List.drop_eq_getElem_cons h4, List.sum_cons, List.getElem_take]
    by_cases hlast : c + 1 = t
    · have h3 : ((c + 1 : Nat) : Int) = (t : Int) := by exact_mod_cast hlast
      rw [if_pos h3]
      have h5 : (li.take (t + 1)).drop (c + 1 + 1) = [] := by
        apply List.drop_eq_nil_of_le
        rw [List.length_take]; omega
      rw [h5]
      simp
    · have h3 : ¬ (((c + 1 : Nat) : Int) = (t : Int)) := by
        intro h; exact hlast (by exact_mod_cast h)
      rw [if_neg h3, ih (c + 1) _ (by omega) (by omega) (fun q hq1 hq2 => hno q (by omega) hq2)]
      rw [add_assoc]

theorem changedline_loop_broke (m : Macros) (li : List Int) (t : Nat) (ht : t < li.length) :
    ∀ (fuel c : Nat) (delta : Int), c < t → t - c ≤ fuel →
      (∃ q, c < q ∧ q ≤ t ∧ li[q]? = some m.ABSLINEINFO) →
      changedline_loop m li (t : Int) fuel (c : Int) delta = .ok .broke := by
  intro fuel
  induction fuel with
  | zero => intro c _ h1 h2; omega
  | succ fuel ih =>
    intro c delta hc hfuel hex
    unfold changedline_loop
    have hidx : (c : Int) + 1 = ((c + 1 : Nat) : Int) := by push_cast; rfl
    rw [hidx]
    have hcl : c + 1 < li.length := by omega
    have hd : li[c + 1]? = some li[c + 1] := List.getElem?_eq_getElem hcl
    rw [rd_of_getElem? hd]
    simp only
    by_cases h2 : li[c + 1] = m.ABSLINEINFO
    · rw [if_pos h2]
    · rw [if_neg h2]
      obtain ⟨q, hq1, hq2, hq3⟩ := hex
      have hq4 : q ≠ c + 1 := by
        intro h
        subst h
        rw [hd] at hq3
        exact h2 (Option.some.inj hq3)
      have h3 : ¬ (((c + 1 : Nat) : Int) = (t : Int)) := by
        intro h
        have : c + 1 = t := by exact_mod_cast h
        omega
      rw [if_neg h3]
      exact ih (c + 1) _ (by omega) (by omega) ⟨q, by omega, hq2, hq3⟩

/-- On a well-formed prototype whose checkpoints sit at the sentinels,
`changedline` computes what its last statement computes. -/
theorem changedline_char (m : Macros) (f : Proto) (hwf : WellFormed m f)
    (hcs : CheckpointsAtSentinels m f) (li : List Int) (hli : f.lineinfo = some li)
    (oldpc newpc : Nat) (hlt : oldpc < newpc) (hnew : newpc < f.code.length) :
    ∃ a b, luaG_getfuncline m f oldpc = .ok a ∧ luaG_getfuncline m f newpc = .ok b ∧
      changedline m f oldpc newpc = .ok (decide (a ≠ b)) ∧
      changedline m f oldpc newpc = changedline_full m f oldpc newpc := by
  have hlen : li.length = f.code.length := hwf.2.2.1 li hli
  obtain ⟨b1, s1, _, _, _, hl1⟩ := getfuncline_char m f hwf li hli oldpc (by omega)
  obtain ⟨b2, s2, _, _, _, hl2⟩ := getfuncline_char m f hwf li hli newpc hnew
  generalize b1 + ((li.take (oldpc + 1)).drop s1).sum = l1 at hl1
  generalize b2 + ((li.take (newpc + 1)).drop s2).sum = l2 at hl2
  have hfull : changedline_full m f oldpc newpc = .ok (decide (l1 ≠ l2)) := by
    unfold changedline_full
    rw [hl1, hl2]
  refine ⟨l1, l2, hl1, hl2, ?_⟩
  suffices h : changedline m f oldpc newpc = changedline_full m f oldpc newpc by
    exact ⟨by rw [h, hfull], h⟩
  unfold changedline
  rw [hli]
  simp only
  split
  · by_cases hex : ∃ q, oldpc < q ∧ q ≤ newpc ∧ li[q]? = some m.ABSLINEINFO
    · rw [changedline_loop_broke m li newpc (by omega) _ oldpc 0 hlt (by omega) hex]
    · have hno : ∀ q, oldpc < q → q ≤ newpc → li[q]? ≠ some m.ABSLINEINFO := by
        intro q h1 h2 h3
        exact hex ⟨q, h1, h2, h3⟩
      rw [changedline_loop_returned m li newpc (by omega) _ oldpc 0 hlt (by omega) hno]
      simp only
      obtain ⟨a, b, ha, hb, hab⟩ :=
        funcline_diff m f hwf hcs li hli oldpc newpc (le_of_lt hlt) hnew hno
      unfold changedline_full
      rw [ha, hb]
      simp only
      unfold sumLineinfo at hab
      congr 1
      rw [← hab]
      simp only [zero_add, ne_eq, decide_eq_decide]
      constructor
      · intro h1 h2; apply h1; rw [h2]; ring
      · intro h1 h2; apply h1; omega
  · rfl
/-! ## Claims on the line resolver -/

/-- C1 (as stated, refuted): `protoStray` meets every condition the claim lists
(lineinfo as long as code, a checkpoint at every `ABSLINEINFO` entry, checkpoint
offsets strictly increasing and at most `MAXIWTHABS` apart), there is no
`ABSLINEINFO` entry in `lineinfo[1..1]`, and yet
`luaG_getfuncline(P, 1) - luaG_getfuncline(P, 0) = 99` while `lineinfo[1] = 1`. -/
theorem getfuncline_delta_stray_checkpoint :
    WellFormed luaMacros protoStray ∧
    protoStray.lineinfo = some [0, 1, 1] ∧
    (0 : Nat) < 1 ∧ 1 < protoStray.code.length ∧
    (∀ q, q ≤ 1 → 0 < q → ([0, 1, 1] : List Int)[q]? ≠ some luaMacros.ABSLINEINFO) ∧
    luaG_getfuncline luaMacros protoStray 0 = .ok 1 ∧
    luaG_getfuncline luaMacros protoStray 1 = .ok 100 ∧
    (100 : Int) - 1 ≠ sumLineinfo [0, 1, 1] 0 1 := by
  refine ⟨?_, rfl, by decide, by decide, by decide, by decide, by decide, by decide⟩
  unfold WellFormed
  decide

/-- C1 (amended): for every well-formed prototype P in which, in addition,
every checkpoint of `abslineinfo` sits at an `ABSLINEINFO` entry of `lineinfo`,
and all offsets i < j < sizecode with no `ABSLINEINFO` entry in
`lineinfo[i+1..j]`, both lines are resolved and
`luaG_getfuncline(P, j) - luaG_getfuncline(P, i)` is the sum of `lineinfo[i+1..j]`. -/
theorem getfuncline_delta (m : Macros) (f : Proto) (li : List Int) (i j : Nat)
    (hwf : WellFormed m f) (hcs : CheckpointsAtSentinels m f) (hli : f.lineinfo = some li)
    (hij : i < j) (hj : j < f.code.length)
    (hno : ∀ q, q ≤ j → i < q → li[q]? ≠ some m.ABSLINEINFO) :
    ∃ a b, luaG_getfuncline m f i = .ok a ∧ luaG_getfuncline m f j = .ok b ∧
      b - a = sumLineinfo li i j :=
  funcline_diff m f hwf hcs li hli i j (le_of_lt hij) hj (fun q h1 h2 => hno q h2 h1)

/-- C1 (amended), at offsets 2 and 3 of `protoLines`. -/
theorem getfuncline_delta_witness :
    ∃ a b, luaG_getfuncline luaMacros protoLines (2 : Nat) = .ok a ∧
      luaG_getfuncline luaMacros protoLines (3 : Nat) = .ok b ∧
      b - a = sumLineinfo [1, 0, -128, 1] 2 3 :=
  getfuncline_delta luaMacros protoLines [1, 0, -128, 1] 2 3
    (by unfold WellFormed; decide) (by unfold CheckpointsAtSentinels; decide) rfl
    (by decide) (by decide) (by decide)

/-- C2 (as stated, refuted): `protoStraySameLine` is well formed and has debug
information, offsets 0 and 1 resolve to the same line 1, and yet
`changedline(p, 0, 1)` is true: its delta-summing path adds `lineinfo[1] = 1`,
while its full resolution path would answer false. -/
theorem changedline_stray_checkpoint :
    WellFormed luaMacros protoStraySameLine ∧
    protoStraySameLine.lineinfo = some [0, 1, 1] ∧
    (0 : Nat) < 1 ∧ 1 < protoStraySameLine.code.length ∧
    luaG_getfuncline luaMacros protoStraySameLine 0 = .ok 1 ∧
    luaG_getfuncline luaMacros protoStraySameLine 1 = .ok 1 ∧
    changedline luaMacros protoStraySameLine 0 1 = .ok true ∧
    changedline_full luaMacros protoStraySameLine 0 1 = .ok false := by
  refine ⟨?_, rfl, by decide, by decide, by decide, by decide, by decide, by decide⟩
  unfold WellFormed
  decide

/-- C2 (amended): for every well-formed prototype with debug information in
which, in addition, every checkpoint of `abslineinfo` sits at an `ABSLINEINFO`
entry of `lineinfo`, and all offsets oldpc < newpc < sizecode, both lines are
resolved, `changedline(p, oldpc, newpc)` is true if and only if they differ,
and the function returns what its full resolution path returns, whether or not
the delta-summing path was taken. -/
theorem changedline_agrees (m : Macros) (f : Proto) (li : List Int) (oldpc newpc : Nat)
    (hwf : WellFormed m f) (hcs : CheckpointsAtSentinels m f) (hli : f.lineinfo = some li)
    (hlt : oldpc < newpc) (hnew : newpc < f.code.length) :
    ∃ a b, luaG_getfuncline m f oldpc = .ok a ∧ luaG_getfuncline m f newpc = .ok b ∧
      changedline m f oldpc newpc = .ok (decide (a ≠ b)) ∧
      changedline m f oldpc newpc = changedline_full m f oldpc newpc :=
  changedline_char m f hwf hcs li hli oldpc newpc hlt hnew

/-- C2 (amended), at offsets 0 and 1 of `protoLines` (delta-summing path). -/
theorem changedline_agrees_witness :
    ∃ a b, luaG_getfuncline luaMacros protoLines (0 : Nat) = .ok a ∧
      luaG_getfuncline luaMacros protoLines (1 : Nat) = .ok b ∧
      changedline luaMacros protoLines (0 : Nat) (1 : Nat) = .ok (decide (a ≠ b)) ∧
      changedline luaMacros protoLines (0 : Nat) (1 : Nat) =
        changedline_full luaMacros protoLines (0 : Nat) (1 : Nat) :=
  changedline_agrees luaMacros protoLines [1, 0, -128, 1] 0 1
    (by unfold WellFormed; decide) (by unfold CheckpointsAtSentinels; decide) rfl
    (by decide) (by decide)

/-- C3: for every well-formed prototype and offset pc: if the prototype has no
checkpoints or pc is smaller than the first checkpoint's offset, `getbaseline`
returns line `linedefined` with base offset -1; otherwise (pc an offset of the
code, 0 <= pc < sizecode) it returns the (offset, line) pair of the checkpoint
with the greatest offset that is <= pc. -/
theorem getbaseline_spec (m : Macros) (f : Proto) (pc : Int) (hwf : WellFormed m f) :
    ((f.abslineinfo = [] ∨ ∃ e0, f.abslineinfo[0]? = some e0 ∧ pc < e0.pc) →
      getbaseline m f pc = .ok (f.linedefined, -1)) ∧
    (0 ≤ pc → pc < f.sizecode →
      ¬ (f.abslineinfo = [] ∨ ∃ e0, f.abslineinfo[0]? = some e0 ∧ pc < e0.pc) →
      ∃ e ∈ f.abslineinfo, e.pc ≤ pc ∧
        (∀ other ∈ f.abslineinfo, other.pc ≤ pc → other.pc ≤ e.pc) ∧
        getbaseline m f pc = .ok (e.line, e.pc)) := by
  constructor
  · intro hcase
    unfold getbaseline
    rcases hcase with hnil | ⟨e0, he0, hlt⟩
    · simp [Proto.sizeabslineinfo, hnil]
    · have hrd0 : rd f.abslineinfo 0 = .ok e0 := by
        have := rd_of_getElem? he0
        simpa using this
      rw [hrd0]
      simp only
      rw [if_pos hlt]
      split <;> rfl
  · intro h0 h1 hnot
    have hpc : pc = ((pc.toNat : Nat) : Int) := by omega
    have hlt : pc.toNat < f.code.length := by
      have : pc < (f.code.length : Int) := h1
      omega
    rw [hpc] at hnot ⊢
    rcases getbaseline_char m f hwf pc.toNat hlt with
      ⟨hcase, _⟩ | ⟨r, e, hre, hle, hnext, hres⟩
    · exact absurd hcase hnot
    · refine ⟨e, List.getElem?_mem hre, hle, ?_, hres⟩
      intro other hmem hother
      obtain ⟨j, hj⟩ := List.mem_iff_getElem?.mp hmem
      obtain ⟨hjlen, _⟩ := List.getElem?_eq_some.mp hj
      by_cases hjr : j ≤ r
      · exact hwf.mono_le hjr hj hre
      · exfalso
        obtain ⟨nxt, hn⟩ := getElem?_of_lt (by omega : r + 1 < f.abslineinfo.length)
        have h2 := hnext _ hn
        have h3 := hwf.mono_le (by omega : r + 1 ≤ j) hn hj
        omega

/-- C3, at offsets 3 and 1 of `protoLines`: the base of offset 3 is the
checkpoint (2, 7), offset 1 lies before the first checkpoint. -/
theorem getbaseline_spec_witness :
    getbaseline luaMacros protoLines 3 = .ok (7, 2) ∧
    getbaseline luaMacros protoLines 1 = .ok (protoLines.linedefined, -1) := by
  have hwf : WellFormed luaMacros protoLines := by unfold WellFormed; decide
  constructor
  · obtain ⟨e, hmem, _, _, hres⟩ :=
      (getbaseline_spec luaMacros protoLines 3 hwf).2 (by decide) (by decide) (by decide)
    have he : e = { pc := 2, line := 7 } := by simpa [protoLines] using hmem
    rw [hres, he]
  · exact (getbaseline_spec luaMacros protoLines 1 hwf).1 (by decide)

/-- C4: for every well-formed prototype and every offset 0 <= pc < sizecode,
`luaG_getfuncline` returns a line without a fault of the checked model (no
index into `abslineinfo` or `lineinfo` out of range, no failed assertion of
`getbaseline` or of the walk); with debug information the base offset lies in
-1 .. pc and every entry the walk visits, `lineinfo[q]` for basepc < q <= pc, is
inside `lineinfo` and is not `ABSLINEINFO`. -/
theorem getfuncline_safe (m : Macros) (f : Proto) (pc : Int) (hwf : WellFormed m f)
    (hpc0 : 0 ≤ pc) (hpc : pc < f.sizecode) :
    (∃ line, luaG_getfuncline m f pc = .ok line) ∧
    ∀ li, f.lineinfo = some li →
      ∃ baseline basepc, getbaseline m f pc = .ok (baseline, basepc) ∧
        -1 ≤ basepc ∧ basepc ≤ pc ∧
        ∀ q : Int, basepc < q → q ≤ pc → ∃ d, rd li q = .ok d ∧ d ≠ m.ABSLINEINFO := by
  have hcast : pc = ((pc.toNat : Nat) : Int) := by omega
  have hlt : pc.toNat < f.code.length := by
    have : pc < (f.code.length : Int) := hpc
    omega
  rw [hcast]
  generalize pc.toNat = t at hlt
  constructor
  · cases hli : f.lineinfo with
    | none => exact ⟨-1, by unfold luaG_getfuncline; rw [hli]⟩
    | some li =>
      obtain ⟨b, s, _, _, _, hl⟩ := getfuncline_char m f hwf li hli t hlt
      exact ⟨_, hl⟩
  · intro li hli
    obtain ⟨b, s, hb, hs, hno, _⟩ := getfuncline_char m f hwf li hli t hlt
    have hlen : li.length = f.code.length := hwf.2.2.1 li hli
    refine ⟨b, (s : Int) - 1, hb, by omega, by omega, ?_⟩
    intro q hq1 hq2
    obtain ⟨d, hd⟩ := getElem?_of_lt (by omega : q.toNat < li.length)
    have hq : q = ((q.toNat : Nat) : Int) := by omega
    refine ⟨d, by rw [hq]; exact rd_of_getElem? hd, ?_⟩
    intro habs
    exact hno q.toNat (by omega) (by omega) (by rw [hd, habs])

/-- C4, at offset 3 of `protoLines`. -/
theorem getfuncline_safe_witness :
    ∃ line, luaG_getfuncline luaMacros protoLines 3 = .ok line :=
  (getfuncline_safe luaMacros protoLines 3 (by unfold WellFormed; decide) (by decide)
    (by decide)).1
/-! ## Facts about `findsetreg` -/

theorem rd_ok_of_le {α : Type} {xs : List α} {i j : Int} {y : α} (h0 : 0 ≤ i) (hij : i ≤ j)
    (hj : rd xs j = .ok y) : ∃ x, rd xs i = .ok x := by
  obtain ⟨hj0, hjy⟩ := rd_eq_ok hj
  obtain ⟨hlen, _⟩ := List.getElem?_eq_some.mp hjy
  have h1 : i.toNat < xs.length := by omega
  obtain ⟨x, hx⟩ := getElem?_of_lt h1
  refine ⟨x, ?_⟩
  have h2 : i = ((i.toNat : Nat) : Int) := by omega
  rw [h2]
  exact rd_of_getElem? hx

theorem rd_ne_outOfFuel {α : Type} (xs : List α) (i : Int) : rd xs i ≠ .error .outOfFuel := by
  unfold rd
  split
  · split <;> simp
  · simp

theorem findsetreg_switch_fst (m : Macros) (i : Instruction) (pc lastpc reg jt : Int) :
    (findsetreg_switch m i pc lastpc reg jt).1 = writesReg m i reg := by
  unfold writesReg findsetreg_switch
  split <;> rfl

theorem findsetreg_switch_snd_ge (m : Macros) (i : Instruction) (pc lastpc reg jt : Int) :
    jt ≤ (findsetreg_switch m i pc lastpc reg jt).2 := by
  unfold findsetreg_switch
  split <;> simp only [le_refl]
  split
  · omega
  · exact le_refl _

theorem findsetreg_switch_jmp (m : Macros) (i : Instruction) (pc lastpc reg jt : Int)
    (hop : i.opcode = .OP_JMP) (hd : pc + 1 + i.sJ ≤ lastpc) :
    pc + 1 + i.sJ ≤ (findsetreg_switch m i pc lastpc reg jt).2 := by
  unfold findsetreg_switch
  simp only [GET_OPCODE, hop, GETARG_sJ]
  split
  · exact le_refl _
  · omega

theorem writesReg_move (m : Macros) (i : Instruction) (reg : Int) (hop : i.opcode = .OP_MOVE)
    (hw : writesReg m i reg = true) : GETARG_A i = reg := by
  unfold writesReg findsetreg_switch at hw
  simp only [GET_OPCODE, hop, Bool.and_eq_true, decide_eq_true_eq] at hw
  exact hw.2.symm

/-- The loop of `findsetreg` past the last instruction that changes `reg`. -/
theorem findsetreg_loop_tail (m : Macros) (p : Proto) (lastpc reg : Int) (last : Instruction)
    (hlast : rd p.code lastpc = .ok last) :
    ∀ (fuel : Nat) (pc setreg jt : Int), 0 ≤ pc → (lastpc - pc).toNat < fuel →
      (∀ q i, pc ≤ q → q < lastpc → rd p.code q = .ok i → writesReg m i reg = false) →
      findsetreg_loop m p lastpc reg fuel pc setreg jt = .ok setreg := by
  intro fuel
  induction fuel with
  | zero => intro pc setreg jt h0 h1; omega
  | succ fuel ih =>
    intro pc setreg jt h0 hfuel hno
    unfold findsetreg_loop
    by_cases hlt : pc < lastpc
    · rw [if_pos hlt]
      obtain ⟨i, hi⟩ := rd_ok_of_le h0 (le_of_lt hlt) hlast
      rw [hi]
      simp only
      have hw := hno pc i (le_refl _) hlt hi
      rw [← findsetreg_switch_fst m i pc lastpc reg jt] at hw
      rw [hw]
      simp only [Bool.false_eq_true, if_false]
      exact ih (pc + 1) setreg _ (by omega) (by omega)
        (fun q iq h1 h2 h3 => hno q iq (by omega) h2 h3)
    · rw [if_neg hlt]

/-- A write that lies before the destination of an earlier jump is filtered out. -/
theorem findsetreg_loop_conditional (m : Macros) (p : Proto) (lastpc reg : Int)
    (last : Instruction) (hlast : rd p.code lastpc = .ok last) (w j : Int)
    (iw ij : Instruction) (hw : w < lastpc) (hiw : rd p.code w = .ok iw)
    (hwr : writesReg m iw reg = true)
    (hno : ∀ q i, w < q → q < lastpc → rd p.code q = .ok i → writesReg m i reg = false)
    (hjw : j < w) (hij : rd p.code j = .ok ij) (hop : ij.opcode = .OP_JMP)
    (hd1 : w < j + 1 + ij.sJ) (hd2 : j + 1 + ij.sJ ≤ lastpc) :
    ∀ (fuel : Nat) (pc setreg jt : Int), 0 ≤ pc → pc ≤ w → (lastpc - pc).toNat < fuel →
      (pc ≤ j ∨ j + 1 + ij.sJ ≤ jt) →
      findsetreg_loop m p lastpc reg fuel pc setreg jt = .ok (-1) := by
  intro fuel
  induction fuel with
  | zero => intro pc setreg jt h0 h1 h2; omega
  | succ fuel ih =>
    intro pc setreg jt h0 hpw hfuel hinv
    unfold findsetreg_loop
    have hlt : pc < lastpc := by omega
    rw [if_pos hlt]
    obtain ⟨i, hi⟩ := rd_ok_of_le h0 (le_of_lt hlt) hlast
    rw [hi]
    simp only
    have hmono := findsetreg_switch_snd_ge m i pc lastpc reg jt
    by_cases hpc : pc = w
    · subst hpc
      rw [hiw] at hi
      cases hi
      have hjt : j + 1 + ij.sJ ≤ jt := by
        rcases hinv with h | h
        · omega
        · exact h
      have hfst := findsetreg_switch_fst m iw pc lastpc reg jt
      rw [hwr] at hfst
      rw [hfst]
      simp only [if_true]
      have hfilter : filterpc pc (findsetreg_switch m iw pc lastpc reg jt).2 = -1 := by
        unfold filterpc
        rw [if_pos (by omega)]
      rw [hfilter]
      exact findsetreg_loop_tail m p lastpc reg last hlast fuel (pc + 1) (-1) _ (by omega)
        (by omega) (fun q iq h1 h2 h3 => hno q iq (by omega) h2 h3)
    · apply ih (pc + 1) _ _ (by omega) (by omega) (by omega)
      by_cases hpj : pc < j
      · left; omega
      · right
        by_cases hpj2 : pc = j
        · subst hpj2
          rw [hij] at hi
          cases hi
          exact findsetreg_switch_jmp m ij pc lastpc reg jt hop hd2
        · rcases hinv with h | h
          · omega
          · omega

/-- The loop of `findsetreg` returns its initial `setreg`, -1, or the offset of
an instruction that changes `reg`. -/
theorem findsetreg_loop_result (m : Macros) (p : Proto) (lastpc reg : Int) :
    ∀ (fuel : Nat) (pc setreg jt r : Int),
      findsetreg_loop m p lastpc reg fuel pc setreg jt = .ok r →
      r = setreg ∨ r = -1 ∨ ∃ i, rd p.code r = .ok i ∧ writesReg m i reg = true := by
  intro fuel
  induction fuel with
  | zero => intro pc setreg jt r h; simp [findsetreg_loop] at h
  | succ fuel ih =>
    intro pc setreg jt r h
    unfold findsetreg_loop at h
    split at h
    · split at h
      · cases h
      · rename_i i hi
        simp only at h
        rcases ih _ _ _ _ h with h1 | h1 | h1
        · by_cases hc : (findsetreg_switch m i pc lastpc reg jt).1 = true
          · rw [if_pos hc] at h1
            unfold filterpc at h1
            split at h1
            · right; left; exact h1
            · right; right
              refine ⟨i, by rw [h1]; exact hi, ?_⟩
              rw [← findsetreg_switch_fst m i pc lastpc reg jt]; exact hc
          · rw [if_neg hc] at h1
            left; exact h1
        · right; left; exact h1
        · right; right; exact h1
    · left
      cases h
      rfl

theorem findsetreg_loop_ne_outOfFuel (m : Macros) (p : Proto) (lastpc reg : Int) :
    ∀ (fuel : Nat) (pc setreg jt : Int), (lastpc - pc).toNat < fuel →
      findsetreg_loop m p lastpc reg fuel pc setreg jt ≠ .error .outOfFuel := by
  intro fuel
  induction fuel with
  | zero => intro pc setreg jt h; omega
  | succ fuel ih =>
    intro pc setreg jt hfuel
    unfold findsetreg_loop
    split
    · split
      · rename_i e he
        intro h
        cases h
        exact rd_ne_outOfFuel _ _ he
      · simp only
        exact ih _ _ _ (by omega)
    · simp

theorem findsetreg_ne_outOfFuel (m : Macros) (p : Proto) (lastpc reg : Int) :
    findsetreg m p lastpc reg ≠ .error .outOfFuel := by
  unfold findsetreg
  split
  · rename_i e he
    intro h
    cases h
    exact rd_ne_outOfFuel _ _ he
  · simp only
    apply findsetreg_loop_ne_outOfFuel
    omega

/-- An `OP_MOVE` found by `findsetreg` for `reg` has `reg` as its destination. -/
theorem findsetreg_move (m : Macros) (p : Proto) (lastpc reg w : Int) (i : Instruction)
    (h : findsetreg m p lastpc reg = .ok w) (hw : w ≠ -1) (hi : rd p.code w = .ok i)
    (hop : i.opcode = .OP_MOVE) : GETARG_A i = reg := by
  unfold findsetreg at h
  split at h
  · cases h
  · simp only at h
    rcases findsetreg_loop_result m p _ reg _ _ _ _ _ h with h1 | h1 | ⟨i2, hi2, hwr⟩
    · exact absurd h1 hw
    · exact absurd h1 hw
    · rw [hi] at hi2
      cases hi2
      exact writesReg_move m i reg hop hwr
/-! ## Claims on register provenance and names -/

theorem basicgetobjname_aux_local (m : Macros) (p : Proto) (fuel : Nat) (pc reg : Int)
    (n : String) (h : luaF_getlocalname p (reg + 1) pc = some n) :
    basicgetobjname_aux m p (fuel + 1) pc reg =
      .ok { kind := some "local", name := some n, pc := pc } := by
  unfold basicgetobjname_aux
  rw [h]

theorem basicgetobjname_aux_unset (m : Macros) (p : Proto) (fuel : Nat) (pc reg : Int)
    (h : luaF_getlocalname p (reg + 1) pc = none) (hf : findsetreg m p pc reg = .ok (-1)) :
    basicgetobjname_aux m p (fuel + 1) pc reg = .ok { kind := none, name := none, pc := -1 } := by
  unfold basicgetobjname_aux
  rw [h]
  simp only
  rw [hf]
  simp

/-- C5: for every prototype p, offset pc and register reg: if
`luaF_getlocalname(p, reg+1, pc)` yields a name n, then `getobjname(p, pc, reg)`
returns kind "local" with name n, whatever instructions the code contains.  For
the body `local a=1; if a>0 then a=2 end; return a` the query for register 0 at
the return instruction (offset 5) gives ("local", "a"), although `findsetreg`
on the same inputs returns -1 (for every opcode table in which `OP_LOADI`
writes register A). -/
theorem getobjname_local_first :
    (∀ (m : Macros) (p : Proto) (pc reg : Int) (n : String),
      luaF_getlocalname p (reg + 1) pc = some n →
      getobjname m p pc reg = .ok (some "local", some n)) ∧
    (∀ m : Macros, m.testAMode .OP_LOADI = true →
      getobjname m protoLocalA 5 0 = .ok (some "local", some "a") ∧
      findsetreg m protoLocalA 5 0 = .ok (-1)) := by
  have hgen : ∀ (m : Macros) (p : Proto) (pc reg : Int) (n : String),
      luaF_getlocalname p (reg + 1) pc = some n →
      getobjname m p pc reg = .ok (some "local", some n) := by
    intro m p pc reg n h
    unfold getobjname basicgetobjname
    rw [basicgetobjname_aux_local m p _ pc reg n h]
  refine ⟨hgen, fun m hm => ⟨hgen m protoLocalA 5 0 "a" (by decide), ?_⟩⟩
  unfold findsetreg
  have hlast : rd protoLocalA.code 5 = .ok { opcode := .OP_RETURN, A := 0, B := 2, C := 1 } := by
    decide
  rw [hlast]
  simp only [GET_OPCODE, testMMMode]
  apply findsetreg_loop_conditional m protoLocalA 5 0 _ hlast 4 3
    { opcode := .OP_LOADI, A := 0 } { opcode := .OP_JMP, sJ := 1 }
    (by decide) (by decide)
  · unfold writesReg findsetreg_switch
    simp [GET_OPCODE, GETARG_A, hm]
  · intro q i h1 h2; omega
  · decide
  · decide
  · rfl
  · decide
  · decide
  · decide
  · decide
  · decide
  · left; decide

/-- C5, for the local `a` of `protoLocalA` with the macros of the interpreter. -/
theorem getobjname_local_first_witness :
    getobjname luaMacros protoLocalA 5 0 = .ok (some "local", some "a") :=
  getobjname_local_first.1 luaMacros protoLocalA 5 0 "a" (by decide)

/-- C6 (as stated, refuted): in `protoJumpToMMBIN` register 0 has no local
name, the last instruction before offset 3 that writes it is the `OP_LOADK` at
offset 1, and the `OP_JMP` at offset 0 < 1 has destination 3 with 1 < 3 <= 3;
yet `findsetreg(p, 3, 0)` returns 1 and `getobjname` reports ("constant", "x"):
the instruction at offset 3 is an `OP_MMBIN`, so the scan stops before offset 2
and the jump is taken to skip the bound. -/
theorem findsetreg_jump_to_mmbin :
    luaF_getlocalname protoJumpToMMBIN (0 + 1) 3 = none ∧
    rd protoJumpToMMBIN.code 1 = .ok { opcode := .OP_LOADK, A := 0, Bx := 0 } ∧
    writesReg luaMacros { opcode := .OP_LOADK, A := 0, Bx := 0 } 0 = true ∧
    rd protoJumpToMMBIN.code 2 = .ok { opcode := .OP_ADD, A := 1, B := 1, C := 1 } ∧
    writesReg luaMacros { opcode := .OP_ADD, A := 1, B := 1, C := 1 } 0 = false ∧
    rd protoJumpToMMBIN.code 0 = .ok { opcode := .OP_JMP, sJ := 2 } ∧
    ((1 : Int) < 0 + 1 + 2 ∧ (0 : Int) + 1 + 2 ≤ 3) ∧
    findsetreg luaMacros protoJumpToMMBIN 3 0 = .ok 1 ∧
    getobjname luaMacros protoJumpToMMBIN 3 0 = .ok (some "constant", some "x") := by
  decide

/-- C6 (amended): let the bound be lastpc - 1 if the instruction at lastpc is a
metamethod-binary-op instruction and lastpc otherwise.  For every prototype,
lastpc and register R that has no active local name: if the last instruction
before the bound that writes R is at offset w, and some `OP_JMP` at an offset
j < w has a destination d = j+1+sJ with w < d <= bound, then `findsetreg`
returns -1 and `getobjname` reports no kind and no name for R. -/
theorem findsetreg_conditional_write (m : Macros) (p : Proto) (lastpc reg w j : Int)
    (last iw ij : Instruction)
    (hname : luaF_getlocalname p (reg + 1) lastpc = none)
    (hlast : rd p.code lastpc = .ok last)
    (hw : w < (if testMMMode (GET_OPCODE last) then lastpc - 1 else lastpc))
    (hiw : rd p.code w = .ok iw) (hwr : writesReg m iw reg = true)
    (hno : ∀ q i, w < q → q < (if testMMMode (GET_OPCODE last) then lastpc - 1 else lastpc) →
      rd p.code q = .ok i → writesReg m i reg = false)
    (hj : 0 ≤ j) (hjw : j < w) (hij : rd p.code j = .ok ij) (hop : GET_OPCODE ij = .OP_JMP)
    (hd1 : w < j + 1 + GETARG_sJ ij)
    (hd2 : j + 1 + GETARG_sJ ij ≤ (if testMMMode (GET_OPCODE last) then lastpc - 1 else lastpc)) :
    findsetreg m p lastpc reg = .ok (-1) ∧ getobjname m p lastpc reg = .ok (none, none) := by
  have hfind : findsetreg m p lastpc reg = .ok (-1) := by
    unfold findsetreg
    rw [hlast]
    simp only
    generalize hb : (if testMMMode (GET_OPCODE last) then lastpc - 1 else lastpc) = bound
      at hw hno hd2
    have hble : bound ≤ lastpc := by
      rw [← hb]; split <;> omega
    obtain ⟨lastb, hlastb⟩ := rd_ok_of_le (by omega : 0 ≤ bound) hble hlast
    exact findsetreg_loop_conditional m p bound reg lastb hlastb w j iw ij hw hiw hwr hno hjw hij
      hop hd1 hd2 _ 0 (-1) 0 (le_refl _) (by omega) (by omega) (Or.inl hj)
  refine ⟨hfind, ?_⟩
  unfold getobjname basicgetobjname
  rw [basicgetobjname_aux_unset m p _ lastpc reg hname hfind]
  simp

/-- C6 (amended), for register 0 at the return of `protoConditionalWrite`. -/
theorem findsetreg_conditional_write_witness :
    findsetreg luaMacros protoConditionalWrite 3 0 = .ok (-1) ∧
    getobjname luaMacros protoConditionalWrite 3 0 = .ok (none, none) :=
  findsetreg_conditional_write luaMacros protoConditionalWrite 3 0 2 1
    { opcode := .OP_RETURN1, A := 0 } { opcode := .OP_LOADK, A := 0, Bx := 0 }
    { opcode := .OP_JMP, sJ := 1 }
    (by decide) (by decide) (by decide) (by decide) (by decide)
    (fun q i h1 h2 => absurd h2 (by
      have h3 : (if testMMMode (GET_OPCODE { opcode := .OP_RETURN1, A := 0 }) then (3 : Int) - 1
          else 3) = 3 := by decide
      rw [h3]; omega))
    (by decide) (by decide) (by decide) (by decide) (by decide) (by decide)
/-! ## Termination of the name functions -/

theorem upvalname_ne_outOfFuel (p : Proto) (uv : Int) : upvalname p uv ≠ .error .outOfFuel := by
  unfold upvalname
  split
  · split
    · rename_i e he
      intro h; cases h
      exact rd_ne_outOfFuel _ _ he
    · simp
    · simp
  · simp

theorem kname_ne_outOfFuel (p : Proto) (index : Int) : kname p index ≠ .error .outOfFuel := by
  unfold kname
  split
  · rename_i e he
    intro h; cases h
    exact rd_ne_outOfFuel _ _ he
  · simp
  · simp

/-- A budget above the register index is never exhausted, and the result does
not depend on it. -/
theorem basicgetobjname_aux_fuel (m : Macros) (p : Proto) :
    ∀ (n fuel : Nat) (pc reg : Int), reg.toNat < n → n ≤ fuel →
      basicgetobjname_aux m p fuel pc reg = basicgetobjname_aux m p n pc reg ∧
      basicgetobjname_aux m p n pc reg ≠ .error .outOfFuel := by
  intro n
  induction n with
  | zero => intro fuel pc reg h; omega
  | succ n ih =>
    intro fuel pc reg hreg hfuel
    obtain ⟨f, rfl⟩ : ∃ f, fuel = f + 1 := ⟨fuel - 1, by omega⟩
    unfold basicgetobjname_aux
    cases hname : luaF_getlocalname p (reg + 1) pc with
    | some nm => simp
    | none =>
      simp only
      cases hfind : findsetreg m p pc reg with
      | error e =>
        have he : e ≠ .outOfFuel := by
          intro h; subst h; exact findsetreg_ne_outOfFuel m p pc reg hfind
        simp [he]
      | ok w =>
        simp only
        by_cases hw : w ≠ -1
        · rw [if_pos hw, if_pos hw]
          cases hi : rd p.code w with
          | error e =>
            have he : e ≠ .outOfFuel := by
              intro h; subst h; exact rd_ne_outOfFuel _ _ hi
            simp [he]
          | ok i =>
            simp only
            by_cases hop : i.opcode = .OP_MOVE
            · simp only [GET_OPCODE, hop]
              by_cases hb : GETARG_B i < GETARG_A i
              · rw [if_pos hb, if_pos hb]
                have hA := findsetreg_move m p pc reg w i hfind hw hi hop
                have hB : 0 ≤ GETARG_B i := Int.natCast_nonneg _
                exact ih f w (GETARG_B i) (by omega) (by omega)
              · rw [if_neg hb, if_neg hb]
                simp
            · have key : ∀ k : Nat,
                  (match GET_OPCODE i with
                    | .OP_MOVE =>
                      if GETARG_B i < GETARG_A i then basicgetobjname_aux m p k w (GETARG_B i)
                      else .ok { kind := none, name := none, pc := w }
                    | .OP_GETUPVAL =>
                      match upvalname p (GETARG_B i) with
                      | .error e => .error e
                      | .ok s => .ok { kind := some "upvalue", name := some s, pc := w }
                    | .OP_LOADK =>
                      match kname p (GETARG_Bx i) with
                      | .error e => .error e
                      | .ok (kind, name) => .ok { kind := kind, name := name, pc := w }
                    | .OP_LOADKX =>
                      match rd p.code (w + 1) with
                      | .error e => .error e
                      | .ok extra =>
                        match kname p (GETARG_Ax extra) with
                        | .error e => .error e
                        | .ok (kind, name) => .ok { kind := kind, name := name, pc := w }
                    | _ => (.ok { kind := none, name := none, pc := w } : Except Fault ObjName)) =
                  (match GET_OPCODE i with
                    | .OP_MOVE => .ok { kind := none, name := none, pc := w }
                    | .OP_GETUPVAL =>
                      match upvalname p (GETARG_B i) with
                      | .error e => .error e
                      | .ok s => .ok { kind := some "upvalue", name := some s, pc := w }
                    | .OP_LOADK =>
                      match kname p (GETARG_Bx i) with
                      | .error e => .error e
                      | .ok (kind, name) => .ok { kind := kind, name := name, pc := w }
                    | .OP_LOADKX =>
                      match rd p.code (w + 1) with
                      | .error e => .error e
                      | .ok extra =>
                        match kname p (GETARG_Ax extra) with
                        | .error e => .error e
                        | .ok (kind, name) => .ok { kind := kind, name := name, pc := w }
                    | _ => (.ok { kind := none, name := none, pc := w } : Except Fault ObjName)) := by
                intro k
                split <;> first | rfl | exact absurd ‹_› hop
              rw [key f, key n]
              refine ⟨rfl, ?_⟩
              split
              · simp
              · split
                · rename_i e he
                  intro h; cases h
                  exact upvalname_ne_outOfFuel _ _ he
                · simp
              · split
                · rename_i e he
                  intro h; cases h
                  exact kname_ne_outOfFuel _ _ he
                · simp
              · split
                · rename_i e he
                  intro h; cases h
                  exact rd_ne_outOfFuel _ _ he
                · split
                  · rename_i e he
                    intro h; cases h
                    exact kname_ne_outOfFuel _ _ he
                  · simp
              · simp
        · rw [if_neg hw, if_neg hw]
          simp

theorem basicgetobjname_ne_outOfFuel (m : Macros) (p : Proto) (pc reg : Int) :
    basicgetobjname m p pc reg ≠ .error .outOfFuel :=
  (basicgetobjname_aux_fuel m p (reg.toNat + 1) (reg.toNat + 1) pc reg (by omega)
    (le_refl _)).2

theorem rname_ne_outOfFuel (m : Macros) (p : Proto) (pc c : Int) :
    rname m p pc c ≠ .error .outOfFuel := by
  unfold rname
  split
  · rename_i e he
    intro h; cases h
    exact basicgetobjname_ne_outOfFuel _ _ _ _ he
  · split
    · split <;> simp
    · simp

theorem rkname_ne_outOfFuel (m : Macros) (p : Proto) (pc : Int) (i : Instruction) :
    rkname m p pc i ≠ .error .outOfFuel := by
  unfold rkname
  simp only
  split
  · split
    · rename_i e he
      intro h; cases h
      exact kname_ne_outOfFuel _ _ he
    · simp
  · exact rname_ne_outOfFuel _ _ _ _

theorem isEnv_ne_outOfFuel (m : Macros) (p : Proto) (pc : Int) (i : Instruction) (isup : Bool) :
    isEnv m p pc i isup ≠ .error .outOfFuel := by
  unfold isEnv
  simp only
  split
  · rename_i e he
    intro h; cases h
    split at he
    · split at he
      · rename_i e2 he2
        cases he
        exact upvalname_ne_outOfFuel _ _ he2
      · cases he
    · split at he
      · rename_i e2 he2
        cases he
        exact basicgetobjname_ne_outOfFuel _ _ _ _ he2
      · cases he
  · simp

theorem getobjname_ne_outOfFuel (m : Macros) (p : Proto) (lastpc reg : Int) :
    getobjname m p lastpc reg ≠ .error .outOfFuel := by
  unfold getobjname
  split
  · rename_i e he
    intro h; cases h
    exact basicgetobjname_ne_outOfFuel _ _ _ _ he
  · split
    · simp
    · simp only
      split
      · split
        · rename_i e he
          intro h; cases h
          exact rd_ne_outOfFuel _ _ he
        · split
          · split
            · rename_i e he
              intro h; cases h
              exact kname_ne_outOfFuel _ _ he
            · split
              · rename_i e he
                intro h; cases h
                exact isEnv_ne_outOfFuel _ _ _ _ _ he
              · simp
          · split
            · rename_i e he
              intro h; cases h
              exact rname_ne_outOfFuel _ _ _ _ he
            · split
              · rename_i e he
                intro h; cases h
                exact isEnv_ne_outOfFuel _ _ _ _ _ he
              · simp
          · simp
          · split
            · rename_i e he
              intro h; cases h
              exact kname_ne_outOfFuel _ _ he
            · split
              · rename_i e he
                intro h; cases h
                exact isEnv_ne_outOfFuel _ _ _ _ _ he
              · simp
          · split
            · rename_i e he
              intro h; cases h
              exact rkname_ne_outOfFuel _ _ _ _ he
            · simp
          · simp
      · simp

/-- C7: `basicgetobjname` and `getobjname` terminate for every prototype,
offset and register: a recursive call made through an `OP_MOVE` origin (source
register B below the destination A) is on a register strictly smaller than the
current one, a recursion budget of reg + 1 or more always gives the result of
`basicgetobjname` and is never exhausted, and no budget of the model is
exhausted in `getobjname`. -/
theorem basicgetobjname_terminates (m : Macros) (p : Proto) (pc reg : Int) :
    (∀ (w : Int) (i : Instruction), findsetreg m p pc reg = .ok w → w ≠ -1 →
      rd p.code w = .ok i → GET_OPCODE i = .OP_MOVE → GETARG_B i < GETARG_A i →
      GETARG_B i < reg) ∧
    (∀ fuel : Nat, reg.toNat + 1 ≤ fuel →
      basicgetobjname_aux m p fuel pc reg = basicgetobjname m p pc reg) ∧
    basicgetobjname m p pc reg ≠ .error .outOfFuel ∧
    getobjname m p pc reg ≠ .error .outOfFuel := by
  refine ⟨?_, ?_, basicgetobjname_ne_outOfFuel m p pc reg, getobjname_ne_outOfFuel m p pc reg⟩
  · intro w i hfind hw hi hop hb
    have hA := findsetreg_move m p pc reg w i hfind hw hi hop
    omega
  · intro fuel hfuel
    exact (basicgetobjname_aux_fuel m p (reg.toNat + 1) fuel pc reg (by omega) hfuel).1

/-- C8: for a prototype with no local names whose upvalue B is named "_ENV" and
whose code is `OP_GETTABUP A B C` (constant C the string "foo") immediately
followed by `OP_CALL A`, `funcnamefromcode` at the call's offset returns kind
"global" and name "foo", and `formatvarinfo` renders that pair as
" (global 'foo')"; `OP_GETTABUP` is an opcode that writes register A. -/
theorem funcname_global_foo (m : Macros) (tms : TMS) (g : global_State) (p : Proto)
    (i0 i1 : Instruction)
    (hmode : m.testAMode .OP_GETTABUP = true)
    (hloc : p.locvars = []) (hcode : p.code = [i0, i1])
    (h0 : GET_OPCODE i0 = .OP_GETTABUP) (h1 : GET_OPCODE i1 = .OP_CALL)
    (hA : GETARG_A i1 = GETARG_A i0)
    (hup : rd p.upvalues (GETARG_B i0) = .ok (some "_ENV"))
    (hk : rd p.k (GETARG_C i0) = .ok (.string "foo")) :
    funcnamefromcode m tms g p 1 = .ok (some "global", some "foo") ∧
    formatvarinfo (some "global") (some "foo") = " (global 'foo')" := by
  refine ⟨?_, by decide⟩
  have hr0 : rd p.code 0 = .ok i0 := by rw [hcode]; rfl
  have hr1 : rd p.code 1 = .ok i1 := by rw [hcode]; rfl
  have hname : ∀ n pc, luaF_getlocalname p n pc = none := by
    intro n pc
    unfold luaF_getlocalname
    rw [hloc]
    rfl
  have hfind : findsetreg m p 1 (GETARG_A i1) = .ok 0 := by
    unfold findsetreg
    rw [hr1]
    simp only [h1, testMMMode]
    unfold findsetreg_loop
    simp only [Bool.false_eq_true, if_false]
    rw [if_pos (by decide), hr0]
    simp only
    unfold findsetreg_switch
    simp only [h0, hmode, hA, Bool.true_and, decide_True, if_true]
    unfold findsetreg_loop filterpc
    simp
  have hbasic : basicgetobjname m p 1 (GETARG_A i1) =
      .ok { kind := none, name := none, pc := 0 } := by
    unfold basicgetobjname basicgetobjname_aux
    rw [hname, ]
    simp only
    rw [hfind]
    simp only
    rw [if_pos (by decide), hr0]
    simp only [h0]
  have hupval : upvalname p (GETARG_B i0) = .ok "_ENV" := by
    unfold upvalname
    obtain ⟨hb0, hget⟩ := rd_eq_ok hup
    obtain ⟨hlen, _⟩ := List.getElem?_eq_some.mp hget
    have hlt : GETARG_B i0 < p.sizeupvalues := by
      show GETARG_B i0 < (p.upvalues.length : Int)
      omega
    rw [if_pos hlt, hup]
  unfold funcnamefromcode
  rw [hr1]
  simp only [h1]
  unfold getobjname
  rw [hbasic]
  simp only
  rw [if_pos (by decide), hr0]
  simp only [h0]
  unfold kname isEnv
  rw [hk]
  simp only [if_true, hupval]
  decide
/-- C8, for the call `foo()` of `protoCallFoo` with the macros of the interpreter. -/
theorem funcname_global_foo_witness :
    funcnamefromcode luaMacros luaT_tms luaT_tmname protoCallFoo 1 =
      .ok (some "global", some "foo") ∧
    formatvarinfo (some "global") (some "foo") = " (global 'foo')" :=
  funcname_global_foo luaMacros luaT_tms luaT_tmname protoCallFoo
    { opcode := .OP_GETTABUP, A := 0, B := 0, C := 0 }
    { opcode := .OP_CALL, A := 0, B := 1, C := 1 }
    (by decide) rfl rfl rfl rfl rfl (by decide) (by decide)

/-! ## Count hook -/

theorem rd_ok_of_lt {α : Type} {xs : List α} {i : Int} (h0 : 0 ≤ i)
    (h1 : i < (xs.length : Int)) : ∃ x, rd xs i = .ok x := by
  obtain ⟨x, hx⟩ := getElem?_of_lt (by omega : i.toNat < xs.length)
  refine ⟨x, ?_⟩
  have h2 : i = ((i.toNat : Nat) : Int) := by omega
  rw [h2]
  exact rd_of_getElem? hx

theorem traceexec_count_step (m : Macros) (yields : HookBehaviour)
    (hny : ∀ L c, yields L c = false) (L : lua_State) (C pc : Int) (i : Instruction)
    (h : CountOnly L C) (hi : rd L.ci.p.code pc = .ok i) :
    ∃ L1, luaG_traceexec m yields L pc = .ok (L1, .returned 1) ∧ CountOnly L1 C ∧
      L1.ci.p = L.ci.p ∧
      (L.hookcount ≠ 1 → L1.hookcount = L.hookcount - 1 ∧ L1.hookcalls = L.hookcalls) ∧
      (L.hookcount = 1 → L1.hookcount = C ∧ L1.hookcalls = L.hookcalls ++ [countEvent]) := by
  obtain ⟨hmask, hbase, hy, hst⟩ := h
  unfold luaG_traceexec
  simp only [hmask]
  have h1 : ¬ (LUA_MASKCOUNT &&& (LUA_MASKLINE ||| LUA_MASKCOUNT) = 0) := by decide
  have h2 : LUA_MASKCOUNT &&& LUA_MASKCOUNT ≠ 0 := by decide
  have h3 : LUA_MASKCOUNT &&& LUA_MASKLINE = 0 := by decide
  rw [if_neg h1]
  simp only [if_pos h2, h2, h3, decide_True, Bool.true_and, decide_not, not_true_eq_false,
    decide_False, if_false, ne_eq, not_false_eq_true]
  cases hit : m.isIT i <;>
  by_cases hc : L.hookcount = 1
  · have hz : L.hookcount - 1 = 0 := by omega
    simp only [hz, decide_True, if_true, Bool.not_true, Bool.false_and, Bool.false_eq_true,
      if_false, resethookcount, hy, add_sub_cancel_right, hi, luaD_hook, hny, hit, Bool.not_false]
    rw [if_neg hst]
    refine ⟨_, rfl, ⟨rfl, hbase, hy, hst⟩, rfl, fun h => absurd hc h, fun _ => ⟨hbase, rfl⟩⟩
  · have hz : ¬ (L.hookcount - 1 = 0) := by omega
    simp only [hz, decide_False, Bool.false_eq_true, if_false, Bool.not_false, Bool.true_and,
      decide_True, if_true]
    refine ⟨_, rfl, ⟨rfl, hbase, hy, hst⟩, rfl, fun _ => ⟨rfl, rfl⟩, fun h => absurd h hc⟩
  · have hz : L.hookcount - 1 = 0 := by omega
    simp only [hz, decide_True, if_true, Bool.not_true, Bool.false_and, Bool.false_eq_true,
      if_false, resethookcount, hy, add_sub_cancel_right, hi, luaD_hook, hny, hit, Bool.not_false]
    rw [if_neg hst]
    refine ⟨_, rfl, ⟨rfl, hbase, hy, hst⟩, rfl, fun h => absurd hc h, fun _ => ⟨hbase, rfl⟩⟩
  · have hz : ¬ (L.hookcount - 1 = 0) := by omega
    simp only [hz, decide_False, Bool.false_eq_true, if_false, Bool.not_false, Bool.true_and,
      decide_True, if_true]
    refine ⟨_, rfl, ⟨rfl, hbase, hy, hst⟩, rfl, fun _ => ⟨rfl, rfl⟩, fun h => absurd h hc⟩

theorem valid_of_mem {code : List Instruction} {pcs : List Int} {pc : Int}
    (h : ∀ q ∈ pc :: pcs, ∃ i, rd code q = .ok i) :
    (∃ i, rd code pc = .ok i) ∧ ∀ q ∈ pcs, ∃ i, rd code q = .ok i :=
  ⟨h pc (List.mem_cons_self _ _), fun q hq => h q (List.mem_cons_of_mem _ hq)⟩

/-- Calls before the count runs out deliver nothing. -/
theorem traceexec_calls_quiet (m : Macros) (yields : HookBehaviour)
    (hny : ∀ L c, yields L c = false) (C : Int) :
    ∀ (pcs : List Int) (L : lua_State), CountOnly L C → (pcs.length : Int) < L.hookcount →
      (∀ q ∈ pcs, ∃ i, rd L.ci.p.code q = .ok i) →
      ∃ L1, traceexec_calls m yields L pcs = .ok L1 ∧ CountOnly L1 C ∧ L1.ci.p = L.ci.p ∧
        L1.hookcount = L.hookcount - pcs.length ∧ L1.hookcalls = L.hookcalls := by
  intro pcs
  induction pcs with
  | nil =>
    intro L h _ _
    exact ⟨L, rfl, h, rfl, by simp, rfl⟩
  | cons pc rest ih =>
    intro L h hlen hvalid
    obtain ⟨⟨i, hi⟩, hrest⟩ := valid_of_mem hvalid
    obtain ⟨L1, hstep, hco, hp, hq, _⟩ := traceexec_count_step m yields hny L C pc i h hi
    have hne : L.hookcount ≠ 1 := by
      simp only [List.length_cons, Nat.cast_add, Nat.cast_one] at hlen
      omega
    obtain ⟨hcount, hcalls⟩ := hq hne
    obtain ⟨L2, h2, hco2, hp2, hcount2, hcalls2⟩ := ih L1 hco
      (by simp only [List.length_cons, Nat.cast_add, Nat.cast_one] at hlen; omega)
      (by rw [hp]; exact hrest)
    refine ⟨L2, ?_, hco2, by rw [hp2, hp], ?_, by rw [hcalls2, hcalls]⟩
    · unfold traceexec_calls
      rw [hstep]
      exact h2
    · rw [hcount2, hcount]
      simp only [List.length_cons, Nat.cast_add, Nat.cast_one]
      omega

/-- The call on which the count runs out delivers one count event and resets
the count. -/
theorem traceexec_calls_round (m : Macros) (yields : HookBehaviour)
    (hny : ∀ L c, yields L c = false) (C : Int) :
    ∀ (pcs rest : List Int) (L : lua_State), CountOnly L C → 1 ≤ L.hookcount →
      (pcs.length : Int) = L.hookcount → (∀ q ∈ pcs, ∃ i, rd L.ci.p.code q = .ok i) →
      ∃ L1, CountOnly L1 C ∧ L1.ci.p = L.ci.p ∧ L1.hookcount = C ∧
        L1.hookcalls = L.hookcalls ++ [countEvent] ∧
        traceexec_calls m yields L (pcs ++ rest) = traceexec_calls m yields L1 rest := by
  intro pcs
  induction pcs with
  | nil =>
    intro rest L h hpos hlen _
    simp only [List.length_nil, Nat.cast_zero] at hlen
    omega
  | cons pc tl ih =>
    intro rest L h hpos hlen hvalid
    obtain ⟨⟨i, hi⟩, hrest⟩ := valid_of_mem hvalid
    obtain ⟨L1, hstep, hco, hp, hq, hfire⟩ := traceexec_count_step m yields hny L C pc i h hi
    simp only [List.length_cons, Nat.cast_add, Nat.cast_one] at hlen
    by_cases hone : L.hookcount = 1
    · obtain ⟨hcount, hcalls⟩ := hfire hone
      have htl : tl = [] := by
        apply List.eq_nil_of_length_eq_zero
        omega
      subst htl
      refine ⟨L1, hco, hp, hcount, hcalls, ?_⟩
      simp only [List.cons_append, List.nil_append]
      conv_lhs => unfold traceexec_calls
      rw [hstep]
    · obtain ⟨hcount, hcalls⟩ := hq hone
      obtain ⟨L2, hco2, hp2, hcount2, hcalls2, happ⟩ := ih rest L1 hco (by omega) (by omega)
        (by rw [hp]; exact hrest)
      refine ⟨L2, hco2, by rw [hp2, hp], hcount2, by rw [hcalls2, hcalls], ?_⟩
      simp only [List.cons_append]
      conv_lhs => unfold traceexec_calls
      rw [hstep]
      exact happ

/-- Whole rounds of `C` calls deliver one count event each. -/
theorem traceexec_calls_rounds (m : Macros) (yields : HookBehaviour)
    (hny : ∀ L c, yields L c = false) (C : Int) (hC : 1 ≤ C) :
    ∀ (k : Nat) (pcs : List Int) (L : lua_State), CountOnly L C → L.hookcount = C →
      (pcs.length : Int) = k * C → (∀ q ∈ pcs, ∃ i, rd L.ci.p.code q = .ok i) →
      ∃ L1, traceexec_calls m yields L pcs = .ok L1 ∧
        L1.hookcalls = L.hookcalls ++ List.replicate k countEvent ∧ L1.hookcount = C := by
  intro k
  induction k with
  | zero =>
    intro pcs L _ hcount hlen _
    have hnil : pcs = [] := by
      apply List.eq_nil_of_length_eq_zero
      simp only [Nat.cast_zero, zero_mul] at hlen
      exact_mod_cast hlen
    subst hnil
    exact ⟨L, rfl, by simp, hcount⟩
  | succ k ih =>
    intro pcs L h hcount hlen hvalid
    have hk : (0 : Int) ≤ (k : Int) * C := by positivity
    have hlen2 : (pcs.length : Int) = (k : Int) * C + C := by
      rw [hlen]; push_cast; ring
    have hsplit : pcs = pcs.take C.toNat ++ pcs.drop C.toNat := (List.take_append_drop _ _).symm
    obtain ⟨L1, hco, hp, hcount1, hcalls1, happ⟩ :=
      traceexec_calls_round m yields hny C (pcs.take C.toNat) (pcs.drop C.toNat) L h
        (by omega) (by rw [List.length_take]; omega)
        (fun q hq => hvalid q (List.mem_of_mem_take hq))
    obtain ⟨L2, h2, hcalls2, hcount2⟩ := ih (pcs.drop C.toNat) L1 hco hcount1
      (by rw [List.length_drop]; omega)
      (fun q hq => by rw [hp]; exact hvalid q (List.mem_of_mem_drop hq))
    refine ⟨L2, ?_, ?_, hcount2⟩
    · rw [hsplit, happ]; exact h2
    · rw [hcalls2, hcalls1, List.replicate_succ, List.append_assoc]
      rfl

theorem lua_sethook_count (L : lua_State) (f : Nat) (C : Int) :
    (lua_sethook L (some f) LUA_MASKCOUNT C).hookmask = LUA_MASKCOUNT ∧
    (lua_sethook L (some f) LUA_MASKCOUNT C).basehookcount = C ∧
    (lua_sethook L (some f) LUA_MASKCOUNT C).hookcount = C ∧
    (lua_sethook L (some f) LUA_MASKCOUNT C).ci.callstatus = L.ci.callstatus ∧
    (lua_sethook L (some f) LUA_MASKCOUNT C).ci.p = L.ci.p ∧
    (lua_sethook L (some f) LUA_MASKCOUNT C).status = L.status ∧
    (lua_sethook L (some f) LUA_MASKCOUNT C).hookcalls = L.hookcalls := by
  have h : ((LUA_MASKCOUNT : Nat) : Int) ≠ 0 := by decide
  have hb : cast_byte ((LUA_MASKCOUNT : Nat) : Int) = LUA_MASKCOUNT := by decide
  unfold lua_sethook
  simp only [h, or_self, decide_False, Bool.false_eq_true, if_false, ne_eq,
    not_false_eq_true, if_true, settraps, resethookcount, settrap, reduceCtorEq, hb, true_and]
  constructor
  · split <;> rfl
  · split <;> simp

/-- C9: with only the count bit in the hook mask, base count C >= 1, the
remaining count equal to C (as `lua_sethook` leaves it), the current frame not
flagged hook-yielded, a running thread and hooks that do not yield: fewer than
C consecutive `luaG_traceexec` calls (at offsets of the code) deliver no event
and count down, and k*C calls deliver exactly k count events and leave the
remaining count at C; for k = 1, the one event of C calls is delivered on the
C-th call and the count is C again immediately afterwards. -/
theorem count_hook_exact (m : Macros) (yields : HookBehaviour) (L : lua_State) (C : Int)
    (pcs : List Int) (k : Nat)
    (hny : ∀ L c, yields L c = false) (hC : 1 ≤ C)
    (hmask : L.hookmask = LUA_MASKCOUNT) (hbase : L.basehookcount = C)
    (hcount : L.hookcount = C) (hy : L.ci.callstatus.hookyield = false)
    (hst : L.status ≠ LUA_YIELD)
    (hpcs : ∀ pc ∈ pcs, 0 ≤ pc ∧ pc < L.ci.p.sizecode) :
    ((pcs.length : Int) < C →
      ∃ L1, traceexec_calls m yields L pcs = .ok L1 ∧ L1.hookcalls = L.hookcalls ∧
        L1.hookcount = C - pcs.length) ∧
    ((pcs.length : Int) = k * C →
      ∃ L1, traceexec_calls m yields L pcs = .ok L1 ∧
        L1.hookcalls = L.hookcalls ++ List.replicate k countEvent ∧ L1.hookcount = C) := by
  have hco : CountOnly L C := ⟨hmask, hbase, hy, hst⟩
  have hvalid : ∀ pc ∈ pcs, ∃ i, rd L.ci.p.code pc = .ok i := by
    intro pc hpc
    obtain ⟨h0, h1⟩ := hpcs pc hpc
    exact rd_ok_of_lt h0 h1
  constructor
  · intro hlen
    obtain ⟨L1, h1, _, _, hc1, hcalls1⟩ :=
      traceexec_calls_quiet m yields hny C pcs L hco (by rw [hcount]; exact hlen) hvalid
    exact ⟨L1, h1, hcalls1, by rw [hc1, hcount]⟩
  · intro hlen
    exact traceexec_calls_rounds m yields hny C hC k pcs L hco hcount hlen hvalid

/-- C9, for three calls after `lua_sethook(L, f, LUA_MASKCOUNT, 3)` on a thread
running `protoLines`: one count event, and the count is 3 again. -/
theorem count_hook_exact_witness :
    ∃ L1, traceexec_calls luaMacros neverYields
        (lua_sethook stateLines (some 1) LUA_MASKCOUNT 3) [0, 1, 2] = .ok L1 ∧
      L1.hookcalls = (lua_sethook stateLines (some 1) LUA_MASKCOUNT 3).hookcalls ++
        List.replicate 1 countEvent ∧
      L1.hookcount = 3 :=
  (count_hook_exact luaMacros neverYields (lua_sethook stateLines (some 1) LUA_MASKCOUNT 3) 3
    [0, 1, 2] 1 (fun _ _ => rfl) (by decide) (by decide) (by decide) (by decide) (by decide)
    (by decide) (by decide)).2 (by decide)

/-! ## Line hook -/

theorem mask_line_of_mask (a : Nat) (h : a &&& (LUA_MASKLINE ||| LUA_MASKCOUNT) = 0) :
    a &&& LUA_MASKLINE = 0 := by
  have h1 : a &&& LUA_MASKLINE = a &&& ((LUA_MASKLINE ||| LUA_MASKCOUNT) &&& LUA_MASKLINE) := rfl
  rw [h1, ← Nat.and_assoc, h]
  rfl

/-- C10: with the line bit in the hook mask and the current frame not flagged
hook-yielded: whenever the offset npci of the instruction being traced is <=
the last traced offset (`L->oldpc`, taken as 0 when it is >= sizecode),
`luaG_traceexec` delivers a line event carrying `luaG_getfuncline(p, npci)`,
whatever that line is, after the count event if one is due, and records npci
as the last traced offset. -/
theorem line_hook_backward_jump (m : Macros) (yields : HookBehaviour) (L : lua_State)
    (pc line : Int) (i : Instruction)
    (hline : L.hookmask &&& LUA_MASKLINE ≠ 0)
    (hy : L.ci.callstatus.hookyield = false)
    (hi : rd L.ci.p.code pc = .ok i)
    (hback : pc ≤ (if L.oldpc < L.ci.p.sizecode then L.oldpc else 0))
    (hl : luaG_getfuncline m L.ci.p pc = .ok line) :
    ∃ L1 out, luaG_traceexec m yields L pc = .ok (L1, out) ∧
      L1.hookcalls = L.hookcalls ++
        (if L.hookmask &&& LUA_MASKCOUNT ≠ 0 ∧ L.hookcount - 1 = 0 then [countEvent] else []) ++
        [lineEvent line] ∧
      L1.oldpc = pc := by
  have hmask : ¬ (L.hookmask &&& (LUA_MASKLINE ||| LUA_MASKCOUNT) = 0) :=
    fun h => hline (mask_line_of_mask _ h)
  unfold luaG_traceexec traceexec_line luaD_hook resethookcount
  by_cases hold : L.oldpc < L.ci.p.sizecode <;>
  simp only [hold, if_true, if_false] at hback <;>
  cases hit : m.isIT i <;>
  by_cases hcm : L.hookmask &&& LUA_MASKCOUNT = 0 <;>
  by_cases hz : L.hookcount - 1 = 0 <;>
  simp only [if_neg hmask, hline, ne_eq, not_false_eq_true, decide_True, decide_False,
    Bool.and_false, Bool.false_eq_true, if_false, if_true, add_sub_cancel_right, hcm, hz, hit,
    hy, hi, not_true_eq_false, Bool.and_true, Bool.true_and, Bool.false_and, Bool.not_false,
    Bool.not_true, and_true, and_false, true_and, false_and] <;>
  split_ifs <;>
  simp only [hl, hold, hback, if_true, if_false] <;>
  split_ifs <;>
  exact ⟨_, _, rfl, by simp [countEvent, lineEvent], rfl⟩

/-- C10, for a jump back to offset 1 of `protoLines` when offset 1 was the last
one traced: a line event for line 1 again. -/
theorem line_hook_backward_jump_witness :
    ∃ L1 out, luaG_traceexec luaMacros neverYields stateLoop 1 = .ok (L1, out) ∧
      L1.hookcalls = stateLoop.hookcalls ++
        (if stateLoop.hookmask &&& LUA_MASKCOUNT ≠ 0 ∧ stateLoop.hookcount - 1 = 0
          then [countEvent] else []) ++
        [lineEvent 1] ∧
      L1.oldpc = 1 :=
  line_hook_backward_jump luaMacros neverYields stateLoop 1 1 { opcode := .OP_LOADI, A := 1 }
    (by decide) (by decide) (by decide) (by decide) (by decide)

/-! ## Hooks that yield -/

theorem mask_count_of_mask (a : Nat) (h : a &&& (LUA_MASKLINE ||| LUA_MASKCOUNT) = 0) :
    a &&& LUA_MASKCOUNT = 0 := by
  have h1 : a &&& LUA_MASKCOUNT = a &&& ((LUA_MASKLINE ||| LUA_MASKCOUNT) &&& LUA_MASKCOUNT) := rfl
  rw [h1, ← Nat.and_assoc, h]
  rfl

/-- A call on a frame flagged hook-yielded, when the line bit is set or a count
event is due. -/
theorem traceexec_on_hookyield (m : Macros) (yields : HookBehaviour) (L : lua_State) (pc : Int)
    (hflag : L.ci.callstatus.hookyield = true)
    (hdue : L.hookmask &&& LUA_MASKLINE ≠ 0 ∨
      (L.hookmask &&& LUA_MASKCOUNT ≠ 0 ∧ L.hookcount - 1 = 0)) :
    ∃ L1, luaG_traceexec m yields L pc = .ok (L1, .returned 1) ∧
      L1.hookcalls = L.hookcalls ∧ L1.ci.callstatus.hookyield = false ∧
      L1.oldpc = L.oldpc ∧
      L1.hookcount = (if L.hookmask &&& LUA_MASKCOUNT ≠ 0 then
        (if L.hookcount - 1 = 0 then L.basehookcount else L.hookcount - 1) else L.hookcount) := by
  have hmask : ¬ (L.hookmask &&& (LUA_MASKLINE ||| LUA_MASKCOUNT) = 0) := by
    intro h
    rcases hdue with h1 | ⟨h1, _⟩
    · exact h1 (mask_line_of_mask _ h)
    · exact h1 (mask_count_of_mask _ h)
  unfold luaG_traceexec resethookcount
  by_cases hcm : L.hookmask &&& LUA_MASKCOUNT = 0 <;>
  by_cases hz : L.hookcount - 1 = 0 <;>
  by_cases hl : L.hookmask &&& LUA_MASKLINE = 0 <;>
  first
  | (exfalso; rcases hdue with h1 | ⟨h1, h2⟩ <;> first | exact h1 hl | exact h1 hcm | exact hz h2)
  | (simp only [if_neg hmask, ne_eq, not_false_eq_true, decide_True, decide_False,
      Bool.and_false, Bool.false_eq_true, if_false, if_true, hcm, hz, hl, hflag,
      not_true_eq_false, Bool.and_true, Bool.true_and, Bool.false_and, Bool.not_false,
      Bool.not_true, and_true, and_false, true_and, false_and, Bool.and_self]
     exact ⟨_, rfl, rfl, rfl, rfl, rfl⟩)

theorem luaD_hook_quiet (y : HookBehaviour) (L : lua_State) (e l f n s : Int) :
    { luaD_hook y L e l f n with status := s } =
      luaD_hook neverYields { L with status := s } e l f n := by
  unfold luaD_hook neverYields
  simp only [Bool.false_eq_true, if_false]
  split <;> rfl

theorem luaD_hook_fields (y : HookBehaviour) (L : lua_State) (e l f n : Int) :
    (luaD_hook y L e l f n).hookmask = L.hookmask ∧
    (luaD_hook y L e l f n).basehookcount = L.basehookcount ∧
    (luaD_hook y L e l f n).hookcount = L.hookcount ∧
    (luaD_hook y L e l f n).ci = L.ci ∧
    (luaD_hook y L e l f n).oldpc = L.oldpc := by
  unfold luaD_hook
  simp only []
  split <;> exact ⟨rfl, rfl, rfl, rfl, rfl⟩

theorem traceexec_line_fields (m : Macros) (y : HookBehaviour) (L L1 : lua_State) (p : Proto)
    (pc : Int) (h : traceexec_line m y L p pc = .ok L1) :
    L1.hookmask = L.hookmask ∧ L1.basehookcount = L.basehookcount ∧
    L1.hookcount = L.hookcount ∧ L1.ci = L.ci ∧
    ∀ s : Int, traceexec_line m neverYields { L with status := s } p pc =
      .ok { L1 with status := s } := by
  unfold traceexec_line at *
  simp only [] at h ⊢
  generalize (if pc - 1 ≤ (if L.oldpc < p.sizecode then L.oldpc else 0) then Except.ok true
    else changedline m p (if L.oldpc < p.sizecode then L.oldpc else 0) (pc - 1)) = chg at h ⊢
  rcases chg with e | b
  · cases h
  · cases b
    · simp only [Except.ok.injEq] at h
      subst h
      exact ⟨rfl, rfl, rfl, rfl, fun s => rfl⟩
    · simp only at h ⊢
      generalize luaG_getfuncline m p (pc - 1) = gl at h ⊢
      rcases gl with e | newline
      · cases h
      · simp only [Except.ok.injEq] at h
        subst h
        obtain ⟨h1, h2, h3, h4, _⟩ := luaD_hook_fields y L LUA_HOOKLINE newline 0 0
        refine ⟨h1, h2, h3, h4, fun s => ?_⟩
        simp only [← luaD_hook_quiet y L LUA_HOOKLINE newline 0 0 s]

theorem luaD_hook_hookcalls (y : HookBehaviour) (L : lua_State) (e l f n : Int) :
    (luaD_hook y L e l f n).hookcalls =
      L.hookcalls ++ [{ event := e, line := l, ftransfer := f, ntransfer := n }] := by
  unfold luaD_hook
  simp only []
  split <;> rfl

theorem luaD_hook_never_status (L : lua_State) (e l f n : Int) :
    (luaD_hook neverYields L e l f n).status = L.status := by
  unfold luaD_hook neverYields
  simp only [Bool.false_eq_true, if_false]

/-- What a call in which a hook yields leaves behind, and the same call with
hooks that do not yield. -/
theorem traceexec_yield_facts (m : Macros) (yields : HookBehaviour) (L L1 : lua_State)
    (pc : Int) (out : Outcome)
    (h : luaG_traceexec m yields L pc = .ok (L1, out))
    (hst : L.status ≠ LUA_YIELD) (hy : L1.status = LUA_YIELD) :
    out = .thrown LUA_YIELD ∧ L1.ci.callstatus.hookyield = true ∧
    L1.hookmask = L.hookmask ∧ L1.basehookcount = L.basehookcount ∧
    (L.hookmask &&& LUA_MASKLINE ≠ 0 ∨
      (L.hookmask &&& LUA_MASKCOUNT ≠ 0 ∧ L.hookcount - 1 = 0)) ∧
    L1.hookcount = (if L.hookmask &&& LUA_MASKCOUNT ≠ 0 then
        (if L.hookcount - 1 = 0 then 1 else L.hookcount - 1) else L.hookcount) ∧
    ∃ Lq, luaG_traceexec m neverYields L pc = .ok (Lq, .returned 1) ∧
      Lq.hookcalls = L1.hookcalls ∧
      Lq.hookcount = (if L.hookmask &&& LUA_MASKCOUNT ≠ 0 then
        (if L.hookcount - 1 = 0 then L.basehookcount else L.hookcount - 1)
        else L.hookcount) := by
  unfold luaG_traceexec resethookcount at *
  by_cases hmask : L.hookmask &&& (LUA_MASKLINE ||| LUA_MASKCOUNT) = 0
  · simp only [hmask, if_true] at h
    cases h
    exact absurd hy hst
  · by_cases hcm : L.hookmask &&& LUA_MASKCOUNT = 0 <;>
    by_cases hz : L.hookcount - 1 = 0 <;>
    by_cases hl : L.hookmask &&& LUA_MASKLINE = 0 <;>
    by_cases hflag : L.ci.callstatus.hookyield = true <;>
    simp only [if_neg hmask, ne_eq, not_false_eq_true, decide_True, decide_False,
      Bool.and_false, Bool.false_eq_true, if_false, if_true, hcm, hz, hl, hflag,
      not_true_eq_false, Bool.and_true, Bool.true_and, Bool.false_and, Bool.not_false,
      Bool.not_true, and_true, and_false, true_and, false_and, Bool.and_self,
      add_sub_cancel_right] at h ⊢
    all_goals first
      | (cases h; exact absurd hy hst)
      | skip
    all_goals
      rcases hrd : rd L.ci.p.code pc with e | i
      · simp only [hrd] at h
        cases h
      · cases hit : m.isIT i <;>
        simp only [hrd, hit, Bool.not_false, Bool.not_true, if_true, if_false,
          Bool.false_eq_true] at h ⊢ <;>
        first
      | (generalize hA : traceexec_line m yields _ _ _ = ra at h
         generalize hB : traceexec_line m neverYields _ _ _ = rb
         rcases ra with e | La
         · cases h
         · obtain ⟨f1, f2, f3, f4, fq⟩ := traceexec_line_fields _ _ _ _ _ _ hA
           have hb : rb = .ok { La with status := L.status } := by
             rw [← hB]
             have hq := fq L.status
             try rw [luaD_hook_quiet] at hq
             exact hq
           subst hb
           simp only at h ⊢
           split_ifs at h with hs
           · simp only [Except.ok.injEq, Prod.mk.injEq] at h
             obtain ⟨rfl, rfl⟩ := h
             rw [if_neg hst]
             obtain ⟨g1, g2, g3, g4, g5⟩ := luaD_hook_fields yields
               { L with ci := { L.ci with savedpc := pc + 1 }, hookcount := L.basehookcount }
               LUA_HOOKCOUNT (-1) 0 0
             obtain ⟨k1, k2, k3, k4, k5⟩ := luaD_hook_fields yields
               { L with ci := { L.ci with savedpc := pc + 1 }, hookcount := L.basehookcount,
                         top := L.ci.top }
               LUA_HOOKCOUNT (-1) 0 0
             refine ⟨rfl, rfl, ?_, ?_, ?_, ?_, _, rfl, rfl, ?_⟩ <;>
             simp only [f1, f2, f3, g1, g2, g3, k1, k2, k3, or_false, or_true, true_or]
           · simp only [Except.ok.injEq, Prod.mk.injEq] at h
             obtain ⟨rfl, rfl⟩ := h
             exact absurd hy hs)
      | (simp only [luaD_hook_never_status, hst, if_false]
         split_ifs at h with hs
         · simp only [Except.ok.injEq, Prod.mk.injEq] at h
           obtain ⟨rfl, rfl⟩ := h
           obtain ⟨g1, g2, g3, g4, g5⟩ := luaD_hook_fields yields
             { L with ci := { L.ci with savedpc := pc + 1 }, hookcount := L.basehookcount }
             LUA_HOOKCOUNT (-1) 0 0
           obtain ⟨k1, k2, k3, k4, k5⟩ := luaD_hook_fields yields
             { L with ci := { L.ci with savedpc := pc + 1 }, hookcount := L.basehookcount,
                       top := L.ci.top }
             LUA_HOOKCOUNT (-1) 0 0
           refine ⟨rfl, rfl, ?_, ?_, ?_, rfl, _, rfl, ?_, ?_⟩ <;>
           (try simp only [g1, g2, g3, k1, k2, k3, or_false, or_true, true_or,
             luaD_hook_hookcalls]) <;>
           (try exact (luaD_hook_fields _ _ _ _ _ _).2.2.1)
         · simp only [Except.ok.injEq, Prod.mk.injEq] at h
           obtain ⟨rfl, rfl⟩ := h
           exact absurd hy hs)

/-- A hook that yields, the resumption and the call that traces the instruction
again, against the same call with hooks that do not yield. -/
theorem traceexec_resumed_facts (m : Macros) (yields yields2 : HookBehaviour) (L : lua_State)
    (pc : Int) (hst : L.status ≠ LUA_YIELD)
    (hy : (luaG_traceexec m yields L pc).map (fun r => r.1.status) = .ok LUA_YIELD) :
    ∃ L1 L2 Lq, luaG_traceexec m yields L pc = .ok (L1, .thrown LUA_YIELD) ∧
      L1.ci.callstatus.hookyield = true ∧
      traceexec_resumed m yields yields2 L pc = .ok (L2, .returned 1) ∧
      luaG_traceexec m neverYields L pc = .ok (Lq, .returned 1) ∧
      L2.hookcalls = L1.hookcalls ∧ L2.hookcalls = Lq.hookcalls ∧
      L2.ci.callstatus.hookyield = false ∧
      (L.hookmask &&& LUA_MASKCOUNT = 0 ∨ L.hookcount - 1 = 0 →
        L2.hookcount = Lq.hookcount) := by
  rcases h : luaG_traceexec m yields L pc with e | ⟨L1, out⟩
  · rw [h] at hy
    cases hy
  · rw [h] at hy
    have hy1 : L1.status = LUA_YIELD := by
      simpa [Except.map] using hy
    obtain ⟨rfl, hflag, hm, hb, hdue, hc, Lq, hq, hqcalls, hqc⟩ :=
      traceexec_yield_facts m yields L L1 pc out h hst hy1
    have hdue2 : (resume_hookyield L1).hookmask &&& LUA_MASKLINE ≠ 0 ∨
        ((resume_hookyield L1).hookmask &&& LUA_MASKCOUNT ≠ 0 ∧
          (resume_hookyield L1).hookcount - 1 = 0) := by
      rcases hdue with h1 | ⟨h1, h2⟩
      · exact Or.inl (by simpa [resume_hookyield, hm] using h1)
      · refine Or.inr ⟨by simpa [resume_hookyield, hm] using h1, ?_⟩
        have : L1.hookcount = 1 := by rw [hc, if_pos h1, if_pos h2]
        simp [resume_hookyield, this]
    obtain ⟨L2, h2, h2calls, h2flag, _, h2c⟩ :=
      traceexec_on_hookyield m yields2 (resume_hookyield L1) pc hflag hdue2
    refine ⟨L1, L2, Lq, rfl, hflag, ?_, hq, h2calls, ?_, h2flag, ?_⟩
    · unfold traceexec_resumed
      rw [h]
      exact h2
    · rw [h2calls, hqcalls]
      rfl
    · intro hcase
      rw [h2c, hqc]
      have e1 : (resume_hookyield L1).hookmask = L.hookmask := hm
      have e2 : (resume_hookyield L1).hookcount = L1.hookcount := rfl
      have e3 : (resume_hookyield L1).basehookcount = L.basehookcount := hb
      rw [e1, e2, e3, hc]
      by_cases hcm : L.hookmask &&& LUA_MASKCOUNT = 0
      · simp [hcm]
      · rcases hcase with h0 | h0
        · exact absurd h0 hcm
        · simp [hcm, h0]

/-- C11, as the claim states it, fails for a line hook that yields while
instructions are counted: with mask line+count, base count 5 and two
instructions left, the call at offset 1 of `protoLines` delivers a line event,
flags the frame and unwinds with `LUA_YIELD`; after the call that traces the
instruction again the remaining count is 5, while it is 1 if the hook
returns without yielding. -/
theorem traceexec_resumed_count_off :
    (luaG_traceexec luaMacros alwaysYields stateCountLine 1).map
        (fun r => (r.1.status, r.1.ci.callstatus.hookyield, r.2)) =
      .ok (LUA_YIELD, true, .thrown LUA_YIELD) ∧
    (traceexec_resumed luaMacros alwaysYields alwaysYields stateCountLine 1).map
        (fun r => r.1.hookcount) = .ok 5 ∧
    (luaG_traceexec luaMacros neverYields stateCountLine 1).map
        (fun r => r.1.hookcount) = .ok 1 := by
  decide

/-- C11, amended: for every hook mask and every state of a running thread: if a
hook invoked by `luaG_traceexec` yields (thread status `LUA_YIELD` after the
call), the call flags the frame `CIST_HOOKYIELD` and unwinds with
`LUA_YIELD`; the call that traces the same instruction again on resume returns
1 and invokes no hook, so that the events delivered are those of a call whose
hooks do not yield, and clears the flag; and when the count bit is not in the
mask or a count event was in flight, the remaining hook count afterwards is
the one that call leaves. -/
theorem traceexec_hook_yield (m : Macros) (yields yields2 : HookBehaviour) (L : lua_State)
    (pc : Int) (hst : L.status ≠ LUA_YIELD)
    (hy : (luaG_traceexec m yields L pc).map (fun r => r.1.status) = .ok LUA_YIELD) :
    ∃ L1 L2 Lq, luaG_traceexec m yields L pc = .ok (L1, .thrown LUA_YIELD) ∧
      L1.ci.callstatus.hookyield = true ∧
      traceexec_resumed m yields yields2 L pc = .ok (L2, .returned 1) ∧
      luaG_traceexec m neverYields L pc = .ok (Lq, .returned 1) ∧
      L2.hookcalls = L1.hookcalls ∧ L2.hookcalls = Lq.hookcalls ∧
      L2.ci.callstatus.hookyield = false ∧
      (L.hookmask &&& LUA_MASKCOUNT = 0 ∨ L.hookcount - 1 = 0 →
        L2.hookcount = Lq.hookcount) :=
  traceexec_resumed_facts m yields yields2 L pc hst hy

/-- C11, amended, for a count hook that yields at offset 1 of `protoLines`
with base count 5: after the resumption the remaining count is that of a call
whose hook does not yield. -/
theorem traceexec_hook_yield_witness :
    ∃ L2 Lq, traceexec_resumed luaMacros alwaysYields alwaysYields stateCountDue 1 =
        .ok (L2, .returned 1) ∧
      luaG_traceexec luaMacros neverYields stateCountDue 1 = .ok (Lq, .returned 1) ∧
      L2.hookcalls = Lq.hookcalls ∧ L2.hookcount = Lq.hookcount := by
  obtain ⟨_, L2, Lq, _, _, h2, hq, _, hcalls, _, hc⟩ :=
    traceexec_hook_yield luaMacros alwaysYields alwaysYields stateCountDue 1
      (by decide) (by decide)
  exact ⟨L2, Lq, h2, hq, hcalls, hc (Or.inr (by decide))⟩

/-- C12: when `luaG_traceexec` is called on a frame flagged `CIST_HOOKYIELD`
while the line bit is set or a count event is due (the count bit is set and
the decremented count is 0), it invokes no hook, clears the flag, leaves
`L->oldpc` unchanged and returns 1. -/
theorem traceexec_flagged_frame (m : Macros) (yields : HookBehaviour) (L : lua_State) (pc : Int)
    (hflag : L.ci.callstatus.hookyield = true)
    (hdue : L.hookmask &&& LUA_MASKLINE ≠ 0 ∨
      (L.hookmask &&& LUA_MASKCOUNT ≠ 0 ∧ L.hookcount - 1 = 0)) :
    ∃ L1, luaG_traceexec m yields L pc = .ok (L1, .returned 1) ∧
      L1.hookcalls = L.hookcalls ∧ L1.ci.callstatus.hookyield = false ∧
      L1.oldpc = L.oldpc := by
  obtain ⟨L1, h1, h2, h3, h4, _⟩ := traceexec_on_hookyield m yields L pc hflag hdue
  exact ⟨L1, h1, h2, h3, h4⟩

/-- C12, for the flagged frame of `stateFlagged` (line bit set) and hooks
that would yield. -/
theorem traceexec_flagged_frame_witness :
    ∃ L1, luaG_traceexec luaMacros alwaysYields stateFlagged 1 = .ok (L1, .returned 1) ∧
      L1.hookcalls = stateFlagged.hookcalls ∧ L1.ci.callstatus.hookyield = false ∧
      L1.oldpc = stateFlagged.oldpc :=
  traceexec_flagged_frame luaMacros alwaysYields stateFlagged 1 (by decide)
    (Or.inl (by decide))

/-! ## Names of metamethods -/

theorem drop_event_prefix :
    ("__index".drop 2 = "index" ∧ "__newindex".drop 2 = "newindex" ∧ "__unm".drop 2 = "unm" ∧
      "__bnot".drop 2 = "bnot" ∧ "__len".drop 2 = "len") ∧
    ("__concat".drop 2 = "concat" ∧ "__eq".drop 2 = "eq" ∧ "__lt".drop 2 = "lt" ∧
      "__le".drop 2 = "le" ∧ "__close".drop 2 = "close") := by
  decide

/-- C13, as the claim states it, fails: for the `OP_GETFIELD` of `protoGetField`
and the event names of the interpreter the name is "index", not "__index". -/
theorem funcnamefromcode_index_name :
    funcnamefromcode luaMacros luaT_tms luaT_tmname protoGetField 0 =
      .ok (some "metamethod", some "index") ∧
    funcnamefromcode luaMacros luaT_tms luaT_tmname protoGetField 0 ≠
      .ok (some "metamethod", some "__index") := by
  decide

/-- C13, amended: for a script caller whose current instruction belongs to the
table-index family (OP_SELF, OP_GETTABUP, OP_GETTABLE, OP_GETI, OP_GETFIELD),
`funcnamefromcode` returns kind "metamethod" with name "index", the event
name without its "__" prefix; likewise the name is "newindex" for the
table-store family and "unm", "bnot", "len", "concat", "eq", "lt", "le",
"close" for the corresponding instructions (given the event-name table
`tmname` holding the "__"-prefixed names). -/
theorem funcnamefromcode_event (m : Macros) (tms : TMS) (g : global_State) (p : Proto)
    (pc : Int) (i : Instruction) (hi : rd p.code pc = .ok i) (hg : TmnamesStored tms g) :
    (i.opcode ∈ [OpCode.OP_SELF, .OP_GETTABUP, .OP_GETTABLE, .OP_GETI, .OP_GETFIELD] →
      funcnamefromcode m tms g p pc = .ok (some "metamethod", some "index")) ∧
    (i.opcode ∈ [OpCode.OP_SETTABUP, .OP_SETTABLE, .OP_SETI, .OP_SETFIELD] →
      funcnamefromcode m tms g p pc = .ok (some "metamethod", some "newindex")) ∧
    (i.opcode = .OP_UNM →
      funcnamefromcode m tms g p pc = .ok (some "metamethod", some "unm")) ∧
    (i.opcode = .OP_BNOT →
      funcnamefromcode m tms g p pc = .ok (some "metamethod", some "bnot")) ∧
    (i.opcode = .OP_LEN →
      funcnamefromcode m tms g p pc = .ok (some "metamethod", some "len")) ∧
    (i.opcode = .OP_CONCAT →
      funcnamefromcode m tms g p pc = .ok (some "metamethod", some "concat")) ∧
    (i.opcode = .OP_EQ →
      funcnamefromcode m tms g p pc = .ok (some "metamethod", some "eq")) ∧
    (i.opcode ∈ [OpCode.OP_LT, .OP_LTI, .OP_GTI] →
      funcnamefromcode m tms g p pc = .ok (some "metamethod", some "lt")) ∧
    (i.opcode ∈ [OpCode.OP_LE, .OP_LEI, .OP_GEI] →
      funcnamefromcode m tms g p pc = .ok (some "metamethod", some "le")) ∧
    (i.opcode ∈ [OpCode.OP_CLOSE, .OP_RETURN] →
      funcnamefromcode m tms g p pc = .ok (some "metamethod", some "close")) := by
  obtain ⟨g1, g2, g3, g4, g5, g6, g7, g8, g9, g10⟩ := hg
  obtain ⟨⟨d1, d2, d3, d4, d5⟩, d6, d7, d8, d9, d10⟩ := drop_event_prefix
  unfold funcnamefromcode
  simp only [hi, GET_OPCODE, List.mem_cons, List.mem_singleton, List.mem_nil_iff, or_false]
  refine ⟨?_, ?_, ?_, ?_, ?_, ?_, ?_, ?_, ?_, ?_⟩ <;> intro hop
  · rcases hop with h | h | h | h | h <;> simp only [h, g1, d1]
  · rcases hop with h | h | h | h <;> simp only [h, g2, d2]
  · simp only [hop, g3, d3]
  · simp only [hop, g4, d4]
  · simp only [hop, g5, d5]
  · simp only [hop, g6, d6]
  · simp only [hop, g7, d7]
  · rcases hop with h | h | h <;> simp only [h, g8, d8]
  · rcases hop with h | h | h <;> simp only [h, g9, d9]
  · rcases hop with h | h <;> simp only [h, g10, d10]

/-- C13, amended, for the `OP_GETFIELD` of `protoGetField` and the event names
of the interpreter. -/
theorem funcnamefromcode_event_witness :
    funcnamefromcode luaMacros luaT_tms luaT_tmname protoGetField 0 =
      .ok (some "metamethod", some "index") :=
  (funcnamefromcode_event luaMacros luaT_tms luaT_tmname protoGetField 0
    { opcode := .OP_GETFIELD, A := 1, B := 0, C := 0 } (by decide)
    (by unfold TmnamesStored; decide)).1 (by decide)

/-! ## Names of table accesses -/

/-- C14: evaluation of the code at the chunk `("_ENV").x()`: the table indexed
by the `OP_GETFIELD` is register 0, which holds the string constant "_ENV"
(`basicgetobjname` classifies it as a constant), and `getobjname` answers
"global". -/
theorem getobjname_env_string_constant :
    getobjname luaMacros protoEnvString 3 0 = .ok (some "global", some "x") ∧
    (basicgetobjname luaMacros protoEnvString 2 0).map (fun r => (r.kind, r.name)) =
      .ok (some "constant", some "_ENV") := by
  decide

/-- C15, as the claim states it, fails for a key held in a named local: in
`local t, k = {}, "a"; t[k]()` provenance analysis resolves register 1 as the
local `k`, and the name `getobjname` reports for the called value is "?". -/
theorem getobjname_key_named_local :
    getobjname luaMacros protoKeyLocal 5 2 = .ok (some "field", some "?") ∧
    (basicgetobjname luaMacros protoKeyLocal 4 1).map (fun r => (r.kind, r.name)) =
      .ok (some "local", some "k") := by
  decide

theorem kname_kind (p : Proto) (index : Int) (kind name : Option String)
    (h : kname p index = .ok (kind, name)) : kind = none ∨ kind = some "constant" := by
  unfold kname at h
  split at h
  · cases h
  · simp only [Except.ok.injEq, Prod.mk.injEq] at h
    exact Or.inr h.1.symm
  · simp only [Except.ok.injEq, Prod.mk.injEq] at h
    exact Or.inl h.1.symm

/-- The kinds `basicgetobjname` returns. -/
theorem basicgetobjname_aux_kind (m : Macros) (p : Proto) :
    ∀ (fuel : Nat) (pc reg : Int) (r : ObjName), basicgetobjname_aux m p fuel pc reg = .ok r →
      r.kind = none ∨ r.kind = some "local" ∨ r.kind = some "upvalue" ∨
        r.kind = some "constant" := by
  intro fuel
  induction fuel with
  | zero =>
    intro pc reg r h
    simp only [basicgetobjname_aux] at h
    cases h
  | succ fuel ih =>
    intro pc reg r h
    simp only [basicgetobjname_aux] at h
    split at h
    · cases h
      exact Or.inr (Or.inl rfl)
    · split at h
      · cases h
      · split_ifs at h
        · split at h
          · cases h
          · split at h
            · split_ifs at h
              · exact ih _ _ _ h
              · cases h
                exact Or.inl rfl
            · split at h
              · cases h
              · cases h
                exact Or.inr (Or.inr (Or.inl rfl))
            · split at h
              · cases h
              · rename_i kind name hk
                cases h
                rcases kname_kind _ _ _ _ hk with h1 | h1
                · exact Or.inl h1
                · exact Or.inr (Or.inr (Or.inr h1))
            · split at h
              · cases h
              · split at h
                · cases h
                · rename_i kind name hk
                  cases h
                  rcases kname_kind _ _ _ _ hk with h1 | h1
                  · exact Or.inl h1
                  · exact Or.inr (Or.inr (Or.inr h1))
            · cases h
              exact Or.inl rfl
        · cases h
          exact Or.inl rfl

/-- Function `rname` keeps the name of a constant and nothing else. -/
theorem rname_of_basicgetobjname (m : Macros) (p : Proto) (pc c : Int) (rc : ObjName)
    (hc : basicgetobjname m p pc c = .ok rc) :
    rname m p pc c = .ok (if rc.kind = some "constant" then rc.name else some "?") := by
  have f1 : ¬ ("local".front = 'c') := by decide
  have f2 : ¬ ("upvalue".front = 'c') := by decide
  have f3 : "constant".front = 'c' := by decide
  unfold rname
  rw [hc]
  rcases basicgetobjname_aux_kind m p _ _ _ _ hc with h | h | h | h <;>
  simp only [h, f1, f2, f3, if_true, if_false, reduceCtorEq, Option.some.injEq,
    String.reduceEq]

/-- C15, amended: for an origin instruction `OP_GETTABLE` (key held in register
C), the name `getobjname` reports is the name that provenance analysis
(`basicgetobjname` at that instruction) resolves for register C when it
classifies C as a constant, and "?" otherwise (when C is a named local or an
upvalue, or when no provenance can be found for C); for `OP_GETFIELD` and
`OP_GETTABUP` the name is the string constant C. -/
theorem getobjname_key_name (m : Macros) (p : Proto) (lastpc reg : Int) (r : ObjName)
    (i : Instruction) (hb : basicgetobjname m p lastpc reg = .ok r) (hk : r.kind = none)
    (hpc : r.pc ≠ -1) (hi : rd p.code r.pc = .ok i) :
    (i.opcode = .OP_GETTABLE → ∀ (rc : ObjName) (kind : String),
      basicgetobjname m p r.pc i.C = .ok rc → isEnv m p r.pc i false = .ok kind →
      getobjname m p lastpc reg =
        .ok (some kind, if rc.kind = some "constant" then rc.name else some "?")) ∧
    (i.opcode = .OP_GETFIELD → ∀ (s kind : String),
      rd p.k i.C = .ok (.string s) → isEnv m p r.pc i false = .ok kind →
      getobjname m p lastpc reg = .ok (some kind, some s)) ∧
    (i.opcode = .OP_GETTABUP → ∀ (s kind : String),
      rd p.k i.C = .ok (.string s) → isEnv m p r.pc i true = .ok kind →
      getobjname m p lastpc reg = .ok (some kind, some s)) := by
  refine ⟨?_, ?_, ?_⟩
  · intro hop rc kind hc he
    unfold getobjname
    simp only [hb, hk, hpc, ne_eq, not_false_eq_true, if_true, hi, GET_OPCODE, hop, GETARG_C,
      rname_of_basicgetobjname m p r.pc i.C rc hc, he]
  · intro hop s kind hs he
    unfold getobjname
    simp only [hb, hk, hpc, ne_eq, not_false_eq_true, if_true, hi, GET_OPCODE, hop, GETARG_C,
      kname, hs, he]
  · intro hop s kind hs he
    unfold getobjname
    simp only [hb, hk, hpc, ne_eq, not_false_eq_true, if_true, hi, GET_OPCODE, hop, GETARG_C,
      kname, hs, he]

/-- C15, amended, for `t["a"]()` with the key loaded into a temporary register
by `OP_LOADK`: the name is the constant "a". -/
theorem getobjname_key_name_witness :
    getobjname luaMacros protoKeyConstant 5 2 = .ok (some "field", some "a") :=
  (getobjname_key_name luaMacros protoKeyConstant 5 2 { kind := none, name := none, pc := 4 }
    { opcode := .OP_GETTABLE, A := 2, B := 0, C := 1 } (by decide) rfl (by decide)
    (by decide)).1 rfl { kind := some "constant", name := some "a", pc := 3 } "field"
    (by decide) (by decide)

/-! ## Blamed operands -/

/-- C16: `luaG_opinterror` blames its first operand when that operand is not a
number and its second operand otherwise; hence for every pair of operands of
which at least one is not a number the blamed operand is not a number; and for
`x + y` with `x` a number and `y` a value whose type name is "table" the message
handed to `luaG_runerror` is "attempt to perform arithmetic on a table value"
followed by the fragment `varinfo` computes for `y`. -/
theorem opinterror_blames (luaO_chunkid : String → String) (typename : TValue → String)
    (m : Macros) (L : lua_State) (p1 p2 : TValuePtr) (msg : String) :
    luaG_opinterror luaO_chunkid typename m L p1 p2 msg =
      luaG_typeerror luaO_chunkid typename m L (if ttisnumber p1.val then p2 else p1) msg ∧
    (¬ (ttisnumber p1.val = true ∧ ttisnumber p2.val = true) →
      ttisnumber (opinterror_blamed p1 p2).val = false) ∧
    (ttisnumber p1.val = true → typename p2.val = "table" →
      luaG_opinterror luaO_chunkid typename m L p1 p2 "perform arithmetic on" =
        match varinfo m L p2.addr with
        | .error e => .error e
        | .ok extra =>
          luaG_runerror luaO_chunkid m L
            ("attempt to perform arithmetic on a table value" ++ extra)) := by
  refine ⟨?_, ?_, ?_⟩
  · unfold luaG_opinterror opinterror_blamed
    cases ttisnumber p1.val <;> rfl
  · intro h
    unfold opinterror_blamed
    cases h1 : ttisnumber p1.val
    · simpa using h1
    · cases h2 : ttisnumber p2.val
      · simpa using h2
      · exact absurd ⟨h1, h2⟩ h
  · intro h1 h2
    have hs : "attempt to " ++ "perform arithmetic on" ++ " a " ++ "table" ++ " value" =
        "attempt to perform arithmetic on a table value" := by decide
    unfold luaG_opinterror opinterror_blamed luaG_typeerror typeerror
    simp only [h1, Bool.not_true, Bool.false_eq_true, if_false, h2, hs]

/-- C16, for the error of `x + y` in `local x, y = 1, {}; return x + y`: the
second operand, the table in register 1, is blamed. -/
theorem opinterror_blames_witness :
    luaG_opinterror (fun s => s.drop 1) luaT_objtypename luaMacros stateAddTable
        { addr := .stack 1, val := .integer 1 } { addr := .stack 2, val := .table 0 }
        "perform arithmetic on" =
      .ok "chunk:1: attempt to perform arithmetic on a table value (local 'y')" := by
  have h := (opinterror_blames (fun s => s.drop 1) luaT_objtypename luaMacros stateAddTable
    { addr := .stack 1, val := .integer 1 } { addr := .stack 2, val := .table 0 }
    "perform arithmetic on").2.2 rfl rfl
  rw [h]
  decide


/-- C17: `luaG_concaterror` blames its second operand exactly when the first
operand is a string or a number (string-convertible) and its first operand
otherwise; hence for every pair of operands of which at least one is neither a
string nor a number, the blamed operand is neither a string nor a number. -/
theorem concaterror_blames (luaO_chunkid : String → String) (typename : TValue → String)
    (m : Macros) (L : lua_State) (p1 p2 : TValuePtr) :
    luaG_concaterror luaO_chunkid typename m L p1 p2 =
      luaG_typeerror luaO_chunkid typename m L
        (if ttisstring p1.val = true ∨ ttisnumber p1.val = true then p2 else p1)
        "concatenate" ∧
    (concaterror_blamed p1 p2 = p2 ↔
      (ttisstring p1.val = true ∨ ttisnumber p1.val = true) ∨ p1 = p2) ∧
    (¬ ((ttisstring p1.val = true ∨ ttisnumber p1.val = true) ∧
        (ttisstring p2.val = true ∨ ttisnumber p2.val = true)) →
      ttisstring (concaterror_blamed p1 p2).val = false ∧
      ttisnumber (concaterror_blamed p1 p2).val = false) := by
  refine ⟨?_, ?_, ?_⟩
  · unfold luaG_concaterror concaterror_blamed cvt2str
    cases ttisstring p1.val <;> cases ttisnumber p1.val <;> rfl
  · unfold concaterror_blamed cvt2str
    cases ttisstring p1.val <;> cases ttisnumber p1.val <;> simp
  · intro h
    unfold concaterror_blamed cvt2str
    cases h1 : ttisstring p1.val <;> cases h2 : ttisnumber p1.val <;>
    cases h3 : ttisstring p2.val <;> cases h4 : ttisnumber p2.val <;>
    simp_all

/-- C17, for the operands of `"a" .. {}` and of `{} .. "a"`: the table is
blamed. -/
theorem concaterror_blames_witness :
    concaterror_blamed { addr := .stack 1, val := .string "a" }
        { addr := .stack 2, val := .table 0 } = { addr := .stack 2, val := .table 0 } ∧
    concaterror_blamed { addr := .stack 1, val := .table 0 }
        { addr := .stack 2, val := .string "a" } = { addr := .stack 1, val := .table 0 } ∧
    ttisstring (concaterror_blamed { addr := .stack 1, val := .string "a" }
        { addr := .stack 2, val := .table 0 }).val = false ∧
    ttisnumber (concaterror_blamed { addr := .stack 1, val := .string "a" }
        { addr := .stack 2, val := .table 0 }).val = false :=
  ⟨by decide, by decide,
    (concaterror_blames id luaT_objtypename luaMacros stateAddTable
      { addr := .stack 1, val := .string "a" } { addr := .stack 2, val := .table 0 }).2.2
      (by decide)⟩

/-! ## Constants and callers -/

/-- C18: when the origin instruction found for a register is `OP_LOADK`
(constant index Bx) or `OP_LOADKX` (constant index taken from the Ax field of
the instruction that follows it), `basicgetobjname` returns kind "constant"
with the constant's text as name if that constant is a string, and no kind
(name "?") if the constant is not a string. -/
theorem basicgetobjname_constant (m : Macros) (p : Proto) (pc reg w : Int) (i : Instruction)
    (hloc : luaF_getlocalname p (reg + 1) pc = none) (hw : findsetreg m p pc reg = .ok w)
    (hne : w ≠ -1) (hi : rd p.code w = .ok i) :
    (i.opcode = .OP_LOADK → ∀ v : TValue, rd p.k i.Bx = .ok v →
      basicgetobjname m p pc reg = .ok
        (match v with
         | .string s => { kind := some "constant", name := some s, pc := w }
         | _ => { kind := none, name := some "?", pc := w })) ∧
    (i.opcode = .OP_LOADKX → ∀ (extra : Instruction) (v : TValue),
      rd p.code (w + 1) = .ok extra → rd p.k extra.Ax = .ok v →
      basicgetobjname m p pc reg = .ok
        (match v with
         | .string s => { kind := some "constant", name := some s, pc := w }
         | _ => { kind := none, name := some "?", pc := w })) := by
  refine ⟨?_, ?_⟩
  · intro hop v hv
    unfold basicgetobjname
    simp only [basicgetobjname_aux, hloc, hw, hne, ne_eq, not_false_eq_true, if_true, hi,
      GET_OPCODE, hop, GETARG_Bx, kname, hv]
    cases v <;> rfl
  · intro hop extra v he hv
    unfold basicgetobjname
    simp only [basicgetobjname_aux, hloc, hw, hne, ne_eq, not_false_eq_true, if_true, hi,
      GET_OPCODE, hop, GETARG_Ax, kname, he, hv]
    cases v <;> rfl

/-- C18, for register 0 of `("_ENV").x()` before the `OP_GETFIELD`: the origin
is the `OP_LOADK` at offset 1 and the name is the constant "_ENV". -/
theorem basicgetobjname_constant_witness :
    basicgetobjname luaMacros protoEnvString 2 0 =
      .ok { kind := some "constant", name := some "_ENV", pc := 1 } :=
  (basicgetobjname_constant luaMacros protoEnvString 2 0 1 { opcode := .OP_LOADK, A := 0, Bx := 0 }
    (by decide) (by decide) (by decide) (by decide)).1 rfl (.string "_ENV") (by decide)

/-- C20: `funcnamefromcall` returns kind "hook" for every frame whose call
status has the called-from-hook flag, whatever its other flags and code; for a
frame without that flag but with the finalizer flag it returns kind
"metamethod" with name "__gc"; for a frame with neither flag that is not a
script frame it returns no name. -/
theorem funcnamefromcall_flags (m : Macros) (tms : TMS) (g : global_State) (ci : CallInfo) :
    (ci.callstatus.hooked = true →
      funcnamefromcall m tms g ci = .ok (some "hook", some "?")) ∧
    (ci.callstatus.hooked = false → ci.callstatus.fin = true →
      funcnamefromcall m tms g ci = .ok (some "metamethod", some "__gc")) ∧
    (ci.callstatus.hooked = false → ci.callstatus.fin = false → ci.isLua = false →
      funcnamefromcall m tms g ci = .ok (none, none)) := by
  refine ⟨?_, ?_, ?_⟩
  · intro h
    unfold funcnamefromcall
    simp only [h, if_true]
  · intro h1 h2
    unfold funcnamefromcall
    simp only [h1, h2, Bool.false_eq_true, if_false, if_true]
  · intro h1 h2 h3
    unfold funcnamefromcall
    simp only [h1, h2, h3, Bool.false_eq_true, if_false]

/-- C20, for a frame that has both the called-from-hook and the finalizer flag:
the kind is "hook". -/
theorem funcnamefromcall_flags_witness :
    funcnamefromcall luaMacros luaT_tms luaT_tmname frameHookedFin =
      .ok (some "hook", some "?") :=
  (funcnamefromcall_flags luaMacros luaT_tms luaT_tmname frameHookedFin).1 rfl

/-! ## The scan of `findsetreg` -/

theorem drop_take_cons {α : Type} (xs : List α) (n k : Nat) (a : α) (hk : k < n)
    (ha : xs[k]? = some a) : (xs.take n).drop k = a :: (xs.take n).drop (k + 1) := by
  have h1 : (xs.take n)[k]? = some a := by
    rw [List.getElem?_take_of_lt hk, ha]
  obtain ⟨hlt, hget⟩ := List.getElem?_eq_some.mp h1
  rw [List.drop_eq_getElem_cons hlt, hget]

/-- The loop of `findsetreg` is the scan over the instructions below the bound. -/
theorem findsetreg_loop_scan (m : Macros) (p : Proto) (bound reg : Int) (n : Nat)
    (hn : bound.toNat = n) (hlen : n ≤ p.code.length) :
    ∀ (fuel k : Nat) (s j : Int), k ≤ n → n - k < fuel →
      findsetreg_loop m p bound reg fuel k s j =
        .ok (((p.code.take n).drop k).foldl (scan_step m bound reg) ((k : Int), s, j)).2.1 := by
  intro fuel
  induction fuel with
  | zero => intro k s j _ h; omega
  | succ fuel ih =>
    intro k s j hk hfuel
    unfold findsetreg_loop
    by_cases hlt : k < n
    · have hlt2 : (k : Int) < bound := by omega
      obtain ⟨a, ha⟩ := getElem?_of_lt (lt_of_lt_of_le hlt hlen)
      rw [if_pos hlt2, rd_of_getElem? ha, drop_take_cons _ _ _ _ hlt ha]
      simp only [List.foldl_cons]
      have := ih (k + 1) (if (findsetreg_switch m a k bound reg j).1
        then filterpc k (findsetreg_switch m a k bound reg j).2 else s)
        (findsetreg_switch m a k bound reg j).2 (by omega) (by omega)
      rw [Nat.cast_add, Nat.cast_one] at this
      exact this
    · have hge : ¬ ((k : Int) < bound) := by omega
      rw [if_neg hge, List.drop_eq_nil_of_le (by rw [List.length_take]; omega)]
      rfl

theorem findsetreg_loop_scan_upto (m : Macros) (p : Proto) (bound reg : Int)
    (hlen : bound.toNat ≤ p.code.length) :
    findsetreg_loop m p bound reg (bound.toNat + 1) 0 (-1) 0 =
      .ok (scan_upto m p.code bound reg) := by
  have h := findsetreg_loop_scan m p bound reg bound.toNat rfl hlen (bound.toNat + 1) 0 (-1) 0
    (Nat.zero_le _) (by omega)
  rw [Nat.cast_zero, List.drop_zero] at h
  exact h

/-- C19: for every prototype and bound `lastpc` such that `code[lastpc]` is a
metamethod-binary-op instruction (`OP_MMBIN`, `OP_MMBINI`, `OP_MMBINK`),
`findsetreg(p, lastpc, reg)` does not consider the instruction at `lastpc-1`:
its result is the result of the scan over offsets 0..lastpc-2 with jump
destinations compared against `lastpc-1`, the same for every prototype with
these instructions below `lastpc-1`; when `code[lastpc]` is any other
instruction the scan covers offsets 0..lastpc-1. -/
theorem findsetreg_scan_bound (m : Macros) (p : Proto) (lastpc reg : Int) (last : Instruction)
    (hlast : rd p.code lastpc = .ok last) :
    (testMMMode last.opcode = true →
      findsetreg m p lastpc reg = .ok (scan_upto m p.code (lastpc - 1) reg) ∧
      ∀ (q : Proto) (lastq : Instruction), rd q.code lastpc = .ok lastq →
        testMMMode lastq.opcode = true →
        q.code.take (lastpc - 1).toNat = p.code.take (lastpc - 1).toNat →
        findsetreg m q lastpc reg = findsetreg m p lastpc reg) ∧
    (testMMMode last.opcode = false →
      findsetreg m p lastpc reg = .ok (scan_upto m p.code lastpc reg)) := by
  have hmm : ∀ (q : Proto) (lastq : Instruction), rd q.code lastpc = .ok lastq →
      testMMMode lastq.opcode = true →
      findsetreg m q lastpc reg = .ok (scan_upto m q.code (lastpc - 1) reg) := by
    intro q lastq hq hop
    obtain ⟨h0, hget⟩ := rd_eq_ok hq
    have hlt : lastpc.toNat < q.code.length := by
      rcases Nat.lt_or_ge lastpc.toNat q.code.length with h | h
      · exact h
      · rw [List.getElem?_eq_none h] at hget
        cases hget
    unfold findsetreg
    simp only [hq, GET_OPCODE, hop, if_true]
    exact findsetreg_loop_scan_upto m q (lastpc - 1) reg (by omega)
  refine ⟨?_, ?_⟩
  · intro hop
    refine ⟨hmm p last hlast hop, ?_⟩
    intro q lastq hq hopq htake
    rw [hmm p last hlast hop, hmm q lastq hq hopq]
    unfold scan_upto
    rw [htake]
  · intro hop
    obtain ⟨h0, hget⟩ := rd_eq_ok hlast
    have hlt : lastpc.toNat < p.code.length := by
      rcases Nat.lt_or_ge lastpc.toNat p.code.length with h | h
      · exact h
      · rw [List.getElem?_eq_none h] at hget
        cases hget
    unfold findsetreg
    simp only [hlast, GET_OPCODE, hop, Bool.false_eq_true, if_false]
    exact findsetreg_loop_scan_upto m p lastpc reg (by omega)

/-- C19, for register 2 at the `OP_MMBIN` at offset 5 of `protoAddTable`: the
`OP_ADD 2 0 1` at offset 4 does not enter the scan, and no origin is found. -/
theorem findsetreg_scan_bound_witness :
    findsetreg luaMacros protoAddTable 5 2 =
      .ok (scan_upto luaMacros protoAddTable.code (5 - 1) 2) ∧
    scan_upto luaMacros protoAddTable.code (5 - 1) 2 = -1 ∧
    scan_upto luaMacros protoAddTable.code 5 2 = 4 :=
  ⟨((findsetreg_scan_bound luaMacros protoAddTable 5 2
      { opcode := .OP_MMBIN, A := 0, B := 1, C := 6 } (by decide)).1 (by decide)).1,
    by decide, by decide⟩

/-! ## Description of a value -/

theorem getupvalname_loop_none (ci : CallInfo) (o : Addr) :
    ∀ (fuel k : Nat), ci.upvals.length - k < fuel →
      (∀ j, k ≤ j → ci.upvals[j]? ≠ some o) →
      getupvalname_loop ci o fuel k = .ok (none, none) := by
  intro fuel
  induction fuel with
  | zero => intro k h; omega
  | succ fuel ih =>
    intro k hfuel hno
    unfold getupvalname_loop
    by_cases hlt : k < ci.upvals.length
    · obtain ⟨v, hv⟩ := getElem?_of_lt hlt
      have hne : v ≠ o := fun h => hno k (le_refl _) (by rw [hv, h])
      rw [if_pos (by exact_mod_cast hlt), rd_of_getElem? hv]
      simp only [hne, if_false]
      have := ih (k + 1) (by omega) (fun j hj => hno j (by omega))
      rw [Nat.cast_add, Nat.cast_one] at this
      exact this
    · rw [if_neg (by exact_mod_cast hlt)]

theorem getupvalname_loop_found (ci : CallInfo) (o : Addr) (idx : Nat) (s : String)
    (hidx : ci.upvals[idx]? = some o) (hfirst : ∀ j, j < idx → ci.upvals[j]? ≠ some o)
    (hs : upvalname ci.p idx = .ok s) :
    ∀ (fuel k : Nat), ci.upvals.length - k < fuel → k ≤ idx →
      getupvalname_loop ci o fuel k = .ok (some "upvalue", some s) := by
  have hlen : idx < ci.upvals.length := by
    rcases Nat.lt_or_ge idx ci.upvals.length with h | h
    · exact h
    · rw [List.getElem?_eq_none h] at hidx
      cases hidx
  intro fuel
  induction fuel with
  | zero => intro k h; omega
  | succ fuel ih =>
    intro k hfuel hk
    unfold getupvalname_loop
    have hlt : k < ci.upvals.length := by omega
    rw [if_pos (by exact_mod_cast hlt)]
    by_cases hki : k = idx
    · subst hki
      rw [rd_of_getElem? hidx]
      simp only [if_true, hs]
    · obtain ⟨v, hv⟩ := getElem?_of_lt hlt
      have hne : v ≠ o := fun h => hfirst k (by omega) (by rw [hv, h])
      rw [rd_of_getElem? hv]
      simp only [hne, if_false]
      have := ih (k + 1) (by omega) (by omega)
      rw [Nat.cast_add, Nat.cast_one] at this
      exact this

theorem instack_loop_found (ci : CallInfo) (a : Int) :
    ∀ (fuel : Nat) (pos : Int), (ci.top - (ci.func + 1) - pos).toNat < fuel →
      ci.func + 1 + pos ≤ a → a < ci.top →
      instack_loop ci (.stack a) fuel pos = .ok (a - (ci.func + 1)) := by
  intro fuel
  induction fuel with
  | zero => intro pos h; omega
  | succ fuel ih =>
    intro pos hfuel hle hlt
    unfold instack_loop
    simp only
    rw [if_pos (by omega)]
    by_cases heq : a = ci.func + 1 + pos
    · rw [if_pos (by rw [heq])]
      congr 1
      omega
    · rw [if_neg (by intro h; cases h; exact heq rfl)]
      exact ih (pos + 1) (by omega) (by omega) hlt

theorem instack_loop_none (ci : CallInfo) (o : Addr)
    (hno : ∀ a, ci.func + 1 ≤ a → a < ci.top → o ≠ .stack a) :
    ∀ (fuel : Nat) (pos : Int), 0 ≤ pos → (ci.top - (ci.func + 1) - pos).toNat < fuel →
      instack_loop ci o fuel pos = .ok (-1) := by
  intro fuel
  induction fuel with
  | zero => intro pos _ h; omega
  | succ fuel ih =>
    intro pos h0 hfuel
    unfold instack_loop
    simp only
    by_cases hlt : ci.func + 1 + pos < ci.top
    · rw [if_pos hlt, if_neg (hno _ (by omega) hlt)]
      exact ih (pos + 1) (by omega) (by omega)
    · rw [if_neg hlt]

/-- C21: in a script frame `varinfo` yields kind "upvalue" with the upvalue's
name whenever the location of the value is the location of one of the
upvalues of the current closure (the first such upvalue), whatever the
register window is; when no upvalue matches and the location is slot `reg` of
the register window of the current frame it yields what `getobjname(p,
currentpc, reg)` gives; when the location is neither, or the current frame is
not a script frame, it yields the empty description. -/
theorem varinfo_cases (m : Macros) (L : lua_State) (o : Addr) :
    (L.ci.isLua = true → ∀ (idx : Nat) (s : String), L.ci.upvals[idx]? = some o →
      (∀ j : Nat, j < idx → L.ci.upvals[j]? ≠ some o) → upvalname L.ci.p idx = .ok s →
      varinfo m L o = .ok (" (upvalue '" ++ s ++ "')")) ∧
    (L.ci.isLua = true → (∀ j : Nat, L.ci.upvals[j]? ≠ some o) → ∀ reg : Int, 0 ≤ reg →
      L.ci.func + 1 + reg < L.ci.top → o = .stack (L.ci.func + 1 + reg) →
      varinfo m L o =
        (getobjname m L.ci.p (L.ci.savedpc - 1) reg).map (fun r => formatvarinfo r.1 r.2)) ∧
    (L.ci.isLua = true → (∀ j : Nat, L.ci.upvals[j]? ≠ some o) →
      (∀ a, L.ci.func + 1 ≤ a → a < L.ci.top → o ≠ .stack a) → varinfo m L o = .ok "") ∧
    (L.ci.isLua = false → varinfo m L o = .ok "") := by
  refine ⟨?_, ?_, ?_, ?_⟩
  · intro hlua idx s hidx hfirst hs
    have h := getupvalname_loop_found L.ci o idx s hidx hfirst hs (L.ci.upvals.length + 1) 0
      (by omega) (Nat.zero_le _)
    rw [Nat.cast_zero] at h
    unfold varinfo getupvalname
    simp only [hlua, if_true, h]
    rfl
  · intro hlua hno reg h0 hlt ho
    have h := getupvalname_loop_none L.ci o (L.ci.upvals.length + 1) 0 (by omega)
      (fun j _ => hno j)
    rw [Nat.cast_zero] at h
    have hs := instack_loop_found L.ci (L.ci.func + 1 + reg)
      ((L.ci.top - (L.ci.func + 1)).toNat + 1) 0 (by omega) (by omega) hlt
    have hreg : L.ci.func + 1 + reg - (L.ci.func + 1) = reg := by omega
    rw [hreg] at hs
    unfold varinfo getupvalname instack
    subst ho
    simp only [hlua, if_true, h, hs, ge_iff_le, h0, currentpc, pcRel]
    rcases getobjname m L.ci.p (L.ci.savedpc - 1) reg with e | ⟨kind, name⟩ <;> rfl
  · intro hlua hno hout
    have h := getupvalname_loop_none L.ci o (L.ci.upvals.length + 1) 0 (by omega)
      (fun j _ => hno j)
    rw [Nat.cast_zero] at h
    have hs := instack_loop_none L.ci o hout ((L.ci.top - (L.ci.func + 1)).toNat + 1) 0
      (le_refl _) (by omega)
    unfold varinfo getupvalname instack
    simp only [hlua, if_true, h, hs]
    rfl
  · intro hlua
    unfold varinfo
    simp only [hlua, Bool.false_eq_true, if_false]
    rfl

/-- C21, for the frame of `stateUpvalue`: the upvalue at heap address 7 is
described as upvalue "_ENV", and stack slot 2, register 1 of the frame, as the
local `y`. -/
theorem varinfo_cases_witness :
    varinfo luaMacros stateUpvalue (.heap 7) = .ok (" (upvalue '" ++ "_ENV" ++ "')") ∧
    varinfo luaMacros stateUpvalue (.stack 2) = .ok " (local 'y')" :=
  ⟨(varinfo_cases luaMacros stateUpvalue (.heap 7)).1 rfl 0 "_ENV" (by decide)
      (by intro j hj; omega) (by decide),
    by decide⟩

/-! ## Installing and querying the hook -/

/-- C22: after `lua_sethook(L, f, mask, count)` with `f` non-null and `mask` a
non-empty combination of the four event bits, `lua_gethook` returns `f`,
`lua_gethookmask` returns `mask` and `lua_gethookcount` returns `count`; after
a call with `f` null or `mask` zero, `lua_gethook` returns null,
`lua_gethookmask` returns 0 and `lua_gethookcount` returns `count`. -/
theorem sethook_gethook (L : lua_State) (func : Option Nat) (mask count : Int) :
    (∀ f : Nat, func = some f → 1 ≤ mask →
      mask ≤ ((LUA_MASKCALL ||| LUA_MASKRET ||| LUA_MASKLINE ||| LUA_MASKCOUNT : Nat) : Int) →
      lua_gethook (lua_sethook L func mask count) = some f ∧
      lua_gethookmask (lua_sethook L func mask count) = mask ∧
      lua_gethookcount (lua_sethook L func mask count) = count) ∧
    (func = none ∨ mask = 0 →
      lua_gethook (lua_sethook L func mask count) = none ∧
      lua_gethookmask (lua_sethook L func mask count) = 0 ∧
      lua_gethookcount (lua_sethook L func mask count) = count) := by
  refine ⟨?_, ?_⟩
  · intro f hf h1 h15
    have h15b : mask ≤ 15 := h15
    have hm : mask ≠ 0 := by omega
    subst hf
    have hbyte : ((cast_byte mask : Nat) : Int) = mask := by
      unfold cast_byte
      omega
    unfold lua_gethook lua_gethookmask lua_gethookcount lua_sethook resethookcount settraps
    simp only [hm, reduceCtorEq, or_self, decide_False, Bool.false_eq_true, if_false, ne_eq,
      not_false_eq_true, if_true, hbyte, and_self]
  · intro hoff
    have hd : decide (func = none ∨ mask = 0) = true := by
      simp [hoff]
    have hb : cast_byte 0 = 0 := by decide
    unfold lua_gethook lua_gethookmask lua_gethookcount lua_sethook resethookcount
    simp only [hd, if_true, ne_eq, not_true_eq_false, if_false, hb, Nat.cast_zero, and_self]

/-- C22, for the callback 1 installed with the mask line+count and count 100. -/
theorem sethook_gethook_witness :
    lua_gethook (lua_sethook stateLines (some 1) 12 100) = some 1 ∧
    lua_gethookmask (lua_sethook stateLines (some 1) 12 100) = 12 ∧
    lua_gethookcount (lua_sethook stateLines (some 1) 12 100) = 100 :=
  (sethook_gethook stateLines (some 1) 12 100).1 1 rfl (by decide) (by decide)

/-! ## Tracing calls -/

/-- C23: `luaG_tracecall` always sets the trap flag of the current frame (and
changes nothing else before the hook is called); it invokes the call hook
(`luaD_hookcall`) if and only if the frame is at its first instruction, the
function is not vararg and the frame is not flagged hook-yielded; it returns 0
if and only if the frame is at the first instruction of a vararg function, and
1 otherwise. -/
theorem tracecall_cases (luaD_hookcall : lua_State → lua_State) (L : lua_State) :
    (luaG_tracecall luaD_hookcall L).1 =
      (if L.ci.savedpc = 0 ∧ L.ci.p.is_vararg = false ∧ L.ci.callstatus.hookyield = false
        then luaD_hookcall { L with ci := { L.ci with trap := true } }
        else { L with ci := { L.ci with trap := true } }) ∧
    ((luaG_tracecall luaD_hookcall L).2 = 0 ↔ L.ci.savedpc = 0 ∧ L.ci.p.is_vararg = true) ∧
    ((luaG_tracecall luaD_hookcall L).2 = 1 ↔
      ¬ (L.ci.savedpc = 0 ∧ L.ci.p.is_vararg = true)) := by
  unfold luaG_tracecall
  by_cases h0 : L.ci.savedpc = 0 <;> cases hv : L.ci.p.is_vararg <;>
  cases hy : L.ci.callstatus.hookyield <;> simp [h0, hv, hy]

/-- C23, at the entry of a function that is not vararg, for a `luaD_hookcall`
that records its invocation as a hook call: the hook is invoked once and the
result is 1. -/
theorem tracecall_cases_witness :
    ((luaG_tracecall (fun L => { L with hookcalls := L.hookcalls ++ [countEvent] })
      stateCallEntry).1.hookcalls = [countEvent] ∧
     (luaG_tracecall (fun L => { L with hookcalls := L.hookcalls ++ [countEvent] })
      stateCallEntry).1.ci.trap = true) ∧
    (luaG_tracecall (fun L => { L with hookcalls := L.hookcalls ++ [countEvent] })
      stateCallEntry).2 = 1 :=
  ⟨by rw [(tracecall_cases _ stateCallEntry).1]; decide,
    (tracecall_cases _ stateCallEntry).2.2.mpr (by decide)⟩

/-- C24: when the hook mask contains neither the line bit nor the count bit,
`luaG_traceexec` returns 0, clears the trap flag of the current frame, invokes
no hook and leaves the saved program counter, the remaining hook count,
`L->oldpc`, the call-status flags and the stack top unchanged: the thread
differs from the one before the call in the trap flag only. -/
theorem traceexec_hooks_off (m : Macros) (yields : HookBehaviour) (L : lua_State) (pc : Int)
    (hmask : L.hookmask &&& (LUA_MASKLINE ||| LUA_MASKCOUNT) = 0) :
    ∃ L1, luaG_traceexec m yields L pc = .ok (L1, .returned 0) ∧
      L1 = { L with ci := { L.ci with trap := false } } ∧
      L1.ci.trap = false ∧ L1.hookcalls = L.hookcalls ∧ L1.ci.savedpc = L.ci.savedpc ∧
      L1.hookcount = L.hookcount ∧ L1.oldpc = L.oldpc ∧
      L1.ci.callstatus = L.ci.callstatus ∧ L1.top = L.top ∧ L1.ci.top = L.ci.top := by
  refine ⟨{ L with ci := { L.ci with trap := false } }, ?_, rfl, rfl, rfl, rfl, rfl, rfl, rfl,
    rfl, rfl⟩
  unfold luaG_traceexec
  simp only [hmask, if_true]

/-- C24, for a thread with an empty hook mask whose trap flag is set. -/
theorem traceexec_hooks_off_witness :
    ∃ L1, luaG_traceexec luaMacros alwaysYields
        { stateLines with ci := { stateLines.ci with trap := true } } 1 =
        .ok (L1, .returned 0) ∧ L1.ci.trap = false ∧ L1.hookcalls = [] := by
  obtain ⟨L1, h, _, h1, h2, _⟩ := traceexec_hooks_off luaMacros alwaysYields
    { stateLines with ci := { stateLines.ci with trap := true } } 1 (by decide)
  exact ⟨L1, h, h1, h2⟩

/-! ## Activation levels -/

theorem lua_getstack_loop_spec :
    ∀ (after : List CallInfo) (level : Int) (pos : Nat), 0 ≤ level →
      lua_getstack_loop after level pos =
        if level < after.length then (0, pos + level.toNat, false)
        else (level - after.length, pos + after.length, true) := by
  intro after
  induction after with
  | nil =>
    intro level pos h0
    unfold lua_getstack_loop
    rw [if_neg (by simp only [List.length_nil, Nat.cast_zero]; omega)]
    simp
  | cons c after ih =>
    intro level pos h0
    unfold lua_getstack_loop
    by_cases hl : level > 0
    · rw [if_pos hl, ih (level - 1) (pos + 1) (by omega)]
      simp only [List.length_cons, Nat.cast_add, Nat.cast_one]
      by_cases hlt : level - 1 < after.length
      · rw [if_pos hlt, if_pos (by omega)]
        have : pos + 1 + (level - 1).toNat = pos + level.toNat := by omega
        rw [this]
      · rw [if_neg hlt, if_neg (by omega)]
        have h1 : level - 1 - (after.length : Int) = level - ((after.length : Int) + 1) := by
          omega
        have h2 : pos + 1 + after.length = pos + (after.length + 1) := by omega
        rw [h1, h2]
    · have hz : level = 0 := by omega
      subst hz
      rw [if_neg hl, if_pos (by simp only [List.length_cons, Nat.cast_add, Nat.cast_one]; omega)]
      simp

theorem lua_getstack_eq (L : lua_State) (level : Int) (ar : lua_Debug) :
    lua_getstack L level ar =
      if 0 ≤ level ∧ level < L.callers.length then (1, { ar with i_ci := some level.toNat })
      else (0, ar) := by
  unfold lua_getstack
  by_cases hneg : level < 0
  · rw [if_pos hneg, if_neg (by omega)]
  · rw [if_neg hneg]
    simp only [lua_getstack_loop_spec L.callers level 0 (by omega)]
    by_cases hlt : level < L.callers.length
    · have h0 : 0 ≤ level := by omega
      simp [hlt, h0]
    · simp [hlt]

/-- C25: `lua_getstack(L, level, ar)` returns 1 if and only if 0 <= level < d,
where d is the number of activation records reachable from the top record
before the base record, and 0 otherwise; on success the frame of `ar` is the
record reached from the top by following `previous` level times (position
`level` of the chain); on failure (negative level or level >= d) `ar` is
unchanged. -/
theorem lua_getstack_spec (L : lua_State) (level : Int) (ar : lua_Debug) :
    ((lua_getstack L level ar).1 = 1 ↔ 0 ≤ level ∧ level < L.callers.length) ∧
    ((lua_getstack L level ar).1 = 0 ↔ ¬ (0 ≤ level ∧ level < L.callers.length)) ∧
    (0 ≤ level ∧ level < L.callers.length →
      (lua_getstack L level ar).2 = { ar with i_ci := some level.toNat } ∧
      ∃ frame, L.frames[level.toNat]? = some frame) ∧
    (¬ (0 ≤ level ∧ level < L.callers.length) → (lua_getstack L level ar).2 = ar) := by
  rw [lua_getstack_eq]
  by_cases h : 0 ≤ level ∧ level < L.callers.length
  · rw [if_pos h]
    refine ⟨⟨fun _ => h, fun _ => rfl⟩, ⟨fun h0 => by simp at h0, fun hn => absurd h hn⟩, ?_,
      fun hn => absurd h hn⟩
    intro _
    refine ⟨rfl, ?_⟩
    apply getElem?_of_lt
    unfold lua_State.frames
    simp only [List.length_cons]
    omega
  · rw [if_neg h]
    exact ⟨⟨fun h0 => by simp at h0, fun hp => absurd hp h⟩, ⟨fun _ => h, fun _ => rfl⟩,
      fun hp => absurd hp h, fun _ => rfl⟩

/-- C25, for a thread with three records above the base record: level 2 is
found, level 3 is not. -/
theorem lua_getstack_spec_witness :
    lua_getstack stateThreeFrames 2 {} = (1, { i_ci := some 2 }) ∧
    lua_getstack stateThreeFrames 3 {} = (0, {}) ∧
    lua_getstack stateThreeFrames (-1) {} = (0, {}) :=
  ⟨Prod.ext ((lua_getstack_spec stateThreeFrames 2 {}).1.mpr (by decide))
      ((lua_getstack_spec stateThreeFrames 2 {}).2.2.1 (by decide)).1,
    by decide, by decide⟩

/-! ## Options of `lua_getinfo` -/

theorem validOption_iff (c : Char) :
    validOption c = true ↔ c ∈ ['S', 'l', 'u', 't', 'n', 'r', 'L', 'f'] := by
  unfold validOption
  simp only [Bool.or_eq_true, decide_eq_true_eq, List.mem_cons, List.mem_singleton,
    List.mem_nil_iff, or_false, or_assoc]

theorem auxgetinfo_case_invalid (luaO_chunkid : String → String) (m : Macros) (tms : TMS)
    (g : global_State) (L : lua_State) (c : Char) (ar : lua_Debug) (f : Option Closure)
    (ci : Option Nat) (hc : validOption c = false) :
    auxgetinfo_case luaO_chunkid m tms g L c ar f ci = .ok (ar, false) := by
  unfold validOption at hc
  simp only [Bool.or_eq_false_iff, decide_eq_false_iff_not] at hc
  obtain ⟨⟨⟨⟨⟨⟨⟨h1, h2⟩, h3⟩, h4⟩, h5⟩, h6⟩, h7⟩, h8⟩ := hc
  unfold auxgetinfo_case
  simp only [h1, h2, h3, h4, h5, h6, h7, h8, if_false, decide_False, Bool.or_self,
    Bool.false_eq_true]

theorem auxgetinfo_case_valid (luaO_chunkid : String → String) (m : Macros) (tms : TMS)
    (g : global_State) (L : lua_State) (c : Char) (ar ar1 : lua_Debug) (f : Option Closure)
    (ci : Option Nat) (ok : Bool) (hc : validOption c = true)
    (h : auxgetinfo_case luaO_chunkid m tms g L c ar f ci = .ok (ar1, ok)) : ok = true := by
  unfold auxgetinfo_case at h
  split_ifs at h with h1 h2 h3 h4 h5 h6 h7
  all_goals first
    | (cases h; rfl)
    | (exfalso
       unfold validOption at hc
       simp only [Bool.or_eq_true, decide_eq_true_eq] at hc h7
       rcases hc with ((((((hc | hc) | hc) | hc) | hc) | hc) | hc) | hc
       all_goals first
         | exact h1 hc
         | exact h2 hc
         | exact h3 hc
         | exact h4 hc
         | exact h5 hc
         | exact h6 hc
         | exact h7 (Or.inl hc)
         | exact h7 (Or.inr hc))
    | (repeat' split at h
       all_goals first
         | (cases h; rfl)
         | cases h)

/-- The fields `auxgetinfo` fills do not depend on the status. -/
theorem auxgetinfo_loop_ar (luaO_chunkid : String → String) (m : Macros) (tms : TMS)
    (g : global_State) (L : lua_State) (f : Option Closure) (ci : Option Nat) :
    ∀ (what : List Char) (s s1 : Int) (ar : lua_Debug),
      (auxgetinfo_loop luaO_chunkid m tms g L f ci what s ar).map Prod.snd =
        (auxgetinfo_loop luaO_chunkid m tms g L f ci what s1 ar).map Prod.snd := by
  intro what
  induction what with
  | nil => intro s s1 ar; rfl
  | cons c what ih =>
    intro s s1 ar
    unfold auxgetinfo_loop
    rcases auxgetinfo_case luaO_chunkid m tms g L c ar f ci with e | ⟨ar1, ok⟩
    · rfl
    · exact ih _ _ ar1

/-- Characters that select nothing do not change the fields `auxgetinfo` fills. -/
theorem auxgetinfo_loop_filter (luaO_chunkid : String → String) (m : Macros) (tms : TMS)
    (g : global_State) (L : lua_State) (f : Option Closure) (ci : Option Nat) :
    ∀ (what : List Char) (s : Int) (ar : lua_Debug),
      (auxgetinfo_loop luaO_chunkid m tms g L f ci what s ar).map Prod.snd =
        (auxgetinfo_loop luaO_chunkid m tms g L f ci (what.filter validOption) s ar).map
          Prod.snd := by
  intro what
  induction what with
  | nil => intro s ar; rfl
  | cons c what ih =>
    intro s ar
    cases hc : validOption c
    · rw [List.filter_cons_of_neg (by simp [hc])]
      conv_lhs => unfold auxgetinfo_loop
      rw [auxgetinfo_case_invalid luaO_chunkid m tms g L c ar f ci hc]
      simp only [Bool.false_eq_true, if_false]
      rw [ih 0 ar]
      exact auxgetinfo_loop_ar luaO_chunkid m tms g L f ci _ 0 s ar
    · rw [List.filter_cons_of_pos (by simp [hc])]
      unfold auxgetinfo_loop
      rcases auxgetinfo_case luaO_chunkid m tms g L c ar f ci with e | ⟨ar1, ok⟩
      · rfl
      · exact ih _ ar1

/-- The status `auxgetinfo` returns. -/
theorem auxgetinfo_loop_status (luaO_chunkid : String → String) (m : Macros) (tms : TMS)
    (g : global_State) (L : lua_State) (f : Option Closure) (ci : Option Nat) :
    ∀ (what : List Char) (s st : Int) (ar ar1 : lua_Debug),
      auxgetinfo_loop luaO_chunkid m tms g L f ci what s ar = .ok (st, ar1) →
      st = if what.all validOption then s else 0 := by
  intro what
  induction what with
  | nil =>
    intro s st ar ar1 h
    unfold auxgetinfo_loop at h
    cases h
    rfl
  | cons c what ih =>
    intro s st ar ar1 h
    unfold auxgetinfo_loop at h
    cases hc : validOption c
    · rw [auxgetinfo_case_invalid luaO_chunkid m tms g L c ar f ci hc] at h
      simp only [Bool.false_eq_true, if_false] at h
      rw [ih 0 st ar ar1 h]
      simp [hc]
    · rcases hcase : auxgetinfo_case luaO_chunkid m tms g L c ar f ci with e | ⟨ar2, ok⟩
      · rw [hcase] at h
        cases h
      · rw [hcase] at h
        have hok := auxgetinfo_case_valid luaO_chunkid m tms g L c ar ar2 f ci ok hc hcase
        subst hok
        simp only [if_true] at h
        rw [ih s st ar2 ar1 h]
        simp [hc]

theorem lua_getinfo_rest_status (luaO_chunkid : String → String) (m : Macros) (tms : TMS)
    (g : global_State) (clvalue : TValue → Option Closure) (L : lua_State) (what : List Char)
    (ar : lua_Debug) (ci : Option Nat) (func : TValue) (r : GetInfo)
    (h : lua_getinfo_rest luaO_chunkid m tms g clvalue L what ar ci func = .ok r) :
    r.status = if what.all validOption then 1 else 0 := by
  unfold lua_getinfo_rest auxgetinfo at h
  simp only at h
  rcases hl : auxgetinfo_loop luaO_chunkid m tms g L (clvalue func) ci what 1 ar with
    e | ⟨st, ar1⟩
  · rw [hl] at h
    cases h
  · rw [hl] at h
    have hst := auxgetinfo_loop_status luaO_chunkid m tms g L _ ci what 1 st ar ar1 hl
    simp only at h
    split_ifs at h <;>
    first
    | (cases h; exact hst)
    | (split at h
       · cases h
       · cases h
         exact hst)

theorem lua_getinfo_rest_filter (luaO_chunkid : String → String) (m : Macros) (tms : TMS)
    (g : global_State) (clvalue : TValue → Option Closure) (L : lua_State) (what : List Char)
    (ar : lua_Debug) (ci : Option Nat) (func : TValue) :
    (lua_getinfo_rest luaO_chunkid m tms g clvalue L what ar ci func).map
        (fun r => (r.ar, r.L, r.pushed)) =
      (lua_getinfo_rest luaO_chunkid m tms g clvalue L (what.filter validOption) ar ci
        func).map (fun r => (r.ar, r.L, r.pushed)) := by
  have hf : 'f' ∈ what.filter validOption ↔ 'f' ∈ what := by
    rw [List.mem_filter]
    exact ⟨fun h => h.1, fun h => ⟨h, by decide⟩⟩
  have hL : 'L' ∈ what.filter validOption ↔ 'L' ∈ what := by
    rw [List.mem_filter]
    exact ⟨fun h => h.1, fun h => ⟨h, by decide⟩⟩
  have hloop := auxgetinfo_loop_filter luaO_chunkid m tms g L (clvalue func) ci what 1 ar
  unfold lua_getinfo_rest auxgetinfo
  simp only [hf, hL]
  rcases h1 : auxgetinfo_loop luaO_chunkid m tms g L (clvalue func) ci what 1 ar with
    e1 | ⟨st1, ar1⟩ <;>
  rcases h2 : auxgetinfo_loop luaO_chunkid m tms g L (clvalue func) ci
    (what.filter validOption) 1 ar with e2 | ⟨st2, ar2⟩ <;>
  rw [h1, h2] at hloop <;>
  simp only [Except.map, Except.ok.injEq, Except.error.injEq, reduceCtorEq] at hloop
  · subst hloop
    rfl
  · subst hloop
    simp only
    by_cases hfm : 'f' ∈ what <;> by_cases hLm : 'L' ∈ what <;>
    simp only [hfm, hLm, if_true, if_false] <;>
    first
    | rfl
    | (rcases collectvalidlines m (clvalue func) with e | v <;> rfl)

theorem head_filter_validOption (what : List Char) :
    (what.filter validOption).head? ≠ some '>' := by
  intro h
  have hmem : '>' ∈ what.filter validOption := List.mem_of_mem_head? h
  rw [List.mem_filter] at hmem
  exact absurd hmem.2 (by decide)

/-- C26: `lua_getinfo` returns 0 if and only if its option string (after an
optional leading '>') contains a character outside S, l, u, t, n, r, L, f, and
1 otherwise; an invalid character does not stop processing: the fields
filled, the thread and the values pushed are exactly those of the call with
the invalid characters left out. -/
theorem lua_getinfo_options (luaO_chunkid : String → String) (m : Macros) (tms : TMS)
    (g : global_State) (stack : Int → TValue) (clvalue : TValue → Option Closure)
    (L : lua_State) (what : List Char) (ar : lua_Debug) :
    (∀ r, lua_getinfo luaO_chunkid m tms g stack clvalue L what ar = .ok r →
      r.status = if (if what.head? = some '>' then what.tail else what).all validOption
        then 1 else 0) ∧
    (lua_getinfo luaO_chunkid m tms g stack clvalue L what ar).map
        (fun r => (r.ar, r.L, r.pushed)) =
      (lua_getinfo luaO_chunkid m tms g stack clvalue L (validOptions what) ar).map
        (fun r => (r.ar, r.L, r.pushed)) ∧
    (∀ c, validOption c = true ↔ c ∈ ['S', 'l', 'u', 't', 'n', 'r', 'L', 'f']) := by
  refine ⟨?_, ?_, validOption_iff⟩
  · intro r h
    unfold lua_getinfo at h
    by_cases hgt : what.head? = some '>'
    · simp only [hgt, if_true] at h ⊢
      by_cases hfun : ttisfunction (stack (L.top - 1)) = true
      · simp only [hfun, if_true] at h
        exact lua_getinfo_rest_status _ _ _ _ _ _ _ _ _ _ _ h
      · simp only [hfun, if_false] at h
        cases h
    · simp only [hgt, if_false] at h ⊢
      rcases hci : ar.i_ci with _ | pos
      · rw [hci] at h
        cases h
      · rw [hci] at h
        simp only at h
        rcases hrd : rd L.frames (pos : Int) with e | frame
        · rw [hrd] at h
          cases h
        · rw [hrd] at h
          simp only at h
          by_cases hfun : ttisfunction (stack frame.func) = true
          · simp only [hfun, if_true] at h
            exact lua_getinfo_rest_status _ _ _ _ _ _ _ _ _ _ _ h
          · simp only [hfun, if_false] at h
            cases h
  · unfold lua_getinfo validOptions
    by_cases hgt : what.head? = some '>'
    · simp only [hgt, if_true, List.head?_cons, List.tail_cons]
      split_ifs
      · exact lua_getinfo_rest_filter _ _ _ _ _ _ _ _ _ _
      · rfl
    · simp only [hgt, if_false, head_filter_validOption what]
      rcases ar.i_ci with _ | pos
      · rfl
      · simp only
        rcases rd L.frames (pos : Int) with e | frame
        · rfl
        · simp only
          split_ifs
          · exact lua_getinfo_rest_filter _ _ _ _ _ _ _ _ _ _
          · rfl

/-- C26, for the options "S?l" and the current frame of `stateThreeFrames`:
the status is 0, and the source and the current line are filled. -/
theorem lua_getinfo_options_witness :
    (lua_getinfo id luaMacros luaT_tms luaT_tmname stackThreeFrames clvalueThreeFrames
        stateThreeFrames ['S', '?', 'l'] { i_ci := some 0 }).map
      (fun r => (r.status, r.ar.source, r.ar.currentline)) = .ok (0, "=chunk", 1) ∧
    ∀ r, lua_getinfo id luaMacros luaT_tms luaT_tmname stackThreeFrames clvalueThreeFrames
        stateThreeFrames ['S', '?', 'l'] { i_ci := some 0 } = .ok r → r.status = 0 :=
  ⟨by decide,
    (lua_getinfo_options id luaMacros luaT_tms luaT_tmname stackThreeFrames clvalueThreeFrames
      stateThreeFrames ['S', '?', 'l'] { i_ci := some 0 }).1⟩

/-! ## Messages of run-time errors -/

/-- C27: the message `luaG_runerror` raises is "<chunkid>:<line>: <msg>" when
the current frame is a script frame, where <line> is `luaG_getfuncline` at the
current offset of the frame and <chunkid> is the literal "?" when the
prototype has no source identifier; when the current frame is not a script
frame the message is <msg> with no prefix. -/
theorem runerror_message (luaO_chunkid : String → String) (m : Macros) (L : lua_State)
    (msg : String) :
    (L.ci.isLua = true →
      luaG_runerror luaO_chunkid m L msg =
        (luaG_getfuncline m L.ci.p (L.ci.savedpc - 1)).map (fun line =>
          (match L.ci.p.source with
           | some s => luaO_chunkid s
           | none => "?") ++ ":" ++ toString line ++ ": " ++ msg)) ∧
    (L.ci.isLua = false → luaG_runerror luaO_chunkid m L msg = .ok msg) := by
  refine ⟨?_, ?_⟩
  · intro hlua
    unfold luaG_runerror getcurrentline currentpc pcRel luaG_addinfo
    simp only [hlua, if_true]
    rcases luaG_getfuncline m L.ci.p (L.ci.savedpc - 1) with e | line
    · rfl
    · rcases L.ci.p.source with _ | s <;> rfl
  · intro hlua
    unfold luaG_runerror
    simp only [hlua, Bool.false_eq_true, if_false]

/-- C27, for an error at the `OP_MMBIN` of `protoAddTable`, on line 1 of the
chunk "=chunk", and for the same frame without a source identifier. -/
theorem runerror_message_witness :
    luaG_runerror (fun s => s.drop 1) luaMacros stateAddTable "boom" = .ok "chunk:1: boom" ∧
    luaG_runerror (fun s => s.drop 1) luaMacros
      { stateAddTable with ci := { stateAddTable.ci with
          p := { protoAddTable with source := none } } } "boom" = .ok "?:1: boom" ∧
    luaG_runerror (fun s => s.drop 1) luaMacros
      { stateAddTable with ci := { stateAddTable.ci with isLua := false } } "boom" =
      .ok "boom" :=
  ⟨by rw [(runerror_message _ luaMacros stateAddTable "boom").1 rfl]; decide, by decide,
    by decide⟩

/-- C28: for every prototype whose `lineinfo` array is absent (no debug
information) and every offset, `luaG_getfuncline` returns -1 and `changedline`
returns false; no table is read, so this holds whatever the other tables of
the prototype contain and whatever the offsets are. -/
theorem no_debug_information (m : Macros) (f : Proto) (pc oldpc newpc : Int)
    (h : f.lineinfo = none) :
    luaG_getfuncline m f pc = .ok (-1) ∧ changedline m f oldpc newpc = .ok false := by
  unfold luaG_getfuncline changedline
  simp only [h, and_self]

/-- C28, for `protoCallFoo`, which has no line information, at offsets outside
its code. -/
theorem no_debug_information_witness :
    luaG_getfuncline luaMacros protoCallFoo 1000 = .ok (-1) ∧
    changedline luaMacros protoCallFoo (-5) 1000 = .ok false :=
  no_debug_information luaMacros protoCallFoo 1000 (-5) 1000 rfl

/-! ## The function `average` -/

theorem findsetreg_switch_snd_writer (m : Macros) (i : Instruction) (pc lastpc reg jt : Int)
    (hw : writesReg m i reg = true) : (findsetreg_switch m i pc lastpc reg jt).2 = jt := by
  unfold writesReg findsetreg_switch at hw
  unfold findsetreg_switch
  cases hop : i.opcode <;> simp only [GET_OPCODE, hop] at hw ⊢
  simp at hw

theorem findsetreg_switch_snd_le (m : Macros) (i : Instruction) (pc lastpc reg jt w : Int)
    (hjt : jt ≤ w)
    (hno : i.opcode = .OP_JMP → ¬ (w < pc + 1 + i.sJ ∧ pc + 1 + i.sJ ≤ lastpc)) :
    (findsetreg_switch m i pc lastpc reg jt).2 ≤ w := by
  unfold findsetreg_switch
  cases hop : i.opcode <;> simp only [GET_OPCODE, hop] <;> try exact hjt
  have h := hno hop
  simp only [GETARG_sJ]
  split_ifs with hd
  · omega
  · exact hjt

/-- A write that no earlier jump skips is the result of the loop. -/
theorem findsetreg_loop_unconditional (m : Macros) (p : Proto) (lastpc reg : Int)
    (last : Instruction) (hlast : rd p.code lastpc = .ok last) (w : Int) (iw : Instruction)
    (hw : w < lastpc) (hiw : rd p.code w = .ok iw) (hwr : writesReg m iw reg = true)
    (hno : ∀ q i, w < q → q < lastpc → rd p.code q = .ok i → writesReg m i reg = false)
    (hjmp : ∀ j ij, 0 ≤ j → j < w → rd p.code j = .ok ij → ij.opcode = .OP_JMP →
      ¬ (w < j + 1 + ij.sJ ∧ j + 1 + ij.sJ ≤ lastpc)) :
    ∀ (fuel : Nat) (pc setreg jt : Int), 0 ≤ pc → pc ≤ w → (lastpc - pc).toNat < fuel →
      jt ≤ w → findsetreg_loop m p lastpc reg fuel pc setreg jt = .ok w := by
  intro fuel
  induction fuel with
  | zero => intro pc setreg jt h0 h1 h2; omega
  | succ fuel ih =>
    intro pc setreg jt h0 hpw hfuel hjt
    unfold findsetreg_loop
    have hlt : pc < lastpc := by omega
    rw [if_pos hlt]
    obtain ⟨i, hi⟩ := rd_ok_of_le h0 (le_of_lt hlt) hlast
    rw [hi]
    simp only
    by_cases hpc : pc = w
    · subst hpc
      rw [hiw] at hi
      cases hi
      have hfst := findsetreg_switch_fst m iw pc lastpc reg jt
      rw [hwr] at hfst
      rw [hfst, findsetreg_switch_snd_writer m iw pc lastpc reg jt hwr]
      simp only [if_true]
      have hfilter : filterpc pc jt = pc := by
        unfold filterpc
        rw [if_neg (by omega)]
      rw [hfilter]
      exact findsetreg_loop_tail m p lastpc reg last hlast fuel (pc + 1) pc _ (by omega)
        (by omega) (fun q iq h1 h2 h3 => hno q iq (by omega) h2 h3)
    · exact ih (pc + 1) _ _ (by omega) (by omega) (by omega)
        (findsetreg_switch_snd_le m i pc lastpc reg jt w hjt
          (fun hop => hjmp pc i h0 (by omega) hi hop))

theorem findsetreg_eq_loop (m : Macros) (p : Proto) (lastpc reg : Int) (last : Instruction)
    (hlast : rd p.code lastpc = .ok last) :
    findsetreg m p lastpc reg =
      findsetreg_loop m p (findsetreg_bound last lastpc) reg
        ((findsetreg_bound last lastpc).toNat + 1) 0 (-1) 0 := by
  unfold findsetreg findsetreg_bound
  rw [hlast]

theorem findsetreg_bound_le (last : Instruction) (lastpc : Int) :
    findsetreg_bound last lastpc ≤ lastpc := by
  unfold findsetreg_bound
  split <;> omega

/-- C30: let the bound be `lastpc-1` if `code[lastpc]` is a
metamethod-binary-op instruction and `lastpc` otherwise.  `findsetreg` returns
the greatest offset w below the bound whose instruction writes `reg`
(`OP_LOADNIL A B` writes registers A..A+B; `OP_TFORCALL A` writes every
register >= A+2; `OP_CALL` and `OP_TAILCALL A` write every register >= A;
`OP_JMP` writes none; any other opcode writes `reg` iff it is an A-setting
opcode with A = reg) provided that no `OP_JMP` at an offset j < w has a
destination d = j+1+sJ with w < d <= bound; in every other case (no writer, or
such a jump exists) it returns -1. -/
theorem findsetreg_result (m : Macros) (p : Proto) (lastpc reg : Int) (last : Instruction)
    (hlast : rd p.code lastpc = .ok last) :
    (∀ i : Instruction, writesReg m i reg =
      match i.opcode with
      | .OP_LOADNIL => decide ((i.A : Int) ≤ reg ∧ reg ≤ i.A + i.B)
      | .OP_TFORCALL => decide (reg ≥ (i.A : Int) + 2)
      | .OP_CALL | .OP_TAILCALL => decide (reg ≥ (i.A : Int))
      | .OP_JMP => false
      | op => m.testAMode op && decide (reg = (i.A : Int))) ∧
    (∀ w iw, 0 ≤ w → w < findsetreg_bound last lastpc → rd p.code w = .ok iw →
      writesReg m iw reg = true →
      (∀ q i, w < q → q < findsetreg_bound last lastpc → rd p.code q = .ok i →
        writesReg m i reg = false) →
      ((∀ j ij, 0 ≤ j → j < w → rd p.code j = .ok ij → ij.opcode = .OP_JMP →
          ¬ (w < j + 1 + ij.sJ ∧ j + 1 + ij.sJ ≤ findsetreg_bound last lastpc)) →
        findsetreg m p lastpc reg = .ok w) ∧
      ((∃ j ij, 0 ≤ j ∧ j < w ∧ rd p.code j = .ok ij ∧ ij.opcode = .OP_JMP ∧
          w < j + 1 + ij.sJ ∧ j + 1 + ij.sJ ≤ findsetreg_bound last lastpc) →
        findsetreg m p lastpc reg = .ok (-1))) ∧
    ((∀ q i, 0 ≤ q → q < findsetreg_bound last lastpc → rd p.code q = .ok i →
        writesReg m i reg = false) →
      findsetreg m p lastpc reg = .ok (-1)) := by
  have hble := findsetreg_bound_le last lastpc
  rw [findsetreg_eq_loop m p lastpc reg last hlast]
  generalize findsetreg_bound last lastpc = bound at hble ⊢
  refine ⟨?_, ?_, ?_⟩
  · intro i
    unfold writesReg findsetreg_switch
    cases hop : i.opcode <;> simp [GET_OPCODE, GETARG_A, GETARG_B, hop]
  · intro w iw h0 hw hiw hwr hno
    obtain ⟨lastb, hlastb⟩ := rd_ok_of_le (by omega : 0 ≤ bound) hble hlast
    refine ⟨?_, ?_⟩
    · intro hjmp
      exact findsetreg_loop_unconditional m p bound reg lastb hlastb w iw hw hiw hwr hno hjmp
        _ 0 (-1) 0 (le_refl _) h0 (by omega) h0
    · rintro ⟨j, ij, hj, hjw, hij, hop, hd1, hd2⟩
      exact findsetreg_loop_conditional m p bound reg lastb hlastb w j iw ij hw hiw hwr hno
        hjw hij hop hd1 hd2 _ 0 (-1) 0 (le_refl _) (by omega) (by omega) (Or.inl hj)
  · intro hno
    by_cases hb : 0 ≤ bound
    · obtain ⟨lastb, hlastb⟩ := rd_ok_of_le hb hble hlast
      exact findsetreg_loop_tail m p bound reg lastb hlastb _ 0 (-1) 0 (le_refl _) (by omega)
        (fun q i h1 h2 h3 => hno q i h1 h2 h3)
    · unfold findsetreg_loop
      rw [if_neg (by omega)]

/-- C30, for `protoConditionalWrite` with bound 3: register 0 is written at
offset 2, which the jump at offset 1 skips, so the result is -1; and in
`protoAddTable` register 1 is written last at offset 2, which no jump skips. -/
theorem findsetreg_result_witness :
    findsetreg luaMacros protoConditionalWrite 3 0 = .ok (-1) ∧
    findsetreg luaMacros protoAddTable 5 1 = .ok 2 :=
  ⟨((findsetreg_result luaMacros protoConditionalWrite 3 0 { opcode := .OP_RETURN1, A := 0 }
      (by decide)).2.1 2 { opcode := .OP_LOADK, A := 0, Bx := 0 } (by decide) (by decide)
      (by decide) (by decide) (by
        intro q i h1 h2 h3
        have h2b : q < 3 := h2
        have hq : q = 2 ∨ q ≥ 3 := by omega
        omega)).2 ⟨1, { opcode := .OP_JMP, sJ := 1 }, by decide, by decide, by decide, rfl,
        by decide, by decide⟩,
    by decide⟩

/-! ## The remaining hook count -/

/-- What a call of `luaG_traceexec` does to the hook mask and the counts. -/
theorem traceexec_hookcount (m : Macros) (yields : HookBehaviour) (L L1 : lua_State)
    (pc : Int) (out : Outcome) (h : luaG_traceexec m yields L pc = .ok (L1, out)) :
    L1.hookmask = L.hookmask ∧ L1.basehookcount = L.basehookcount ∧
    (L.hookmask &&& LUA_MASKCOUNT = 0 → L1.hookcount = L.hookcount) ∧
    (L.hookmask &&& LUA_MASKCOUNT ≠ 0 →
      (L.hookcount - 1 ≠ 0 ∧ L1.hookcount = L.hookcount - 1) ∨
      (L.hookcount - 1 = 0 ∧ (L1.hookcount = L.basehookcount ∨ L1.hookcount = 1))) := by
  unfold luaG_traceexec resethookcount at h
  by_cases hmask : L.hookmask &&& (LUA_MASKLINE ||| LUA_MASKCOUNT) = 0
  · simp only [hmask, if_true] at h
    cases h
    have hcm := mask_count_of_mask _ hmask
    exact ⟨rfl, rfl, fun _ => rfl, fun hne => absurd hcm hne⟩
  · by_cases hcm : L.hookmask &&& LUA_MASKCOUNT = 0 <;>
    by_cases hz : L.hookcount - 1 = 0 <;>
    by_cases hl : L.hookmask &&& LUA_MASKLINE = 0 <;>
    by_cases hflag : L.ci.callstatus.hookyield = true <;>
    simp only [if_neg hmask, ne_eq, not_false_eq_true, decide_True, decide_False,
      Bool.and_false, Bool.false_eq_true, if_false, if_true, hcm, hz, hl, hflag,
      not_true_eq_false, Bool.and_true, Bool.true_and, Bool.false_and, Bool.not_false,
      Bool.not_true, and_true, and_false, true_and, false_and, Bool.and_self,
      add_sub_cancel_right, false_implies, true_implies, false_or, or_false, implies_true]
      at h ⊢
    all_goals first
      | (cases h; exact ⟨rfl, rfl, rfl⟩)
      | (cases h; exact ⟨rfl, rfl, Or.inl rfl⟩)
      | skip
    all_goals
      rcases hrd : rd L.ci.p.code pc with e | i
      · simp only [hrd] at h
        cases h
      · cases hit : m.isIT i <;>
        simp only [hrd, hit, Bool.not_false, Bool.not_true, if_true, if_false,
          Bool.false_eq_true] at h <;>
        first
        | (generalize hA : traceexec_line m yields _ _ _ = ra at h
           rcases ra with e | La
           · cases h
           · obtain ⟨f1, f2, f3, f4, _⟩ := traceexec_line_fields _ _ _ _ _ _ hA
             simp only at h
             split_ifs at h with hs <;>
             simp only [Except.ok.injEq, Prod.mk.injEq] at h <;>
             obtain ⟨rfl, rfl⟩ := h <;>
             simp only [f1, f2, f3, luaD_hook_fields, or_true, true_or, and_self])
        | (split_ifs at h with hs <;>
           simp only [Except.ok.injEq, Prod.mk.injEq] at h <;>
           obtain ⟨rfl, rfl⟩ := h <;>
           simp only [luaD_hook_fields, or_true, true_or, and_self])

theorem traceexec_inv (m : Macros) (yields : HookBehaviour) (L L1 : lua_State)
    (pc : Int) (out : Outcome) (h : luaG_traceexec m yields L pc = .ok (L1, out))
    (hinv : HookCountInv L) : HookCountInv L1 := by
  obtain ⟨h1, h2, _, h4⟩ := traceexec_hookcount m yields L L1 pc out h
  intro hc
  rw [h1] at hc
  obtain ⟨i1, i2⟩ := hinv hc
  rw [h2]
  rcases h4 hc with ⟨_, h5⟩ | ⟨_, h5 | h5⟩ <;> omega

theorem traceexec_calls_inv (m : Macros) (yields : HookBehaviour) :
    ∀ (pcs : List Int) (L L1 : lua_State), traceexec_calls m yields L pcs = .ok L1 →
      HookCountInv L → HookCountInv L1 ∧ L1.hookmask = L.hookmask ∧
        L1.basehookcount = L.basehookcount := by
  intro pcs
  induction pcs with
  | nil =>
    intro L L1 h hinv
    unfold traceexec_calls at h
    cases h
    exact ⟨hinv, rfl, rfl⟩
  | cons pc pcs ih =>
    intro L L1 h hinv
    unfold traceexec_calls at h
    rcases hstep : luaG_traceexec m yields L pc with e | ⟨L2, out⟩
    · rw [hstep] at h
      cases h
    · rw [hstep] at h
      obtain ⟨hm, hb, _, _⟩ := traceexec_hookcount m yields L L2 pc out hstep
      have hinv2 := traceexec_inv m yields L L2 pc out hstep hinv
      cases out with
      | returned v =>
        simp only at h
        obtain ⟨r1, r2, r3⟩ := ih L2 L1 h hinv2
        exact ⟨r1, r2.trans hm, r3.trans hb⟩
      | thrown s =>
        simp only at h
        cases h
        exact ⟨hinv2, hm, hb⟩

/-- C35: invariant of the hook state.  When `lua_sethook` installs a mask with
the count bit and a base count C >= 1, the remaining count is C, so
1 <= hookcount <= C; every `luaG_traceexec` call, whatever the hooks do (also
when one yields) and whatever the flags of the frame are (also on a
hook-yielded frame), keeps the mask and the base count and keeps
1 <= hookcount <= C, and so does any sequence of calls and the resumption after
a yield; and when the count bit is not in the mask `luaG_traceexec` does not
change hookcount. -/
theorem hookcount_invariant (m : Macros) (yields : HookBehaviour) :
    (∀ (L : lua_State) (func : Option Nat) (mask count : Int), 1 ≤ count →
      (lua_sethook L func mask count).hookmask &&& LUA_MASKCOUNT ≠ 0 →
      (lua_sethook L func mask count).hookcount = count ∧
      (lua_sethook L func mask count).basehookcount = count ∧
      HookCountInv (lua_sethook L func mask count)) ∧
    (∀ (L L1 : lua_State) (pc : Int) (out : Outcome),
      luaG_traceexec m yields L pc = .ok (L1, out) →
      L1.hookmask = L.hookmask ∧ L1.basehookcount = L.basehookcount ∧
      (HookCountInv L → HookCountInv L1 ∧ HookCountInv (resume_hookyield L1)) ∧
      (L.hookmask &&& LUA_MASKCOUNT = 0 → L1.hookcount = L.hookcount)) ∧
    (∀ (pcs : List Int) (L L1 : lua_State), traceexec_calls m yields L pcs = .ok L1 →
      HookCountInv L → HookCountInv L1) := by
  refine ⟨?_, ?_, ?_⟩
  · intro L func mask count hc hm
    have h1 : (lua_sethook L func mask count).hookcount = count := by
      unfold lua_sethook resethookcount settraps
      simp only
      repeat' split
      all_goals rfl
    have h2 : (lua_sethook L func mask count).basehookcount = count := by
      unfold lua_sethook resethookcount settraps
      simp only
      repeat' split
      all_goals rfl
    refine ⟨h1, h2, ?_⟩
    intro _
    rw [h1, h2]
    exact ⟨hc, le_refl _⟩
  · intro L L1 pc out h
    obtain ⟨h1, h2, h3, _⟩ := traceexec_hookcount m yields L L1 pc out h
    refine ⟨h1, h2, ?_, h3⟩
    intro hinv
    have hinv1 := traceexec_inv m yields L L1 pc out h hinv
    exact ⟨hinv1, hinv1⟩
  · intro pcs L L1 h hinv
    exact (traceexec_calls_inv m yields pcs L L1 h hinv).1

/-- C35, for the hook installed with mask line+count and count 5 on a thread
running `protoLines`, and a call in which the line hook yields. -/
theorem hookcount_invariant_witness :
    HookCountInv (lua_sethook stateLines (some 1) 12 5) ∧
    ∀ L1 out, luaG_traceexec luaMacros alwaysYields (lua_sethook stateLines (some 1) 12 5) 0 =
      .ok (L1, out) → HookCountInv L1 :=
  ⟨((hookcount_invariant luaMacros alwaysYields).1 stateLines (some 1) 12 5 (by decide)
      (by decide)).2.2,
    fun L1 out h => (((hookcount_invariant luaMacros alwaysYields).2.1
      (lua_sethook stateLines (some 1) 12 5) L1 0 out h).2.2.1
      (((hookcount_invariant luaMacros alwaysYields).1 stateLines (some 1) 12 5 (by decide)
        (by decide)).2.2)).1⟩

/-- C36, as the claim states it, fails for a mask whose low eight bits are
zero: after `lua_sethook(L, f, 256, 0)` the callback is stored and the stored
mask is 0. -/
theorem sethook_mask_256 :
    lua_gethook (lua_sethook stateLines (some 1) 256 0) = some 1 ∧
    lua_gethookmask (lua_sethook stateLines (some 1) 256 0) = 0 := by
  decide

/-- C36, amended: after every call `lua_sethook(L, func, mask, count)`, for
every func, every count and every integer mask that is zero or not a multiple
of 256 (in particular every combination of the event bits), the stored hook
callback is null if and only if the stored hook mask (as `lua_gethookmask`
returns it) is zero. -/
theorem sethook_null_iff_mask (L : lua_State) (func : Option Nat) (mask count : Int)
    (hmask : mask = 0 ∨ mask % 256 ≠ 0) :
    lua_gethook (lua_sethook L func mask count) = none ↔
      lua_gethookmask (lua_sethook L func mask count) = 0 := by
  have hb0 : cast_byte 0 = 0 := by decide
  unfold lua_gethook lua_gethookmask lua_sethook resethookcount settraps
  by_cases hoff : func = none ∨ mask = 0
  · simp only [hoff, decide_True, if_true, ne_eq, not_true_eq_false, if_false, hb0,
      Nat.cast_zero]
  · have hm : mask ≠ 0 := fun h => hoff (Or.inr h)
    have hf : func ≠ none := fun h => hoff (Or.inl h)
    have hmod : mask % 256 ≠ 0 := by
      rcases hmask with h | h
      · exact absurd h hm
      · exact h
    have hbyte : ((cast_byte mask : Nat) : Int) ≠ 0 := by
      unfold cast_byte
      omega
    simp only [hm, hf, or_self, decide_False, Bool.false_eq_true, if_false, ne_eq,
      not_false_eq_true, if_true, hbyte]

/-- C36, amended, for the mask line+count. -/
theorem sethook_null_iff_mask_witness :
    lua_gethook (lua_sethook stateLines (some 1) 12 5) = none ↔
      lua_gethookmask (lua_sethook stateLines (some 1) 12 5) = 0 :=
  sethook_null_iff_mask stateLines (some 1) 12 5 (Or.inr (by decide))

/-! ## Classification of callers -/

theorem isEnv_kind (m : Macros) (p : Proto) (pc : Int) (i : Instruction) (isup : Bool)
    (k : String) (h : isEnv m p pc i isup = .ok k) : k = "global" ∨ k = "field" := by
  unfold isEnv at h
  simp only at h
  split at h
  · cases h
  · simp only [Except.ok.injEq] at h
    subst h
    split
    · exact Or.inl rfl
    · exact Or.inr rfl

/-- The kinds `getobjname` returns. -/
theorem getobjname_kind (m : Macros) (p : Proto) (lastpc reg : Int) (k : String)
    (name : Option String) (h : getobjname m p lastpc reg = .ok (some k, name)) :
    k ∈ ["local", "upvalue", "constant", "global", "field", "method"] := by
  unfold getobjname at h
  rcases hb : basicgetobjname m p lastpc reg with e | r
  · rw [hb] at h
    cases h
  · rw [hb] at h
    simp only at h
    rcases hk : r.kind with _ | kind
    · rw [hk] at h
      simp only at h
      split_ifs at h
      · split at h
        · cases h
        · split at h
          all_goals first
            | (cases h; simp; done)
            | (repeat' split at h
               all_goals first
                 | contradiction
                 | (simp only [Except.ok.injEq, Prod.mk.injEq, Option.some.injEq] at h
                    obtain ⟨hk1, hn1⟩ := h
                    first
                    | contradiction
                    | (subst hk1
                       first
                       | (simp; done)
                       | (rename_i henv
                          rcases isEnv_kind _ _ _ _ _ _ henv with h1 | h1 <;> rw [h1] <;> simp))))
      · cases h
    · rw [hk] at h
      simp only [Except.ok.injEq, Prod.mk.injEq, Option.some.injEq] at h
      obtain ⟨rfl, _⟩ := h
      rcases basicgetobjname_aux_kind m p _ _ _ _ hb with h1 | h1 | h1 | h1 <;>
      rw [hk] at h1 <;> simp at h1 <;> rw [h1] <;> simp

/-- C33: `funcnamefromcode` classifies by the opcode of the calling instruction
only: `OP_CALL` and `OP_TAILCALL` give `getobjname` of register A;
`OP_TFORCALL` gives kind and name "for iterator"; kind "metamethod" is
returned exactly for the instructions of the table `metaEvent` (index,
newindex, the event stored in operand C of `OP_MMBIN`, `OP_MMBINI` and
`OP_MMBINK`, unm, bnot, len, concat, eq, lt, le and close), with the name
stored for the event in `tmname`; every other opcode, including `OP_EQI` and
`OP_EQK`, gives no name. -/
theorem funcnamefromcode_classes (m : Macros) (tms : TMS) (g : global_State) (p : Proto)
    (pc : Int) (i : Instruction) (hi : rd p.code pc = .ok i) :
    (i.opcode = .OP_CALL ∨ i.opcode = .OP_TAILCALL →
      funcnamefromcode m tms g p pc = getobjname m p pc i.A) ∧
    (i.opcode = .OP_TFORCALL →
      funcnamefromcode m tms g p pc = .ok (some "for iterator", some "for iterator")) ∧
    (∀ tm, metaEvent tms i = some tm →
      funcnamefromcode m tms g p pc =
        (rd g.tmname tm).map (fun s => (some "metamethod", some (s.drop 2)))) ∧
    (i.opcode ≠ .OP_CALL → i.opcode ≠ .OP_TAILCALL → i.opcode ≠ .OP_TFORCALL →
      metaEvent tms i = none → funcnamefromcode m tms g p pc = .ok (none, none)) ∧
    (∀ name, funcnamefromcode m tms g p pc = .ok (some "metamethod", name) →
      ∃ tm, metaEvent tms i = some tm) ∧
    (i.opcode = .OP_EQI ∨ i.opcode = .OP_EQK →
      funcnamefromcode m tms g p pc = .ok (none, none)) := by
  unfold funcnamefromcode metaEvent
  simp only [hi, GET_OPCODE, GETARG_A, GETARG_C, List.mem_cons, List.mem_singleton,
    List.mem_nil_iff, or_false]
  refine ⟨?_, ?_, ?_, ?_, ?_, ?_⟩
  · rintro (h | h) <;> simp only [h]
  · intro h
    simp only [h]
  · intro tm
    cases hop : i.opcode <;> simp <;> intro h <;> subst h <;>
    (generalize rd g.tmname _ = x
     rcases x with e | s <;> rfl)
  · cases hop : i.opcode <;> simp
  · intro name
    cases hop : i.opcode <;> simp
    all_goals
      intro h
      have hk := getobjname_kind m p pc _ _ _ h
      simp at hk
  · rintro (h | h) <;> simp only [h]

/-- C33, for the `OP_CALL` of `protoCallFoo`: the name is that of register 0,
the global "foo". -/
theorem funcnamefromcode_classes_witness :
    funcnamefromcode luaMacros luaT_tms luaT_tmname protoCallFoo 1 =
      getobjname luaMacros protoCallFoo 1 0 ∧
    getobjname luaMacros protoCallFoo 1 0 = .ok (some "global", some "foo") :=
  ⟨(funcnamefromcode_classes luaMacros luaT_tms luaT_tmname protoCallFoo 1
      { opcode := .OP_CALL, A := 0, B := 1, C := 1 } (by decide)).1 (Or.inl rfl),
    by decide⟩

/-! ## Moves between registers -/

/-- C32: when the origin instruction found for `reg` is `OP_MOVE A B`: if
B < A, `basicgetobjname` returns exactly what `basicgetobjname` yields for
register B with the offset of the move as bound, and so does `getobjname` (a
chain of such moves resolves to the classification of its ultimate origin,
a table access or `OP_SELF` at the end of the chain included); if B >= A, no
kind is reported. -/
theorem basicgetobjname_move (m : Macros) (p : Proto) (pc reg w : Int) (i : Instruction)
    (hloc : luaF_getlocalname p (reg + 1) pc = none) (hw : findsetreg m p pc reg = .ok w)
    (hne : w ≠ -1) (hi : rd p.code w = .ok i) (hop : i.opcode = .OP_MOVE) :
    ((i.B : Int) < i.A →
      basicgetobjname m p pc reg = basicgetobjname m p w i.B ∧
      getobjname m p pc reg = getobjname m p w i.B) ∧
    (¬ (i.B : Int) < i.A →
      basicgetobjname m p pc reg = .ok { kind := none, name := none, pc := w } ∧
      getobjname m p pc reg = .ok (none, none)) := by
  have hA : (i.A : Int) = reg := findsetreg_move m p pc reg w i hw hne hi hop
  refine ⟨?_, ?_⟩
  · intro hlt
    have hb : basicgetobjname m p pc reg = basicgetobjname m p w i.B := by
      unfold basicgetobjname
      simp only [basicgetobjname_aux, hloc, hw, hne, ne_eq, not_false_eq_true, if_true, hi,
        GET_OPCODE, hop, GETARG_A, GETARG_B, hlt]
      exact (basicgetobjname_aux_fuel m p ((i.B : Int).toNat + 1) reg.toNat w i.B (by omega)
        (by omega)).1
    refine ⟨hb, ?_⟩
    unfold getobjname
    rw [hb]
  · intro hge
    have hb : basicgetobjname m p pc reg = .ok { kind := none, name := none, pc := w } := by
      unfold basicgetobjname
      simp only [basicgetobjname_aux, hloc, hw, hne, ne_eq, not_false_eq_true, if_true, hi,
        GET_OPCODE, hop, GETARG_A, GETARG_B, hge, if_false]
    refine ⟨hb, ?_⟩
    unfold getobjname
    simp only [hb, hne, ne_eq, not_false_eq_true, if_true, hi, GET_OPCODE, hop]

/-- C32, for the function called at offset 6 of `protoMoveChain`: register 3
is resolved through the two moves to the field access, kind "field", name
"x". -/
theorem basicgetobjname_move_witness :
    getobjname luaMacros protoMoveChain 6 3 = getobjname luaMacros protoMoveChain 5 2 ∧
    getobjname luaMacros protoMoveChain 6 3 = .ok (some "field", some "x") :=
  ⟨((basicgetobjname_move luaMacros protoMoveChain 6 3 5 { opcode := .OP_MOVE, A := 3, B := 2 }
      (by decide) (by decide) (by decide) (by decide) rfl).1 (by decide)).2,
    by decide⟩

/-! ## Line events -/

theorem luaD_hook_oldpc (y : HookBehaviour) (L : lua_State) (e l f n : Int) :
    (luaD_hook y L e l f n).oldpc = L.oldpc :=
  (luaD_hook_fields y L e l f n).2.2.2.2

/-- The line part of `luaG_traceexec`, given the answer to "jump back or new
line" and the line of the traced offset. -/
theorem traceexec_line_eq (m : Macros) (yields : HookBehaviour) (p : Proto)
    (pc line old : Int) (chg : Bool)
    (hchg : (if pc - 1 ≤ (if old < p.sizecode then old else 0) then Except.ok true
      else changedline m p (if old < p.sizecode then old else 0) (pc - 1)) = .ok chg)
    (hline : luaG_getfuncline m p (pc - 1) = .ok line) (S : lua_State) (hS : S.oldpc = old) :
    traceexec_line m yields S p pc =
      .ok { (if chg then luaD_hook yields S LUA_HOOKLINE line 0 0 else S) with
            oldpc := pc - 1 } := by
  unfold traceexec_line
  subst hS
  simp only [hchg]
  cases chg
  · rfl
  · simp only [hline, if_true]

/-- The events of a call of `luaG_traceexec` with the line bit set on a frame
that is not flagged. -/
theorem traceexec_line_events (m : Macros) (yields : HookBehaviour) (L : lua_State)
    (pc line : Int) (i : Instruction) (chg : Bool)
    (hline : L.hookmask &&& LUA_MASKLINE ≠ 0)
    (hy : L.ci.callstatus.hookyield = false)
    (hi : rd L.ci.p.code pc = .ok i)
    (hchg : (if pc ≤ (if L.oldpc < L.ci.p.sizecode then L.oldpc else 0) then Except.ok true
      else changedline m L.ci.p (if L.oldpc < L.ci.p.sizecode then L.oldpc else 0) pc) =
        .ok chg)
    (hl : luaG_getfuncline m L.ci.p pc = .ok line) :
    ∃ L1 out, luaG_traceexec m yields L pc = .ok (L1, out) ∧
      L1.hookcalls = L.hookcalls ++
        (if L.hookmask &&& LUA_MASKCOUNT ≠ 0 ∧ L.hookcount - 1 = 0 then [countEvent] else []) ++
        (if chg then [lineEvent line] else []) ∧
      L1.oldpc = pc := by
  have hmask : ¬ (L.hookmask &&& (LUA_MASKLINE ||| LUA_MASKCOUNT) = 0) :=
    fun h => hline (mask_line_of_mask _ h)
  have hspec := traceexec_line_eq m yields L.ci.p (pc + 1) line L.oldpc chg
    (by rw [add_sub_cancel_right]; exact hchg) (by rw [add_sub_cancel_right]; exact hl)
  unfold luaG_traceexec resethookcount
  cases hit : m.isIT i <;>
  by_cases hcm : L.hookmask &&& LUA_MASKCOUNT = 0 <;>
  by_cases hz : L.hookcount - 1 = 0 <;>
  simp only [if_neg hmask, hline, ne_eq, not_false_eq_true, decide_True, decide_False,
    Bool.and_false, Bool.false_eq_true, if_false, if_true, add_sub_cancel_right, hcm, hz, hit,
    hy, hi, not_true_eq_false, Bool.and_true, Bool.true_and, Bool.false_and, Bool.not_false,
    Bool.not_true, and_true, and_false, true_and, false_and, and_self, List.append_nil] <;>
  (rw [hspec]
   · simp only [add_sub_cancel_right]
     cases chg <;>
     simp only [Bool.false_eq_true, if_false, if_true] <;>
     split_ifs <;>
     exact ⟨_, _, rfl, by simp [luaD_hook_hookcalls, countEvent, lineEvent], rfl⟩
   · first
     | rfl
     | exact luaD_hook_oldpc _ _ _ _ _ _)

/-- On a well-formed prototype whose checkpoints sit at the sentinels, with or
without debug information, `changedline` tells whether the lines differ. -/
theorem changedline_lines (m : Macros) (f : Proto) (hwf : WellFormed m f)
    (hcs : CheckpointsAtSentinels m f) (oldpc newpc : Nat) (hlt : oldpc < newpc)
    (hnew : newpc < f.code.length) :
    ∃ a b, luaG_getfuncline m f oldpc = .ok a ∧ luaG_getfuncline m f newpc = .ok b ∧
      changedline m f oldpc newpc = .ok (decide (a ≠ b)) := by
  rcases hli : f.lineinfo with _ | li
  · refine ⟨-1, -1, ?_, ?_, ?_⟩
    · unfold luaG_getfuncline
      simp only [hli]
    · unfold luaG_getfuncline
      simp only [hli]
    · unfold changedline
      simp only [hli]
      rfl
  · obtain ⟨a, b, h1, h2, h3, _⟩ := changedline_char m f hwf hcs li hli oldpc newpc hlt hnew
    exact ⟨a, b, h1, h2, h3⟩

theorem getfuncline_total (m : Macros) (f : Proto) (hwf : WellFormed m f) (t : Nat)
    (hlt : t < f.code.length) : ∃ line, luaG_getfuncline m f t = .ok line := by
  cases hli : f.lineinfo with
  | none => exact ⟨-1, by unfold luaG_getfuncline; rw [hli]⟩
  | some li =>
    obtain ⟨b, s, _, _, _, hl⟩ := getfuncline_char m f hwf li hli t hlt
    exact ⟨_, hl⟩

/-- C31, as the claim states it, fails on a well-formed prototype with a
checkpoint at an ordinary delta: in `protoStraySameLine` the offsets 0 and 1
are on the same line 1, offset 0 was traced last, and tracing offset 1
delivers a line event. -/
theorem line_event_stray_checkpoint :
    WellFormed luaMacros protoStraySameLine ∧
    luaG_getfuncline luaMacros protoStraySameLine 0 = .ok 1 ∧
    luaG_getfuncline luaMacros protoStraySameLine 1 = .ok 1 ∧
    (luaG_traceexec luaMacros neverYields stateStray 1).map
      (fun r => (r.1.hookcalls, r.1.oldpc)) = .ok ([lineEvent 1], 1) := by
  refine ⟨?_, by decide, by decide, by decide⟩
  unfold WellFormed
  decide

/-- C31, amended: with the line bit in the hook mask, the frame not flagged
hook-yielded and a well-formed prototype in which every checkpoint of
`abslineinfo` sits at an `ABSLINEINFO` entry of `lineinfo`: `luaG_traceexec`
delivers a line event if and only if the traced offset npci is <= the last
traced offset (`L->oldpc`, taken as 0 when it is >= sizecode) or
`luaG_getfuncline(p, npci)` differs from `luaG_getfuncline(p, oldpc)`; the event
carries `luaG_getfuncline(p, npci)`; if a count event is due in the same call
it is delivered before the line event; and in every case `L->oldpc` equals
npci afterwards. -/
theorem line_event_iff (m : Macros) (yields : HookBehaviour) (L : lua_State) (pc : Int)
    (hwf : WellFormed m L.ci.p) (hcs : CheckpointsAtSentinels m L.ci.p)
    (hline : L.hookmask &&& LUA_MASKLINE ≠ 0) (hy : L.ci.callstatus.hookyield = false)
    (hpc0 : 0 ≤ pc) (hpc : pc < L.ci.p.sizecode) (hold : 0 ≤ L.oldpc) :
    ∃ L1 out lnew lold,
      luaG_getfuncline m L.ci.p pc = .ok lnew ∧
      luaG_getfuncline m L.ci.p (if L.oldpc < L.ci.p.sizecode then L.oldpc else 0) = .ok lold ∧
      luaG_traceexec m yields L pc = .ok (L1, out) ∧
      L1.hookcalls = L.hookcalls ++
        (if L.hookmask &&& LUA_MASKCOUNT ≠ 0 ∧ L.hookcount - 1 = 0 then [countEvent] else []) ++
        (if pc ≤ (if L.oldpc < L.ci.p.sizecode then L.oldpc else 0) ∨ lnew ≠ lold
          then [lineEvent lnew] else []) ∧
      L1.oldpc = pc := by
  obtain ⟨i, hi⟩ := rd_ok_of_lt hpc0 hpc
  generalize hO : (if L.oldpc < L.ci.p.sizecode then L.oldpc else 0) = old
  have hO0 : 0 ≤ old := by rw [← hO]; split <;> omega
  have hO1 : old < L.ci.p.sizecode := by rw [← hO]; split <;> omega
  have hsc : L.ci.p.sizecode = (L.ci.p.code.length : Int) := rfl
  obtain ⟨n, rfl⟩ : ∃ n : Nat, pc = n := ⟨pc.toNat, by omega⟩
  obtain ⟨o, rfl⟩ : ∃ o : Nat, old = o := ⟨old.toNat, by omega⟩
  by_cases hback : (n : Int) ≤ (o : Int)
  · obtain ⟨lnew, hnew⟩ := getfuncline_total m L.ci.p hwf n (by rw [hsc] at hpc; exact_mod_cast hpc)
    obtain ⟨lold, hlold⟩ := getfuncline_total m L.ci.p hwf o (by rw [hsc] at hO1; exact_mod_cast hO1)
    obtain ⟨L1, out, h1, h2, h3⟩ := traceexec_line_events m yields L n lnew i true hline hy hi
      (by rw [hO, if_pos hback]) hnew
    refine ⟨L1, out, lnew, lold, hnew, hlold, h1, ?_, h3⟩
    rw [h2, if_pos (Or.inl hback)]
    rfl
  · obtain ⟨a, b, ha, hb, hc⟩ := changedline_lines m L.ci.p hwf hcs o n (by omega)
      (by rw [hsc] at hpc; exact_mod_cast hpc)
    obtain ⟨L1, out, h1, h2, h3⟩ := traceexec_line_events m yields L n b i (decide (a ≠ b))
      hline hy hi (by rw [hO, if_neg hback]; exact hc) hb
    refine ⟨L1, out, b, a, hb, ha, h1, ?_, h3⟩
    rw [h2]
    by_cases hab : a = b
    · have hba : ¬ (b ≠ a) := fun h => h hab.symm
      simp [hab, hback]
    · have hba : b ≠ a := fun h => hab h.symm
      simp [hab, hba]

/-- C31, amended, in `stateLoop` at offset 2: offset 1 (line 1) was traced
last, offset 2 is on line 7. -/
theorem line_event_iff_witness :
    WellFormed luaMacros stateLoop.ci.p ∧ CheckpointsAtSentinels luaMacros stateLoop.ci.p ∧
    ∃ L1 out lnew lold,
      luaG_getfuncline luaMacros stateLoop.ci.p 2 = .ok lnew ∧
      luaG_getfuncline luaMacros stateLoop.ci.p
        (if stateLoop.oldpc < stateLoop.ci.p.sizecode then stateLoop.oldpc else 0) = .ok lold ∧
      luaG_traceexec luaMacros neverYields stateLoop 2 = .ok (L1, out) ∧
      L1.hookcalls = stateLoop.hookcalls ++
        (if stateLoop.hookmask &&& LUA_MASKCOUNT ≠ 0 ∧ stateLoop.hookcount - 1 = 0
          then [countEvent] else []) ++
        (if (2 : Int) ≤ (if stateLoop.oldpc < stateLoop.ci.p.sizecode then stateLoop.oldpc else 0) ∨
            lnew ≠ lold
          then [lineEvent lnew] else []) ∧
      L1.oldpc = 2 :=
  ⟨by unfold WellFormed; decide, by unfold CheckpointsAtSentinels; decide,
   line_event_iff luaMacros neverYields stateLoop 2 (by unfold WellFormed; decide)
    (by unfold CheckpointsAtSentinels; decide) (by decide) (by decide) (by decide) (by decide)
    (by decide)⟩

/-! ## Valid lines -/

/-- C34, as the claim states it, fails on a well-formed prototype with a
checkpoint at an ordinary delta: in `protoStray` the incremental decoding gives
the lines 1, 2, 3 while `luaG_getfuncline` gives 1, 100, 101. -/
theorem collectvalidlines_stray_checkpoint :
    WellFormed luaMacros protoStray ∧ protoStray.lineinfo = some [0, 1, 1] ∧
    nextline_iter luaMacros protoStray [0, 1, 1] 1 = .ok 2 ∧
    luaG_getfuncline luaMacros protoStray 1 = .ok 100 ∧
    collectvalidlines luaMacros (some (.L protoStray 0)) = .ok (.activelines [1, 2, 3]) ∧
    [luaG_getfuncline luaMacros protoStray 0, luaG_getfuncline luaMacros protoStray 1,
      luaG_getfuncline luaMacros protoStray 2] = [.ok 1, .ok 100, .ok 101] := by
  refine ⟨?_, rfl, by decide, by decide, by decide, by decide⟩
  unfold WellFormed
  decide

theorem sumLineinfo_succ (li : List Int) (i : Nat) (d : Int) (hd : li[i + 1]? = some d) :
    sumLineinfo li i (i + 1) = d := by
  unfold sumLineinfo
  obtain ⟨hlen, _⟩ := List.getElem?_eq_some.mp hd
  have h1 : li.take (i + 1 + 1) = li.take (i + 1) ++ [d] := by
    rw [List.take_succ, hd]
    rfl
  have h2 : (li.take (i + 1)).length = i + 1 := by
    rw [List.length_take]
    omega
  rw [h1, List.drop_left' h2]
  simp

theorem getfuncline_zero (m : Macros) (f : Proto) (hcs : CheckpointsAtSentinels m f)
    (hnn : ∀ e ∈ f.abslineinfo, 0 ≤ e.pc)
    (li : List Int) (hli : f.lineinfo = some li) (d : Int) (hd : li[0]? = some d)
    (hne : d ≠ m.ABSLINEINFO) :
    luaG_getfuncline m f 0 = .ok (f.linedefined + d) := by
  have hrd : rd li 0 = .ok d := rd_of_getElem? hd
  have hbase : getbaseline m f 0 = .ok (f.linedefined, -1) := by
    unfold getbaseline
    rcases habs : f.abslineinfo with _ | ⟨first, rest⟩
    · simp [Proto.sizeabslineinfo, habs]
    · have hmem : first ∈ f.abslineinfo := by rw [habs]; exact List.mem_cons_self _ _
      have h0 : 0 ≤ first.pc := hnn first hmem
      have h1 : first.pc ≠ 0 := by
        intro h
        have := hcs li hli first hmem
        rw [h, hrd] at this
        exact hne (by injection this)
      have hlt : (0 : Int) < first.pc := by omega
      have hr0 : rd (first :: rest) 0 = .ok first :=
        rd_of_getElem? (k := 0) (by simp)
      simp [Proto.sizeabslineinfo, habs, hr0, hlt]
  unfold luaG_getfuncline
  simp only [hli, hbase]
  have hfuel : (((0 : Int) - -1).toNat + 1) = 2 := by decide
  rw [hfuel]
  unfold getfuncline_walk
  have hrd1 : rd li (-1 + 1) = .ok d := hrd
  simp only [hrd1, if_neg hne]
  unfold getfuncline_walk
  simp

theorem nextline_zero (m : Macros) (f : Proto) (hwf : WellFormed m f)
    (hcs : CheckpointsAtSentinels m f) (li : List Int) (hli : f.lineinfo = some li)
    (h0 : 0 < li.length) :
    nextline m f li f.linedefined 0 = luaG_getfuncline m f 0 := by
  obtain ⟨d, hd⟩ := getElem?_of_lt h0
  unfold nextline
  rw [show rd li 0 = .ok d from rd_of_getElem? hd]
  by_cases hne : d = m.ABSLINEINFO
  · simp [hne]
  · simp only [ne_eq, hne, not_false_eq_true, if_true]
    exact (getfuncline_zero m f hcs hwf.2.2.2.2.1 li hli d hd hne).symm

theorem nextline_succ (m : Macros) (f : Proto) (hwf : WellFormed m f)
    (hcs : CheckpointsAtSentinels m f) (li : List Int) (hli : f.lineinfo = some li)
    (i : Nat) (hi : i + 1 < li.length) (a : Int) (ha : luaG_getfuncline m f i = .ok a) :
    nextline m f li a ((i : Int) + 1) = luaG_getfuncline m f ((i : Int) + 1) := by
  have hlen : li.length = f.code.length := hwf.2.2.1 li hli
  obtain ⟨d, hd⟩ := getElem?_of_lt hi
  have hrd : rd li ((i : Int) + 1) = .ok d := by
    have := rd_of_getElem? hd
    exact_mod_cast this
  unfold nextline
  rw [hrd]
  by_cases hne : d = m.ABSLINEINFO
  · simp [hne]
  · simp only [ne_eq, hne, not_false_eq_true, if_true]
    obtain ⟨a', b, h1, h2, h3⟩ := funcline_diff m f hwf hcs li hli i (i + 1) (by omega)
      (by omega) (by
        intro q hq1 hq2
        have : q = i + 1 := by omega
        rw [this, hd]
        intro h
        exact hne (by injection h))
    rw [ha] at h1
    have haa : a = a' := by injection h1
    rw [sumLineinfo_succ li i d hd] at h3
    have h2' : luaG_getfuncline m f ((i : Int) + 1) = .ok b := by exact_mod_cast h2
    rw [h2']
    congr 1
    omega

theorem nextline_iter_eq (m : Macros) (f : Proto) (hwf : WellFormed m f)
    (hcs : CheckpointsAtSentinels m f) (li : List Int) (hli : f.lineinfo = some li) :
    ∀ i : Nat, i < li.length → nextline_iter m f li i = luaG_getfuncline m f (i : Int) := by
  have hlen : li.length = f.code.length := hwf.2.2.1 li hli
  intro i
  induction i with
  | zero =>
    intro h0
    exact nextline_zero m f hwf hcs li hli h0
  | succ i ih =>
    intro hi
    obtain ⟨a, ha⟩ := getfuncline_total m f hwf i (by omega)
    unfold nextline_iter
    rw [ih (by omega), ha]
    simp only
    rw [nextline_succ m f hwf hcs li hli i hi a ha]
    push_cast
    rfl

theorem collectvalidlines_loop_lines (m : Macros) (f : Proto) (hwf : WellFormed m f)
    (hcs : CheckpointsAtSentinels m f) (li : List Int) (hli : f.lineinfo = some li) :
    ∀ (fuel i : Nat) (cur : Int) (acc : List Int), i ≤ li.length → li.length - i < fuel →
      (i = 0 → cur = f.linedefined) →
      (∀ k : Nat, i = k + 1 → luaG_getfuncline m f (k : Int) = .ok cur) →
      ∃ lines, collectvalidlines_loop m f li fuel (i : Int) cur acc = .ok (acc ++ lines) ∧
        lines.map Except.ok =
          (List.range' i (li.length - i)).map (fun j : Nat => luaG_getfuncline m f (j : Int)) := by
  have hlen : li.length = f.code.length := hwf.2.2.1 li hli
  intro fuel
  induction fuel with
  | zero => intro i cur acc _ h; omega
  | succ fuel ih =>
    intro i cur acc hile hfuel h0 hk
    unfold collectvalidlines_loop
    by_cases hi : i < li.length
    · have hi' : (i : Int) < (li.length : Int) := by exact_mod_cast hi
      rw [if_pos hi']
      obtain ⟨l, hl⟩ := getfuncline_total m f hwf i (by omega)
      have hnext : nextline m f li cur (i : Int) = .ok l := by
        rcases i with _ | k
        · rw [h0 rfl]
          have := nextline_zero m f hwf hcs li hli hi
          exact this.trans hl
        · have := nextline_succ m f hwf hcs li hli k hi cur (hk k rfl)
          push_cast
          rw [this]
          exact_mod_cast hl
      rw [hnext]
      simp only
      obtain ⟨lines, h1, h2⟩ := ih (i + 1) l (acc ++ [l]) (by omega) (by omega) (by omega)
        (by
          intro k hk1
          have : k = i := by omega
          rw [this]
          exact hl)
      refine ⟨l :: lines, ?_, ?_⟩
      · have hc : ((i + 1 : Nat) : Int) = (i : Int) + 1 := by push_cast; rfl
        rw [hc] at h1
        rw [h1]
        simp
      · have hr : li.length - i = (li.length - (i + 1)) + 1 := by omega
        rw [hr, List.range'_succ, List.map_cons, List.map_cons, h2, hl]
    · have hi' : ¬ ((i : Int) < (li.length : Int)) := by
        intro h
        exact hi (by exact_mod_cast h)
      rw [if_neg hi']
      refine ⟨[], by simp, ?_⟩
      have : li.length - i = 0 := by omega
      rw [this]
      rfl

theorem collectvalidlines_eq (m : Macros) (p : Proto) (n : Nat) (hwf : WellFormed m p)
    (hcs : CheckpointsAtSentinels m p) (li : List Int) (hli : p.lineinfo = some li)
    (hva : p.is_vararg = true → ∃ i0, rd p.code 0 = .ok i0 ∧ GET_OPCODE i0 = .OP_VARARGPREP) :
    ∃ lines, collectvalidlines m (some (.L p n)) = .ok (.activelines lines) ∧
      lines.map Except.ok =
        (List.range' (firstMarked p) (li.length - firstMarked p)).map
          (fun j : Nat => luaG_getfuncline m p (j : Int)) := by
  have hlen : li.length = p.code.length := hwf.2.2.1 li hli
  unfold collectvalidlines firstMarked
  simp only [hli]
  rcases hv : p.is_vararg with _ | _
  · obtain ⟨lines, h1, h2⟩ := collectvalidlines_loop_lines m p hwf hcs li hli (li.length + 1) 0
      p.linedefined [] (by omega) (by omega) (fun _ => rfl) (by intro k hk; omega)
    refine ⟨lines, ?_, by simpa using h2⟩
    have h1' : collectvalidlines_loop m p li (li.length + 1) 0 p.linedefined [] = .ok lines := by
      simpa using h1
    simp [h1']
  · obtain ⟨i0, hi0, hop⟩ := hva hv
    have hpos : 0 < li.length := by
      obtain ⟨_, h⟩ := rd_eq_ok hi0
      obtain ⟨h, _⟩ := List.getElem?_eq_some.mp h
      have : (0 : Int).toNat = 0 := rfl
      omega
    obtain ⟨c, hc⟩ := getfuncline_total m p hwf 0 (by omega)
    have hc0 : luaG_getfuncline m p 0 = .ok c := hc
    have hnext : nextline m p li p.linedefined 0 = .ok c := by
      rw [nextline_zero m p hwf hcs li hli hpos]
      exact hc0
    obtain ⟨lines, h1, h2⟩ := collectvalidlines_loop_lines m p hwf hcs li hli (li.length + 1) 1
      c [] (by omega) (by omega) (by intro h; omega) (by
        intro k hk
        have : k = 0 := by omega
        rw [this]
        exact hc)
    refine ⟨lines, ?_, by simpa using h2⟩
    have h1' : collectvalidlines_loop m p li (li.length + 1) 1 c [] = .ok lines := by
      simpa using h1
    simp [hi0, hop, hnext, h1']

/-- C34, amended: for every well-formed prototype with debug information in
which every checkpoint of `abslineinfo` sits at an `ABSLINEINFO` entry of
`lineinfo` (the first instruction of a vararg function being `OP_VARARGPREP`,
as `collectvalidlines` asserts), the incremental decoding used to collect the
valid lines (start from `linedefined` and apply `nextline` at offsets 0, 1, 2,
... in order) yields at each offset i exactly `luaG_getfuncline(p, i)`;
consequently `collectvalidlines` returns, and the lines it marks are, in
order, `luaG_getfuncline(p, i)` for 0 <= i < sizelineinfo for a non-vararg
function and for 1 <= i < sizelineinfo for a vararg function. -/
theorem collectvalidlines_lines (m : Macros) (p : Proto) (n : Nat) (hwf : WellFormed m p)
    (hcs : CheckpointsAtSentinels m p) (li : List Int) (hli : p.lineinfo = some li)
    (hva : p.is_vararg = true → ∃ i0, rd p.code 0 = .ok i0 ∧ GET_OPCODE i0 = .OP_VARARGPREP) :
    (∀ i : Nat, i < li.length → ∃ line, nextline_iter m p li i = .ok line ∧
      luaG_getfuncline m p (i : Int) = .ok line) ∧
    ∃ lines, collectvalidlines m (some (.L p n)) = .ok (.activelines lines) ∧
      lines.map Except.ok =
        (List.range' (firstMarked p) (li.length - firstMarked p)).map
          (fun j : Nat => luaG_getfuncline m p (j : Int)) ∧
      ∀ l, l ∈ lines ↔
        ∃ i : Nat, firstMarked p ≤ i ∧ i < li.length ∧ luaG_getfuncline m p (i : Int) = .ok l := by
  have hlen : li.length = p.code.length := hwf.2.2.1 li hli
  constructor
  · intro i hi
    obtain ⟨line, hl⟩ := getfuncline_total m p hwf i (by omega)
    exact ⟨line, by rw [nextline_iter_eq m p hwf hcs li hli i hi]; exact hl, hl⟩
  · obtain ⟨lines, h1, h2⟩ := collectvalidlines_eq m p n hwf hcs li hli hva
    refine ⟨lines, h1, h2, ?_⟩
    intro l
    have hmem : l ∈ lines ↔ Except.ok l ∈ lines.map (Except.ok : Int → Except Fault Int) := by
      rw [List.mem_map]
      constructor
      · intro h
        exact ⟨l, h, rfl⟩
      · rintro ⟨a, ha, hal⟩
        have : a = l := by injection hal
        rw [← this]
        exact ha
    rw [hmem, h2, List.mem_map]
    have hfm : firstMarked p ≤ 1 := by unfold firstMarked; split <;> omega
    constructor
    · rintro ⟨i, hi, hil⟩
      rw [List.mem_range'_1] at hi
      exact ⟨i, hi.1, by omega, hil⟩
    · rintro ⟨i, hi1, hi2, hil⟩
      exact ⟨i, by rw [List.mem_range'_1]; omega, hil⟩

/-- C34, amended, on the vararg prototype `protoVarargLines`: the lines marked
are those of the offsets 1, 2 and 3. -/
theorem collectvalidlines_lines_witness :
    WellFormed luaMacros protoVarargLines ∧ CheckpointsAtSentinels luaMacros protoVarargLines ∧
    (∀ i : Nat, i < 4 → ∃ line, nextline_iter luaMacros protoVarargLines [1, 0, -128, 1] i = .ok line ∧
      luaG_getfuncline luaMacros protoVarargLines (i : Int) = .ok line) ∧
    ∃ lines, collectvalidlines luaMacros (some (.L protoVarargLines 0)) = .ok (.activelines lines) ∧
      lines.map Except.ok =
        (List.range' (firstMarked protoVarargLines) (4 - firstMarked protoVarargLines)).map
          (fun j : Nat => luaG_getfuncline luaMacros protoVarargLines (j : Int)) ∧
      ∀ l, l ∈ lines ↔
        ∃ i : Nat, firstMarked protoVarargLines ≤ i ∧ i < 4 ∧
          luaG_getfuncline luaMacros protoVarargLines (i : Int) = .ok l :=
  ⟨by unfold WellFormed; decide, by unfold CheckpointsAtSentinels; decide,
   collectvalidlines_lines luaMacros protoVarargLines 0 (by unfold WellFormed; decide)
    (by unfold CheckpointsAtSentinels; decide) [1, 0, -128, 1] rfl
    (fun _ => ⟨{ opcode := .OP_VARARGPREP, A := 0 }, by decide, by decide⟩)⟩

/-! ## The last level and the traceback -/

theorem cast_int_of_range (x : Int) (h0 : 0 ≤ x) (h1 : x < 2147483648) : cast_int x = x := by
  unfold cast_int
  have : x % 4294967296 = x := Int.emod_eq_of_lt h0 (by omega)
  rw [this, if_pos h1]

theorem lua_getstack_status (L : lua_State) (level : Int) (ar : lua_Debug) :
    (lua_getstack L level ar).1 ≠ 0 ↔ 0 ≤ level ∧ level < L.callers.length := by
  rw [lua_getstack_eq]
  by_cases h : 0 ≤ level ∧ level < L.callers.length
  · simp [h]
  · simp [h]

theorem lastlevel_bound_spec (L : lua_State) (hmax : (L.callers.length : Int) < 536870912) :
    ∀ (fuel : Nat) (li le : Int) (ar : lua_Debug), 1 ≤ li → li ≤ le → li ≤ L.callers.length →
      le ≤ 2 * L.callers.length → ((L.callers.length : Int) - le).toNat < fuel →
      ∃ li1 le1 ar1, lastlevel_bound L fuel li le ar = .ok (li1, le1, ar1) ∧
        1 ≤ li1 ∧ li1 ≤ le1 ∧ li1 ≤ L.callers.length ∧ (L.callers.length : Int) ≤ le1 ∧
        le1 ≤ 2 * L.callers.length := by
  intro fuel
  induction fuel with
  | zero => intro li le ar _ _ _ _ h; omega
  | succ fuel ih =>
    intro li le ar h1 h2 h3 h4 h5
    unfold lastlevel_bound
    simp only
    by_cases hs : (lua_getstack L le ar).1 ≠ 0
    · rw [if_pos hs]
      have hlt := (lua_getstack_status L le ar).mp hs
      rw [cast_int_of_range (le * 2) (by omega) (by omega)]
      exact ih le (le * 2) _ (by omega) (by omega) (by omega) (by omega) (by omega)
    · rw [if_neg hs]
      have hge : ¬ (0 ≤ le ∧ le < L.callers.length) := fun h =>
        hs ((lua_getstack_status L le ar).mpr h)
      exact ⟨li, le, _, rfl, h1, h2, h3, by omega, h4⟩

theorem lastlevel_search_spec (L : lua_State) (hmax : (L.callers.length : Int) < 536870912) :
    ∀ (fuel : Nat) (li le : Int) (ar : lua_Debug), 1 ≤ li → li ≤ L.callers.length →
      (L.callers.length : Int) ≤ le → le ≤ 2 * L.callers.length → (le - li).toNat < fuel →
      ∃ li1 ar1, lastlevel_search L fuel li le ar = .ok (li1, (L.callers.length : Int), ar1) := by
  intro fuel
  induction fuel with
  | zero => intro li le ar _ _ _ _ h; omega
  | succ fuel ih =>
    intro li le ar h1 h2 h3 h4 h5
    unfold lastlevel_search
    by_cases hlt : li < le
    · rw [if_pos hlt]
      simp only
      rw [cast_int_of_range (li + le) (by omega) (by omega)]
      have hm : (li + le).tdiv 2 = (li + le) / 2 := Int.tdiv_eq_ediv (by omega) (by omega)
      rw [hm]
      by_cases hs : (lua_getstack L ((li + le) / 2) ar).1 ≠ 0
      · rw [if_pos hs]
        have hr := (lua_getstack_status L _ ar).mp hs
        exact ih _ le _ (by omega) (by omega) h3 h4 (by omega)
      · rw [if_neg hs]
        have hge : ¬ (0 ≤ (li + le) / 2 ∧ (li + le) / 2 < L.callers.length) := fun h =>
          hs ((lua_getstack_status L _ ar).mpr h)
        exact ih li _ _ h1 h2 (by omega) (by omega) (by omega)
    · rw [if_neg hlt]
      have : le = L.callers.length := by omega
      exact ⟨li, ar, by rw [this]⟩

theorem lastlevel_eq (L : lua_State) (hd : 1 ≤ L.callers.length)
    (hmax : L.callers.length < 536870912) :
    lastlevel L = .ok ((L.callers.length : Int) - 1) := by
  have hmax' : (L.callers.length : Int) < 536870912 := by exact_mod_cast hmax
  obtain ⟨li, le, ar, hb, h1, h2, h3, h4, h5⟩ := lastlevel_bound_spec L hmax'
    (L.callers.length + 1) 1 1 {} (by omega) (by omega) (by omega) (by omega) (by omega)
  obtain ⟨li1, ar1, hs⟩ := lastlevel_search_spec L hmax' ((le - li).toNat + 1) li le ar h1 h3 h4
    h5 (by omega)
  unfold lastlevel
  rw [hb]
  simp only
  rw [hs]

/-- C37: for every call stack with d >= 1 activation records above the base
record (d below 2^29, so that the `int` arithmetic of the search is exact),
`lua_getstack` succeeds exactly for the levels 0..d-1, and `lastlevel`
terminates and returns d-1, the greatest valid level: d is the smallest
non-negative level at which `lua_getstack` fails. -/
theorem lastlevel_spec (L : lua_State) (hd : 1 ≤ L.callers.length)
    (hmax : L.callers.length < 536870912) :
    (∀ (level : Int) (ar : lua_Debug),
      (lua_getstack L level ar).1 ≠ 0 ↔ 0 ≤ level ∧ level < L.callers.length) ∧
    lastlevel L = .ok ((L.callers.length : Int) - 1) ∧
    (∀ ar, (lua_getstack L ((L.callers.length : Int) - 1) ar).1 ≠ 0) ∧
    (∀ ar, (lua_getstack L (L.callers.length : Int) ar).1 = 0) := by
  refine ⟨lua_getstack_status L, lastlevel_eq L hd hmax, ?_, ?_⟩
  · intro ar
    exact (lua_getstack_status L _ ar).mpr ⟨by omega, by omega⟩
  · intro ar
    by_contra h
    have := (lua_getstack_status L _ ar).mp h
    omega

/-- C37, on the thread `stateThreeFrames`, with three activation records above
the base record: the last level is 2. -/
theorem lastlevel_spec_witness :
    1 ≤ stateThreeFrames.callers.length ∧ lastlevel stateThreeFrames = .ok 2 :=
  ⟨by decide, (lastlevel_spec stateThreeFrames (by decide) (by decide)).2.1⟩

/-- C38 on the thread `stateDeep`, whose last level is 22, from level 0: the
traceback shows the levels 0..9 and 12..22 and prints "(skipping 1 levels)",
while two levels, 10 and 11, do not appear. -/
theorem traceback_skipping_count :
    lastlevel stateDeep = .ok 22 ∧
    luaL_traceback stateDeep none 0 = .ok
      ([TraceItem.text "stack traceback:"] ++
        (List.range' 0 10).map (fun l => TraceItem.frame (some l)) ++
        [TraceItem.skipping 1] ++
        (List.range' 12 11).map (fun l => TraceItem.frame (some l))) ∧
    (List.range' 0 23).filter (fun l => l ∉ List.range' 0 10 ++ List.range' 12 11) = [10, 11] := by
  refine ⟨by decide, by decide, by decide⟩

theorem luaL_traceback_loop_frames (L1 : lua_State) (last : Int) :
    ∀ (k fuel l : Nat) (c : Int) (ar : lua_Debug) (b : List TraceItem),
      l + k ≤ L1.callers.length → (c < 0 ∨ (k : Int) ≤ c) →
      ∃ ar1, luaL_traceback_loop L1 last (fuel + k) (l : Int) c ar b =
        luaL_traceback_loop L1 last fuel ((l + k : Nat) : Int) (c - k) ar1
          (b ++ (List.range' l k).map (fun j => TraceItem.frame (some j))) := by
  intro k
  induction k with
  | zero =>
    intro fuel l c ar b _ _
    exact ⟨ar, by simp⟩
  | succ k ih =>
    intro fuel l c ar b hl hc
    have hst : lua_getstack L1 (l : Int) ar = (1, { ar with i_ci := some l }) := by
      rw [lua_getstack_eq, if_pos ⟨by omega, by omega⟩]
      simp
    obtain ⟨ar1, h1⟩ := ih fuel (l + 1) (c - 1) { ar with i_ci := some l }
      (b ++ [TraceItem.frame (some l)]) (by omega) (by omega)
    refine ⟨ar1, ?_⟩
    have hf : fuel + (k + 1) = (fuel + k) + 1 := by omega
    have hc0 : c ≠ 0 := by omega
    have hcast : ((l : Int) + 1) = ((l + 1 : Nat) : Int) := by push_cast; rfl
    have hstep : luaL_traceback_loop L1 last (fuel + k + 1) (l : Int) c ar b =
        luaL_traceback_loop L1 last (fuel + k) ((l + 1 : Nat) : Int) (c - 1)
          { ar with i_ci := some l } (b ++ [TraceItem.frame (some l)]) := by
      conv_lhs => unfold luaL_traceback_loop
      simp only [hst]
      rw [if_pos (by decide), if_neg hc0, hcast]
    rw [hf, hstep, h1]
    have h2 : l + 1 + k = l + (k + 1) := by omega
    have h3 : c - 1 - (k : Int) = c - ((k + 1 : Nat) : Int) := by push_cast; omega
    rw [h2, h3, List.range'_succ]
    simp

theorem luaL_traceback_loop_skip (L1 : lua_State) (last : Int) (fuel l : Nat) (ar : lua_Debug)
    (b : List TraceItem) (hl : l < L1.callers.length) :
    ∃ ar1, luaL_traceback_loop L1 last (fuel + 1) (l : Int) 0 ar b =
      luaL_traceback_loop L1 last fuel ((l : Int) + 1 + (last - ((l : Int) + 1) - LEVELS2 + 1)) (-1)
        ar1 (b ++ [TraceItem.skipping (last - ((l : Int) + 1) - LEVELS2 + 1)]) := by
  have hst : lua_getstack L1 (l : Int) ar = (1, { ar with i_ci := some l }) := by
    rw [lua_getstack_eq, if_pos ⟨by omega, by omega⟩]
    simp
  refine ⟨{ ar with i_ci := some l }, ?_⟩
  conv_lhs => unfold luaL_traceback_loop
  simp only [hst]
  rw [if_pos trivial]
  rfl

theorem luaL_traceback_loop_end (L1 : lua_State) (last : Int) (fuel : Nat) (level c : Int)
    (ar : lua_Debug) (b : List TraceItem) (hl : (L1.callers.length : Int) ≤ level) :
    luaL_traceback_loop L1 last (fuel + 1) level c ar b = .ok b := by
  have hst : lua_getstack L1 level ar = (0, ar) := by
    rw [lua_getstack_eq, if_neg (by omega)]
  unfold luaL_traceback_loop
  simp only [hst]
  rw [if_neg (by decide)]

/-- A truncated traceback from level `s`: the levels `s..s+9` and the last 11
levels are shown, the number printed is `last - s - 21`, and the levels
`s+10..last-11`, which are `last - s - 20`, are not shown. -/
theorem luaL_traceback_truncated (L1 : lua_State) (msg : Option String) (s : Nat)
    (hmax : L1.callers.length < 536870912)
    (htr : ((L1.callers.length : Int) - 1) - s > LEVELS1 + LEVELS2) :
    luaL_traceback L1 msg s = .ok
      ((match msg with
        | some t => [TraceItem.text t, TraceItem.text "\n"]
        | none => []) ++ [TraceItem.text "stack traceback:"] ++
        (List.range' s 10).map (fun j => TraceItem.frame (some j)) ++
        [TraceItem.skipping ((L1.callers.length : Int) - 1 - s - 21)] ++
        (List.range' (L1.callers.length - 11) 11).map (fun j => TraceItem.frame (some j))) ∧
    List.range' s (L1.callers.length - s) =
      List.range' s 10 ++ List.range' (s + 10) (L1.callers.length - s - 21) ++
        List.range' (L1.callers.length - 11) 11 ∧
    ((List.range' (s + 10) (L1.callers.length - s - 21)).length : Int) =
      ((L1.callers.length : Int) - 1 - s - 21) + 1 := by
  have hL1 : LEVELS1 = 10 := rfl
  have hL2 : LEVELS2 = 11 := rfl
  rw [hL1, hL2] at htr
  refine ⟨?_, ?_, ?_⟩
  · unfold luaL_traceback
    rw [lastlevel_eq L1 (by omega) hmax]
    simp only
    rw [hL1, hL2, if_pos (by omega)]
    generalize ((match msg with
        | some t => [TraceItem.text t, TraceItem.text "\n"]
        | none => []) ++ [TraceItem.text "stack traceback:"]) = b
    obtain ⟨f, hf⟩ : ∃ f, L1.callers.length + 2 = (((f + 1) + 11) + 1) + 10 :=
      ⟨L1.callers.length - 21, by omega⟩
    rw [hf]
    obtain ⟨ar1, h1⟩ := luaL_traceback_loop_frames L1 ((L1.callers.length : Int) - 1) 10
      (((f + 1) + 11) + 1) s 10 {} b (by omega) (Or.inr (by norm_num))
    rw [h1]
    obtain ⟨ar2, h2⟩ := luaL_traceback_loop_skip L1 ((L1.callers.length : Int) - 1)
      ((f + 1) + 11) (s + 10) ar1
      (b ++ (List.range' s 10).map (fun j => TraceItem.frame (some j))) (by omega)
    have hc : ((10 : Int) - ((10 : Nat) : Int)) = 0 := by norm_num
    rw [hc, h2, hL2]
    have hlev : (((s + 10 : Nat) : Int) + 1 +
        ((L1.callers.length : Int) - 1 - (((s + 10 : Nat) : Int) + 1) - 11 + 1)) =
        ((L1.callers.length - 11 : Nat) : Int) := by
      push_cast
      omega
    have hn : ((L1.callers.length : Int) - 1 - (((s + 10 : Nat) : Int) + 1) - 11 + 1) =
        (L1.callers.length : Int) - 1 - s - 21 := by
      push_cast
      omega
    rw [hlev, hn]
    obtain ⟨ar3, h3⟩ := luaL_traceback_loop_frames L1 ((L1.callers.length : Int) - 1) 11
      (f + 1) (L1.callers.length - 11) (-1) ar2
      (b ++ (List.range' s 10).map (fun j => TraceItem.frame (some j)) ++
        [TraceItem.skipping ((L1.callers.length : Int) - 1 - s - 21)]) (by omega)
      (Or.inl (by norm_num))
    rw [h3, luaL_traceback_loop_end L1 _ f _ _ _ _ (by push_cast; omega)]
  · obtain ⟨n, hn⟩ : ∃ n, L1.callers.length - s - 21 = n := ⟨_, rfl⟩
    have e1 : L1.callers.length - s = 10 + (n + 11) := by omega
    have e2 : L1.callers.length - 11 = s + 10 + n := by omega
    rw [hn, e1, e2, List.append_assoc, List.range'_append_1, List.range'_append_1]
    congr 1
    omega
  · rw [List.length_range']
    omega

/-! ## Substitution in strings -/

theorem strstr_none_of_not_infix (p : List Char) (hp : p ≠ []) :
    ∀ s : List Char, ¬ p <:+: s → strstr s p = none := by
  intro s
  induction s with
  | nil =>
    intro _
    unfold strstr
    have : p.isEmpty = false := by cases p <;> simp_all
    simp [this]
  | cons c t ih =>
    intro h
    unfold strstr
    have h1 : ¬ p.isPrefixOf (c :: t) = true := by
      intro hpre
      exact h (List.isPrefixOf_iff_prefix.mp hpre).isInfix
    have h2 : ¬ p <:+: t := fun hin => h (hin.trans (List.suffix_cons c t).isInfix)
    simp [h1, ih h2]

theorem strstr_bound (p : List Char) :
    ∀ (s : List Char) (w : Nat), strstr s p = some w → w + p.length ≤ s.length := by
  intro s
  induction s with
  | nil =>
    intro w h
    unfold strstr at h
    split at h
    · rename_i he
      have : p = [] := by simpa using he
      injection h with h
      simp [this, ← h]
    · contradiction
  | cons c t ih =>
    intro w h
    unfold strstr at h
    split at h
    · rename_i hpre
      injection h with h
      have := (List.isPrefixOf_iff_prefix.mp hpre).length_le
      simp at this
      simp
      omega
    · rcases hs : strstr t p with _ | w1
      · rw [hs] at h
        contradiction
      · rw [hs] at h
        injection h with h
        have := ih w1 hs
        simp at h
        simp
        omega

theorem replaceAll_scan_cons (p r : List Char) (fuel : Nat) (c : Char) (t : List Char) :
    replaceAll_scan p r (fuel + 1) (c :: t) =
      if p.isPrefixOf (c :: t) then r ++ replaceAll_scan p r fuel ((c :: t).drop p.length)
      else c :: replaceAll_scan p r fuel t := rfl

theorem replaceAll_scan_none (p r : List Char) :
    ∀ (s : List Char) (fuel : Nat), strstr s p = none → s.length < fuel →
      replaceAll_scan p r fuel s = s := by
  intro s
  induction s with
  | nil =>
    intro fuel _ hf
    obtain ⟨k, rfl⟩ : ∃ k, fuel = k + 1 := ⟨fuel - 1, by omega⟩
    rfl
  | cons c t ih =>
    intro fuel h hf
    obtain ⟨k, rfl⟩ : ∃ k, fuel = k + 1 := ⟨fuel - 1, by omega⟩
    unfold strstr at h
    split at h
    · contradiction
    · rename_i hpre
      have ht : strstr t p = none := by
        rcases hs : strstr t p with _ | w1
        · rfl
        · rw [hs] at h
          contradiction
      rw [replaceAll_scan_cons, if_neg hpre, ih k ht (by simp at hf; omega)]

theorem replaceAll_scan_some (p r : List Char) (hp : p ≠ []) :
    ∀ (s : List Char) (w fuel : Nat), strstr s p = some w →
      replaceAll_scan p r (fuel + w + 1) s =
        s.take w ++ r ++ replaceAll_scan p r fuel (s.drop (w + p.length)) := by
  intro s
  induction s with
  | nil =>
    intro w fuel h
    unfold strstr at h
    split at h
    · rename_i he
      exact absurd (by simpa using he) hp
    · contradiction
  | cons c t ih =>
    intro w fuel h
    unfold strstr at h
    split at h
    · rename_i hpre
      injection h with h
      subst h
      show replaceAll_scan p r (fuel + 1) (c :: t) = _
      rw [replaceAll_scan_cons, if_pos hpre]
      simp
    · rename_i hpre
      rcases hs : strstr t p with _ | w1
      · rw [hs] at h
        contradiction
      · rw [hs] at h
        injection h with h
        simp only at h
        subst h
        show replaceAll_scan p r (fuel + w1 + 1 + 1) (c :: t) = _
        rw [replaceAll_scan_cons, if_neg hpre, ih w1 fuel hs]
        have : w1 + 1 + p.length = (w1 + p.length) + 1 := by omega
        rw [this]
        simp

theorem replaceAll_scan_fuel (p r : List Char) (hp : p ≠ []) :
    ∀ (n : Nat) (s : List Char) (fuel : Nat), s.length < n → s.length < fuel →
      replaceAll_scan p r fuel s = replaceAll_scan p r n s := by
  intro n
  induction n with
  | zero => intro s fuel h; omega
  | succ n ih =>
    intro s fuel hn hf
    obtain ⟨k, rfl⟩ : ∃ k, fuel = k + 1 := ⟨fuel - 1, by omega⟩
    rcases s with _ | ⟨c, t⟩
    · rfl
    · rw [replaceAll_scan_cons, replaceAll_scan_cons]
      have hl : 0 < p.length := List.length_pos.mpr hp
      by_cases hpre : p.isPrefixOf (c :: t) = true
      · rw [if_pos hpre, if_pos hpre]
        have hlen : ((c :: t).drop p.length).length < (c :: t).length := by
          rw [List.length_drop]
          simp
          omega
        rw [ih _ k (by omega) (by omega)]
      · rw [if_neg hpre, if_neg hpre]
        simp at hn hf
        rw [ih t k (by omega) (by omega)]

theorem luaL_addgsub_loop_spec (p r : List Char) (hp : p ≠ []) :
    ∀ (fuel : Nat) (b s : List Char), s.length < fuel →
      luaL_addgsub_loop p r fuel b s = .ok (b ++ replaceAll s p r) := by
  intro fuel
  induction fuel with
  | zero => intro b s h; omega
  | succ fuel ih =>
    intro b s hf
    unfold luaL_addgsub_loop
    rcases hs : strstr s p with _ | w
    · simp only [luaL_addstring]
      unfold replaceAll
      rw [replaceAll_scan_none p r s _ hs (by omega)]
    · simp only [luaL_addstring, luaL_addlstring]
      have hb := strstr_bound p s w hs
      have hl : 0 < p.length := List.length_pos.mpr hp
      have hlen : (s.drop (w + p.length)).length < fuel := by
        rw [List.length_drop]
        omega
      rw [ih _ _ hlen]
      unfold replaceAll
      have h1 : replaceAll_scan p r (s.length + 1) s
          = replaceAll_scan p r (s.length + 1 + w + 1) s :=
        replaceAll_scan_fuel p r hp _ s (s.length + 1) (by omega) (by omega)
      have hdl := List.length_drop (w + p.length) s
      have h2 : replaceAll_scan p r (s.length + 1) (s.drop (w + p.length))
          = replaceAll_scan p r ((s.drop (w + p.length)).length + 1) (s.drop (w + p.length)) :=
        replaceAll_scan_fuel p r hp _ _ (s.length + 1) (by omega) (by omega)
      rw [h1, replaceAll_scan_some p r hp s w _ hs, h2]
      simp [List.append_assoc]

theorem replaceAll_append (p r t : List Char) (hp : p ≠ []) :
    replaceAll (p ++ t) p r = r ++ replaceAll t p r := by
  obtain ⟨c, p1, rfl⟩ : ∃ c p1, p = c :: p1 := by
    cases p with
    | nil => exact absurd rfl hp
    | cons c p1 => exact ⟨c, p1, rfl⟩
  unfold replaceAll
  rw [List.cons_append, replaceAll_scan_cons]
  have hpre : (c :: p1).isPrefixOf (c :: (p1 ++ t)) = true := by
    rw [List.isPrefixOf_iff_prefix, ← List.cons_append]
    exact List.prefix_append _ _
  rw [if_pos hpre]
  have hdrop : (c :: (p1 ++ t)).drop (c :: p1).length = t := by
    rw [← List.cons_append]
    exact List.drop_left _ _
  rw [hdrop]
  rw [replaceAll_scan_fuel (c :: p1) r hp (t.length + 1) t _ (by omega) (by simp; omega)]

theorem replaceAll_cons (p r : List Char) (c : Char) (t : List Char) (h : ¬ p <+: c :: t) :
    replaceAll (c :: t) p r = c :: replaceAll t p r := by
  unfold replaceAll
  have hpre : ¬ p.isPrefixOf (c :: t) = true := fun hp => h (List.isPrefixOf_iff_prefix.mp hp)
  rw [List.length_cons, replaceAll_scan_cons, if_neg hpre]

/-- C39: for all strings s and r and every non-empty pattern p, `luaL_addgsub`
terminates and appends to the buffer the string obtained from s by replacing,
scanning left to right, each non-overlapping occurrence of p with r (the
literal r is never rescanned): `replaceAll` of the empty string is empty, of a
string that starts with p it is r followed by `replaceAll` of the rest after p,
and otherwise the first character is copied; `luaL_gsub` pushes that string;
and `luaL_addgsub` appends s unchanged when p does not occur in s. -/
theorem luaL_addgsub_spec (b s p r : List Char) (hp : p ≠ []) :
    luaL_addgsub b s p r = .ok (b ++ replaceAll s p r) ∧
    luaL_gsub s p r = .ok (replaceAll s p r) ∧
    (¬ p <:+: s → luaL_addgsub b s p r = .ok (b ++ s)) ∧
    replaceAll [] p r = [] ∧
    (∀ t, replaceAll (p ++ t) p r = r ++ replaceAll t p r) ∧
    (∀ c t, ¬ p <+: c :: t → replaceAll (c :: t) p r = c :: replaceAll t p r) := by
  refine ⟨luaL_addgsub_loop_spec p r hp _ b s (by omega), ?_, ?_, rfl,
    fun t => replaceAll_append p r t hp, fun c t h => replaceAll_cons p r c t h⟩
  · have := luaL_addgsub_loop_spec p r hp (s.length + 1) [] s (by omega)
    simpa [luaL_gsub, luaL_addgsub] using this
  · intro h
    have hs := strstr_none_of_not_infix p hp s h
    unfold luaL_addgsub luaL_addgsub_loop
    rw [hs]
    rfl

/-- C39, on the string "aaa" with the pattern "aa" and the replacement "aab":
the result is "aaba", the occurrences do not overlap and the replacement is
not scanned again. -/
theorem luaL_addgsub_spec_witness :
    ['a', 'a'] ≠ [] ∧
    luaL_gsub ['a', 'a', 'a'] ['a', 'a'] ['a', 'a', 'b'] = .ok ['a', 'a', 'b', 'a'] :=
  ⟨by decide,
   (luaL_addgsub_spec [] ['a', 'a', 'a'] ['a', 'a'] ['a', 'a', 'b'] (by decide)).2.1.trans
    (by decide)⟩

end LuaDebug
